import Mathlib

/-!
# Minibatched coordinate descent (`scd.h`): embedding and verified properties

The C++ class `scd` (file `SW/src/scd.h`) is embedded as follows.

* `float` values are exact rationals (`ℚ`); rounding is not modelled.
* `uint32_t` values are natural numbers.  Where the source computes a product, a sum or a
  difference that can leave the 32-bit range, the embedding reduces it with `u32`; index
  expressions that stay below `numSamples` or `numFeatures` are written without reduction.
* A `float*` buffer is a total map from index to value (`Buf`); the bounds of the allocation
  are not part of the trainer definitions. An 8-wide load or store (`_mm256_load_ps`,
  `_mm256_store_ps`) is an aligned access: every buffer it is applied to comes from
  `aligned_alloc(64, …)`, so the access at index `p` is 32-byte aligned exactly when `p` is a
  multiple of 8. At such an index it is modelled by its effect on the 8 cells it touches; at
  any other index it faults, and the call ends there.
* The caller-owned history buffer is a map to `Option ℚ` (`Hist`): `none` marks a cell that
  holds no value stored by the caller or by the trainer.
* Every `for (i = lo; i < hi; i++)` loop is a left fold over the list of the values taken by
  its counter.
* A `char` flag (`toMinus1_1`, `binarize_b`) is the natural number it is compared with;
  `rowOrColumnWise` is a character. The limits `numeric_limits<float>::max()` and `::min()`
  are the rational constants `FLT_MAX` and `FLT_MIN`.
-/

namespace scd

/-! ## Machine integers -/

/-- Reduction of a natural number to the range of `uint32_t`. -/
def u32 (n : Nat) : Nat := n % 4294967296

/-- The `uint32_t` difference `a - b` of two 32-bit values. -/
def u32sub (a b : Nat) : Nat := u32 (a + 4294967296 - u32 b)

/-- Values taken by the counter of `for (i = lo; i < hi; i++)`. -/
def forRange (lo hi : Nat) : List Nat := List.range' lo (hi - lo)

/-- Values taken by the counter of `for (i = 0; i < n; i += 8)` (a counter that does not wrap:
`n` at most `2^32 - 8`, which every 32-bit multiple of 8 satisfies). -/
def forStride8 (n : Nat) : List Nat := (List.range ((n + 7) / 8)).map (fun c => 8 * c)

/-! ## Data model -/

/-- A `float*` buffer. -/
abbrev Buf := Nat → ℚ

/-- The caller-owned weight history buffer `x_history`. -/
abbrev Hist := Nat → Option ℚ

/-- The fields of `class scd` read by the trainers: `a[j][i]` is feature `j` of sample `i`. -/
structure Dataset where
  a : Nat → Nat → ℚ
  b : Nat → ℚ
  numFeatures : Nat
  numSamples : Nat

/-- The working storage of one trainer call: weights `x`, residuals `error` and the running
partial dot products `inference`. -/
structure State where
  x : Buf
  error : Buf
  inference : Buf

/-- State after the three `memset(…, 0, …)` calls at the head of a trainer. -/
def State.init : State := ⟨fun _ => 0, fun _ => 0, fun _ => 0⟩

/-- What a trainer call makes visible to its caller: the history buffer `x_history` (`none` for
a `NULL` pointer) and the values printed as `Initial loss` and `Loss e`, in order. -/
structure Log where
  x_history : Option Hist
  losses : List ℚ

/-- How far the embedding follows a trainer call. `returned`: normal return, with the weights
`x` as they stand just before `free(x)`. `divisionByZero`: the call has reached the `uint32_t`
division `numSamples/minibatchSize` with a zero divisor, which C++ leaves undefined; the
embedding stops at that statement, with the weights and the log as they stand there, and
assigns no behaviour to what follows. `exited`: `exit(1)` after printing the given message,
before any buffer is allocated. `faulted`: an aligned 8-wide load or store was issued at an
address that is not 32-byte aligned; the instruction raises a general-protection fault and
the process is killed. -/
inductive Outcome where
  | returned (x : Buf) (log : Log)
  | divisionByZero (x : Buf) (log : Log)
  | exited (msg : String) (x_history : Option Hist)
  | faulted

/-! ## `calculate_loss` (scd.h 663-675) -/

/-- The inner loop of `calculate_loss`: `dot += x[j]*a[j][i]` for `j` ascending. -/
def calculate_loss_dot (ds : Dataset) (x : Buf) (i : Nat) : ℚ :=
  (forRange 0 ds.numFeatures).foldl (fun dot j => dot + x j * ds.a j i) 0

/-- The loss accumulated by the outer loop of `calculate_loss` before the final division. -/
def calculate_loss_sum (ds : Dataset) (x : Buf) : ℚ :=
  (forRange 0 ds.numSamples).foldl
    (fun loss i =>
      loss + (calculate_loss_dot ds x i - ds.b i) * (calculate_loss_dot ds x i - ds.b i)) 0

/-- The function `scd::calculate_loss`. The divisor `(float)(2*numSamples)` is the conversion of a
`uint32_t` product. -/
def calculate_loss (ds : Dataset) (x : Buf) : ℚ :=
  calculate_loss_sum ds x / ((u32 (2 * ds.numSamples) : Nat) : ℚ)

/-! ## Minibatch bookkeeping (scd.h 304-306, 377-379, 613-615) -/

/-- The value `numMinibatches = numSamples/minibatchSize`. -/
def numMinibatches (numSamples minibatchSize : Nat) : Nat := numSamples / minibatchSize

/-- The value `rest = numSamples - numMinibatches*minibatchSize`, in `uint32_t` arithmetic. -/
def rest (numSamples minibatchSize : Nat) : Nat :=
  u32sub numSamples (numMinibatches numSamples minibatchSize * minibatchSize)

/-! ## Scalar passes shared by the trainers -/

/-- The residual loop `error[t] = inference[t] - b[t]; inference[t] = 0.0;` over the samples
`idxs` (scd.h 314-317, 329-332, 432-435, 559-562), acting on the pair `(error, inference)`. -/
def residualLoop (b : Buf) (idxs : List Nat) (bufs : Buf × Buf) : Buf × Buf :=
  idxs.foldl
    (fun p t => (Function.update p.1 t (p.2 t - b t), Function.update p.2 t 0)) bufs

/-- The gradient loop `gradient += a[j][t]*error[t]; inference[t] += a[j][t]*x[j];` over the
samples `idxs` (scd.h 319-323, 334-338, 437-441, 564-568), for the column `aj = a[j]` and the
weight `xj = x[j]`, neither of which the loop writes. Returns `(gradient, inference)`. -/
def gradientLoop (aj error : Buf) (xj : ℚ) (idxs : List Nat) (inference : Buf) : ℚ × Buf :=
  idxs.foldl
    (fun p t => (p.1 + aj t * error t, Function.update p.2 t (p.2 t + aj t * xj)))
    (0, inference)

/-- Sample indices `m*minibatchSize + i`, `i = 0 .. minibatchSize-1`, of minibatch `m`. -/
def minibatchIdxs (m minibatchSize : Nat) : List Nat :=
  (forRange 0 minibatchSize).map (fun i => m * minibatchSize + i)

/-- Sample indices `numSamples-rest .. numSamples-1` of the remainder pass. -/
def restIdxs (numSamples rest : Nat) : List Nat :=
  forRange (u32sub numSamples rest) numSamples

/-- The residual loop on a trainer state. -/
def residualPass (ds : Dataset) (idxs : List Nat) (st : State) : State :=
  let r := residualLoop ds.b idxs (st.error, st.inference)
  { st with error := r.1, inference := r.2 }

/-- One iteration of `for (j = 0; j < numFeatures; j++)`: gradient loop, then
`x[j] -= stepSize*gradient` (scd.h 318-325, 333-340). -/
def coordinateStep (ds : Dataset) (stepSize : ℚ) (idxs : List Nat) (st : State) (j : Nat) :
    State :=
  let r := gradientLoop (ds.a j) st.error (st.x j) idxs st.inference
  { st with x := Function.update st.x j (st.x j - stepSize * r.1), inference := r.2 }

/-- The loop over all feature coordinates in ascending order. -/
def coordinatePass (ds : Dataset) (stepSize : ℚ) (idxs : List Nat) (st : State) : State :=
  (forRange 0 ds.numFeatures).foldl (coordinateStep ds stepSize idxs) st

/-- Residual reset followed by the coordinate loop, over the samples `idxs`. -/
def scalarStep (ds : Dataset) (stepSize : ℚ) (idxs : List Nat) (st : State) : State :=
  coordinatePass ds stepSize idxs (residualPass ds idxs st)

/-- The remainder pass `if (rest > 0) { … }` (scd.h 328-341, 431-444). -/
def restPass (ds : Dataset) (minibatchSize : Nat) (stepSize : ℚ) (st : State) : State :=
  if rest ds.numSamples minibatchSize > 0 then
    scalarStep ds stepSize (restIdxs ds.numSamples (rest ds.numSamples minibatchSize)) st
  else st

/-- The stores `x_history[epoch*numFeatures + j] = x[j]`, `j` ascending; the index is a
`uint32_t` expression (scd.h 347-349, 450-452, 577-579). -/
def recordHistory (numFeatures epoch : Nat) (x : Buf) (h : Hist) : Hist :=
  (forRange 0 numFeatures).foldl
    (fun h j => Function.update h (u32 (epoch * numFeatures + j)) (some (x j))) h

/-- End of an epoch: copy `x` into the history buffer when one is supplied, print the loss
otherwise (scd.h 346-352, 449-455, 576-582). -/
def epochEnd (ds : Dataset) (epoch : Nat) (x : Buf) (log : Log) : Log :=
  match log.x_history with
  | some h => { log with x_history := some (recordHistory ds.numFeatures epoch x h) }
  | none => { log with losses := log.losses ++ [calculate_loss ds x] }

/-- The log after the statement `cout << "Initial loss: " << calculate_loss(x)`. -/
def initialLog (ds : Dataset) (x_history : Option Hist) : Log :=
  { x_history := x_history, losses := [calculate_loss ds State.init.x] }

/-! ## `float_linreg_SCD` (scd.h 294-360) -/

/-- The body of the epoch loop of `float_linreg_SCD` up to the end of the remainder pass. -/
def scalarEpoch (ds : Dataset) (minibatchSize : Nat) (stepSize : ℚ) (st : State) : State :=
  restPass ds minibatchSize stepSize
    ((forRange 0 (numMinibatches ds.numSamples minibatchSize)).foldl
      (fun st m => scalarStep ds stepSize (minibatchIdxs m minibatchSize) st) st)

/-- The epoch loop of `float_linreg_SCD`. -/
def scalarEpochs (ds : Dataset) (numEpochs minibatchSize : Nat) (stepSize : ℚ)
    (start : State × Log) : State × Log :=
  (forRange 0 numEpochs).foldl
    (fun p epoch =>
      let st := scalarEpoch ds minibatchSize stepSize p.1
      (st, epochEnd ds epoch st.x p.2)) start

/-- The function `scd::float_linreg_SCD`. -/
def float_linreg_SCD (ds : Dataset) (x_history : Option Hist)
    (numEpochs minibatchSize : Nat) (stepSize : ℚ) : Outcome :=
  if minibatchSize = 0 then
    Outcome.divisionByZero State.init.x (initialLog ds x_history)
  else
    let p := scalarEpochs ds numEpochs minibatchSize stepSize
      (State.init, initialLog ds x_history)
    Outcome.returned p.1.x p.2

/-! ## `AVX_float_linreg_SCD` (scd.h 362-463) -/

/-- A 256-bit register of 8 `float` lanes. -/
abbrev M256 := Fin 8 → ℚ

/-- Lanes `buf[p] .. buf[p+7]`. -/
def lanesAt (buf : Buf) (p : Nat) : M256 := fun k => buf (p + k.val)

/-- The buffer `buf` with lane `k` of `v` written to `buf[p+k]`, `k = 0 .. 7`. -/
def withLanesAt (buf : Buf) (p : Nat) (v : M256) : Buf :=
  fun t => if h : p ≤ t ∧ t < p + 8 then v ⟨t - p, by omega⟩ else buf t

/-- The intrinsic `_mm256_load_ps` applied to `buf + p`: an aligned load of the lanes
`buf[p] .. buf[p+7]`. The buffer starts at a 64-byte boundary, so the address is 32-byte
aligned exactly when `p` is a multiple of 8; at any other index the load faults (`none`). -/
def mm256_load_ps (buf : Buf) (p : Nat) : Option M256 :=
  if p % 8 = 0 then some (lanesAt buf p) else none

/-- The intrinsic `_mm256_store_ps` applied to `buf + p`: an aligned store of lane `k` of `v`
to `buf[p+k]`. As for the load, the store faults (`none`) unless `p` is a multiple of 8. -/
def mm256_store_ps (buf : Buf) (p : Nat) (v : M256) : Option Buf :=
  if p % 8 = 0 then some (withLanesAt buf p v) else none

/-- Lane-wise difference. -/
def mm256_sub_ps (u v : M256) : M256 := fun k => u k - v k

/-- All lanes zero. -/
def mm256_setzero_ps : M256 := fun _ => 0

/-- All lanes equal to `c`. -/
def mm256_set1_ps (c : ℚ) : M256 := fun _ => c

/-- Lane-wise fused multiply-add `u*v + w`. -/
def mm256_fmadd_ps (u v w : M256) : M256 := fun k => u k * v k + w k

/-- The scalar reduction `gradient_reduce[0] + … + gradient_reduce[7]` of the register stored
to the local array `gradient_reduce` (scd.h 418-427, 543-551). The array is a local of the
function; its store is taken not to fault. -/
def gradient_reduce_sum (g : M256) : ℚ := g 0 + g 1 + g 2 + g 3 + g 4 + g 5 + g 6 + g 7

/-- The vectorised residual loop (scd.h 391-401, 514-524) over the blocks starting at
`base + i`, `i = 0, 8, …`, acting on the pair `(error, inference)`; `none` when one of its
loads or stores faults. -/
def avxResidualLoop (b : Buf) (base minibatchSize : Nat) (bufs : Buf × Buf) :
    Option (Buf × Buf) :=
  (forStride8 minibatchSize).foldlM
    (fun p i => do
      let b_temp ← mm256_load_ps b (base + i)
      let _ ← mm256_load_ps p.1 (base + i)
      let inference_temp ← mm256_load_ps p.2 (base + i)
      let error_temp := mm256_sub_ps inference_temp b_temp
      let inference_temp := mm256_setzero_ps
      let error ← mm256_store_ps p.1 (base + i) error_temp
      let inference ← mm256_store_ps p.2 (base + i) inference_temp
      pure (error, inference))
    bufs

/-- The vectorised gradient loop (scd.h 404-417, 529-541) for the column `aj = a[j]` and the
weight `xj = x[j]`. Returns `(gradient, inference)`; `none` when one of its loads or stores
faults. -/
def avxGradientLoop (aj error : Buf) (xj : ℚ) (base minibatchSize : Nat) (inference : Buf) :
    Option (M256 × Buf) :=
  let x_temp := mm256_set1_ps xj
  (forStride8 minibatchSize).foldlM
    (fun p i => do
      let a_temp ← mm256_load_ps aj (base + i)
      let error_temp ← mm256_load_ps error (base + i)
      let inference_temp ← mm256_load_ps p.2 (base + i)
      let gradient := mm256_fmadd_ps a_temp error_temp p.1
      let inference_temp := mm256_fmadd_ps a_temp x_temp inference_temp
      let inference ← mm256_store_ps p.2 (base + i) inference_temp
      pure (gradient, inference))
    (mm256_setzero_ps, inference)

/-- One iteration of the coordinate loop of `AVX_float_linreg_SCD` (scd.h 403-428). -/
def avxCoordinateStep (ds : Dataset) (stepSize : ℚ) (m minibatchSize : Nat) (st : State)
    (j : Nat) : Option State := do
  let r ← avxGradientLoop (ds.a j) st.error (st.x j) (m * minibatchSize) minibatchSize
    st.inference
  pure { st with x := Function.update st.x j (st.x j - stepSize * gradient_reduce_sum r.1),
                 inference := r.2 }

/-- The body of the minibatch loop of `AVX_float_linreg_SCD` (scd.h 390-429). -/
def avxStep (ds : Dataset) (stepSize : ℚ) (m minibatchSize : Nat) (st : State) :
    Option State := do
  let r ← avxResidualLoop ds.b (m * minibatchSize) minibatchSize (st.error, st.inference)
  (forRange 0 ds.numFeatures).foldlM (avxCoordinateStep ds stepSize m minibatchSize)
    { st with error := r.1, inference := r.2 }

/-- The body of the epoch loop of `AVX_float_linreg_SCD` up to the end of the remainder
pass. -/
def avxEpoch (ds : Dataset) (minibatchSize : Nat) (stepSize : ℚ) (st : State) :
    Option State := do
  let st ← (forRange 0 (numMinibatches ds.numSamples minibatchSize)).foldlM
    (fun st m => avxStep ds stepSize m minibatchSize st) st
  pure (restPass ds minibatchSize stepSize st)

/-- The epoch loop of `AVX_float_linreg_SCD`; `none` when an access faults. -/
def avxEpochs (ds : Dataset) (numEpochs minibatchSize : Nat) (stepSize : ℚ)
    (start : State × Log) : Option (State × Log) :=
  (forRange 0 numEpochs).foldlM
    (fun p epoch => do
      let st ← avxEpoch ds minibatchSize stepSize p.1
      pure (st, epochEnd ds epoch st.x p.2)) start

/-- The message printed by the guard of the vectorised trainers. -/
def avxGuardMessage : String := "For AVX minibatchSize%8 must be 0!"

/-- The function `scd::AVX_float_linreg_SCD`. -/
def AVX_float_linreg_SCD (ds : Dataset) (x_history : Option Hist)
    (numEpochs minibatchSize : Nat) (stepSize : ℚ) : Outcome :=
  if minibatchSize % 8 = 8 then
    Outcome.exited avxGuardMessage x_history
  else if minibatchSize = 0 then
    Outcome.divisionByZero State.init.x (initialLog ds x_history)
  else
    match avxEpochs ds numEpochs minibatchSize stepSize (State.init, initialLog ds x_history) with
    | some p => Outcome.returned p.1.x p.2
    | none => Outcome.faulted

/-! ## `AVXmulti_float_linreg_SCD` and `coordinate_thread` (scd.h 465-660)

The workers are run one after another inside each barrier-delimited phase: the leader's
reduction, then the update of every worker in the order of its `tid`, and at the end of the
epoch the leader's remainder pass and history store. A fault of an 8-wide access in any of
them ends the call. -/

/-- The constant `NUM_THREADS` of scd.h. -/
def NUM_THREADS : Nat := 14

/-- The fields `tid`, `startingCoord` and `numCoordsToProcess` of `coordinate_thread_data`. -/
structure CoordArgs where
  tid : Nat
  startingCoord : Nat
  numCoordsToProcess : Nat

/-- The thread-creation loop (scd.h 618-650) for `W` workers: the running `startingCoord` and the
arguments handed to the workers created so far. -/
def assignLoop (W numFeatures : Nat) : Nat × List CoordArgs :=
  (forRange 0 W).foldl
    (fun p n =>
      let numCoordsToProcess :=
        if n = W - 1 then u32sub numFeatures p.1 else numFeatures / W
      (u32 (p.1 + numCoordsToProcess), p.2 ++ [⟨n, p.1, numCoordsToProcess⟩]))
    (0, [])

/-- The arguments of the `W` workers, in creation order. -/
def assignCoords (W numFeatures : Nat) : List CoordArgs := (assignLoop W numFeatures).2

/-- The storage shared by the workers: weights, residuals, one private `inference` buffer per
worker, and the leader's `inference_reduce`. -/
structure PState where
  x : Buf
  error : Buf
  inference : Nat → Buf
  inference_reduce : Buf

/-- State after the `memset` calls of `AVXmulti_float_linreg_SCD` and of the leader. -/
def PState.init : PState := ⟨fun _ => 0, fun _ => 0, fun _ _ => 0, fun _ => 0⟩

/-- The leader's accumulation loop (scd.h 508-513): for every sample of minibatch `m` and every
worker `n`, add `inference[n][t]` to `inference_reduce[t]` and clear it. -/
def reduceLoop (W m minibatchSize : Nat) (ps : PState) : PState :=
  (forRange 0 minibatchSize).foldl
    (fun ps i =>
      (forRange 0 W).foldl
        (fun ps n =>
          { ps with
            inference_reduce := Function.update ps.inference_reduce (m * minibatchSize + i)
              (ps.inference_reduce (m * minibatchSize + i)
                + ps.inference n (m * minibatchSize + i)),
            inference := Function.update ps.inference n
              (Function.update (ps.inference n) (m * minibatchSize + i) 0) })
        ps)
    ps

/-- The leader's reduction phase (scd.h 507-525). -/
def leaderReduce (ds : Dataset) (W m minibatchSize : Nat) (ps : PState) : Option PState := do
  let ps1 := reduceLoop W m minibatchSize ps
  let r ← avxResidualLoop ds.b (m * minibatchSize) minibatchSize
    (ps1.error, ps1.inference_reduce)
  pure { ps1 with error := r.1, inference_reduce := r.2 }

/-- One iteration of a worker's coordinate loop (scd.h 529-551), on its private buffer. -/
def workerCoordinateStep (ds : Dataset) (stepSize : ℚ) (m minibatchSize tid : Nat)
    (ps : PState) (j : Nat) : Option PState := do
  let r ← avxGradientLoop (ds.a j) ps.error (ps.x j) (m * minibatchSize) minibatchSize
    (ps.inference tid)
  pure { ps with x := Function.update ps.x j (ps.x j - stepSize * gradient_reduce_sum r.1),
                 inference := Function.update ps.inference tid r.2 }

/-- The update phase of one worker (scd.h 528-552): the coordinates
`startingCoord .. startingCoord+numCoordsToProcess-1` in ascending order. -/
def workerUpdate (ds : Dataset) (stepSize : ℚ) (m minibatchSize : Nat) (ps : PState)
    (r : CoordArgs) : Option PState :=
  (forRange r.startingCoord (u32 (r.startingCoord + r.numCoordsToProcess))).foldlM
    (workerCoordinateStep ds stepSize m minibatchSize r.tid) ps

/-- One round of the minibatch loop (scd.h 506-554): reduction, barrier, the update of every
worker, barrier. -/
def parallelStep (ds : Dataset) (args : List CoordArgs) (W : Nat) (stepSize : ℚ)
    (m minibatchSize : Nat) (ps : PState) : Option PState := do
  let ps ← leaderReduce ds W m minibatchSize ps
  args.foldlM (workerUpdate ds stepSize m minibatchSize) ps

/-- One iteration of the coordinate loop of the leader's remainder pass (scd.h 563-570). -/
def leaderRestCoordinateStep (ds : Dataset) (stepSize : ℚ) (idxs : List Nat) (ps : PState)
    (j : Nat) : PState :=
  let r := gradientLoop (ds.a j) ps.error (ps.x j) idxs ps.inference_reduce
  { ps with x := Function.update ps.x j (ps.x j - stepSize * r.1), inference_reduce := r.2 }

/-- The leader's remainder pass (scd.h 558-571). -/
def leaderRestPass (ds : Dataset) (minibatchSize : Nat) (stepSize : ℚ) (ps : PState) :
    PState :=
  if rest ds.numSamples minibatchSize > 0 then
    let idxs := restIdxs ds.numSamples (rest ds.numSamples minibatchSize)
    let r := residualLoop ds.b idxs (ps.error, ps.inference_reduce)
    (forRange 0 ds.numFeatures).foldl (leaderRestCoordinateStep ds stepSize idxs)
      { ps with error := r.1, inference_reduce := r.2 }
  else ps

/-- The body of the epoch loop of the workers up to the end of the remainder pass. -/
def parallelEpoch (ds : Dataset) (args : List CoordArgs) (W minibatchSize : Nat)
    (stepSize : ℚ) (ps : PState) : Option PState := do
  let ps ← (forRange 0 (numMinibatches ds.numSamples minibatchSize)).foldlM
    (fun ps m => parallelStep ds args W stepSize m minibatchSize ps) ps
  pure (leaderRestPass ds minibatchSize stepSize ps)

/-- The epoch loop of the workers; `none` when an access faults. -/
def parallelEpochs (ds : Dataset) (args : List CoordArgs) (W numEpochs minibatchSize : Nat)
    (stepSize : ℚ) (start : PState × Log) : Option (PState × Log) :=
  (forRange 0 numEpochs).foldlM
    (fun p epoch => do
      let ps ← parallelEpoch ds args W minibatchSize stepSize p.1
      pure (ps, epochEnd ds epoch ps.x p.2)) start

/-- The function `scd::AVXmulti_float_linreg_SCD` with `W` workers (`W = NUM_THREADS` in
scd.h). -/
def AVXmulti_float_linreg_SCD (W : Nat) (ds : Dataset) (x_history : Option Hist)
    (numEpochs minibatchSize : Nat) (stepSize : ℚ) : Outcome :=
  if minibatchSize % 8 = 8 then
    Outcome.exited avxGuardMessage x_history
  else if minibatchSize = 0 then
    Outcome.divisionByZero PState.init.x (initialLog ds x_history)
  else
    match parallelEpochs ds (assignCoords W ds.numFeatures) W numEpochs minibatchSize
      stepSize (PState.init, initialLog ds x_history) with
    | some p => Outcome.returned p.1.x p.2
    | none => Outcome.faulted

/-! ## Auxiliary definitions used by the proofs -/

/-- The arguments handed to worker `n`, in closed form: `startingCoord = n*(numFeatures/W)`. -/
def coordArgsOf (W numFeatures n : Nat) : CoordArgs :=
  ⟨n, n * (numFeatures / W),
    if n = W - 1 then numFeatures - n * (numFeatures / W) else numFeatures / W⟩

/-- The simulation relation between the storage of the parallel trainer with `W` workers and
the state of the scalar trainer: same weights, same residuals, the scalar `inference` is the
sum of `inference_reduce` and of the private buffers, and the private buffers are zero from
index `bound` on. -/
def Sim (W bound : Nat) (ps : PState) (st : State) : Prop :=
  ps.x = st.x ∧ ps.error = st.error ∧
  (∀ t, ps.inference_reduce t + ∑ n in Finset.range W, ps.inference n t = st.inference t) ∧
  (∀ n t, bound ≤ t → ps.inference n t = 0)

/-- The coordinates visited by the update phase of a worker, in order. -/
def workerCoords (r : CoordArgs) : List Nat :=
  forRange r.startingCoord (u32 (r.startingCoord + r.numCoordsToProcess))

/-! ## Observers and concrete inputs -/

/-- The printed losses of a call that returned normally (empty otherwise). -/
def Outcome.returnedLosses : Outcome → List ℚ
  | Outcome.returned _ log => log.losses
  | Outcome.divisionByZero _ _ => []
  | Outcome.exited _ _ => []
  | Outcome.faulted => []

/-- The history buffer left by a call that returned normally. -/
def Outcome.returnedHistory : Outcome → Option Hist
  | Outcome.returned _ log => log.x_history
  | Outcome.divisionByZero _ _ => none
  | Outcome.exited _ _ => none
  | Outcome.faulted => none

/-- Whether the call ended in `exit(1)`. -/
def Outcome.rejected : Outcome → Bool
  | Outcome.returned _ _ => false
  | Outcome.divisionByZero _ _ => false
  | Outcome.exited _ _ => true
  | Outcome.faulted => false

/-- Whether the call was killed by the fault of a misaligned 8-wide access. -/
def Outcome.killedByFault : Outcome → Bool
  | Outcome.returned _ _ => false
  | Outcome.divisionByZero _ _ => false
  | Outcome.exited _ _ => false
  | Outcome.faulted => true

/-- A history buffer none of whose cells holds a value yet. -/
def emptyHist : Hist := fun _ => none

/-- The dataset whose feature columns and labels are the given lists. -/
def Dataset.ofLists (columns : List (List ℚ)) (labels : List ℚ) : Dataset :=
  { a := fun j i => (columns.getD j []).getD i 0,
    b := fun i => labels.getD i 0,
    numFeatures := columns.length,
    numSamples := labels.length }

/-- The scenario of 4 samples and 2 features: a bias column and the feature `[1,2,3,4]`, with
labels `[1,2,3,4]`. -/
def scenarioDataset : Dataset := Dataset.ofLists [[1, 1, 1, 1], [1, 2, 3, 4]] [1, 2, 3, 4]

/-- The loss as the specification words it: the sum over the samples of the squared residual
`(sum over j of x[j]*a[j][i]) - b[i]`, divided by `2 * numSamples`. -/
def calculate_loss_spec (ds : Dataset) (x : Buf) : ℚ :=
  (∑ i in Finset.range ds.numSamples,
      (∑ j in Finset.range ds.numFeatures, x j * ds.a j i - ds.b i) ^ 2)
    / (2 * (ds.numSamples : ℚ))

/-- A dataset of `numSamples` samples with one feature that is `0` everywhere and all labels
equal to `1`. -/
def constantDataset (numSamples : Nat) : Dataset :=
  { a := fun _ _ => 0, b := fun _ => 1, numFeatures := 1, numSamples := numSamples }

/-- A dataset of one sample with `numFeatures` features, all values and the label equal
to `1`. -/
def wideDataset (numFeatures : Nat) : Dataset :=
  { a := fun _ _ => 1, b := fun _ => 1, numFeatures := numFeatures, numSamples := 1 }

/-- The weights at the end of epoch `e` (counted from `0`) of `float_linreg_SCD`. -/
def weightsAfterEpoch (ds : Dataset) (minibatchSize : Nat) (stepSize : ℚ) (e : Nat) : Buf :=
  ((scalarEpoch ds minibatchSize stepSize)^[e + 1] State.init).x

/-! ## Normalisation: `a_normalize` and `b_normalize` (scd.h 188-282) -/

/-- The value `numeric_limits<float>::max()`, the largest finite `float`. -/
def FLT_MAX : ℚ := 340282346638528859811704183484516925440

/-- The value `numeric_limits<float>::min()`, the smallest positive normal `float`,
`2^-126`. -/
def FLT_MIN : ℚ := 1 / 85070591730234615865843651857942052864

/-- The fields of `class scd` touched by the normalisation functions: the dataset, the two
`char` flags and the recorded label transform. -/
structure Scd where
  data : Dataset
  a_normalizedToMinus1_1 : Nat
  b_normalizedToMinus1_1 : Nat
  b_range : ℚ
  b_min : ℚ

/-- The scan `if (v > amax) amax = v; if (v < amin) amin = v;` over the cells `idxs` of
`read`, started from `amin = numeric_limits<float>::max()` and
`amax = numeric_limits<float>::min()` (scd.h 192-200, 218-226, 247-254). Returns
`(amin, amax)`. -/
def scanLoop (read : Nat → ℚ) (idxs : List Nat) : ℚ × ℚ :=
  idxs.foldl
    (fun p t =>
      let a_here := read t
      (if a_here < p.1 then a_here else p.1, if a_here > p.2 then a_here else p.2))
    (FLT_MAX, FLT_MIN)

/-- The value written by the rescaling loops: `((v - amin)/arange)*2.0-1.0` when
`toMinus1_1 == 1`, `(v - amin)/arange` otherwise. -/
def rescale (toMinus1_1 : Nat) (amin arange v : ℚ) : ℚ :=
  if toMinus1_1 = 1 then ((v - amin) / arange) * 2 - 1 else (v - amin) / arange

/-- The loop `for (i = 0; i < n; i++) buf[i] = rescaled buf[i]` on one column buffer `a[j]` or
on `b` (scd.h 229-238, 258-267). -/
def rescaleLoop (toMinus1_1 : Nat) (amin arange : ℚ) (n : Nat) (buf : Buf) : Buf :=
  (forRange 0 n).foldl
    (fun buf i => Function.update buf i (rescale toMinus1_1 amin arange (buf i))) buf

/-- One iteration of the column loop of `a_normalize` (scd.h 217-240): scan column `j`, then
rescale it when `arange > 0`. -/
def normalizeColumn (toMinus1_1 numSamples : Nat) (a : Nat → Buf) (j : Nat) : Nat → Buf :=
  let s := scanLoop (a j) (forRange 0 numSamples)
  let arange := s.2 - s.1
  if arange > 0 then
    Function.update a j (rescaleLoop toMinus1_1 s.1 arange numSamples (a j))
  else a

/-- One iteration of the row loop of `a_normalize` (scd.h 191-214): scan sample `i` across the
features, then rescale it when `arange > 0`. -/
def normalizeRow (toMinus1_1 numFeatures : Nat) (a : Nat → Buf) (i : Nat) : Nat → Buf :=
  let s := scanLoop (fun j => a j i) (forRange 0 numFeatures)
  let arange := s.2 - s.1
  if arange > 0 then
    (forRange 0 numFeatures).foldl
      (fun a j =>
        Function.update a j (Function.update (a j) i (rescale toMinus1_1 s.1 arange (a j i))))
      a
  else a

/-- The function `scd::a_normalize`: row-wise when `rowOrColumnWise == 'r'`, otherwise
column-wise over the columns `1 .. numFeatures-1`. -/
def a_normalize (toMinus1_1 : Nat) (rowOrColumnWise : Char) (sc : Scd) : Scd :=
  { sc with
    a_normalizedToMinus1_1 := toMinus1_1,
    data := { sc.data with
      a := if rowOrColumnWise = 'r' then
          (forRange 0 sc.data.numSamples).foldl
            (normalizeRow toMinus1_1 sc.data.numFeatures) sc.data.a
        else
          (forRange 1 sc.data.numFeatures).foldl
            (normalizeColumn toMinus1_1 sc.data.numSamples) sc.data.a } }

/-- The function `scd::b_normalize`. -/
def b_normalize (toMinus1_1 binarize_b : Nat) (b_toBinarizeTo : ℚ) (sc : Scd) : Scd :=
  if binarize_b = 0 then
    let s := scanLoop sc.data.b (forRange 0 sc.data.numSamples)
    let brange := s.2 - s.1
    { sc with
      b_normalizedToMinus1_1 := toMinus1_1,
      data := { sc.data with
        b := if brange > 0 then
            rescaleLoop toMinus1_1 s.1 brange sc.data.numSamples sc.data.b
          else sc.data.b },
      b_min := s.1,
      b_range := brange }
  else
    { sc with
      b_normalizedToMinus1_1 := toMinus1_1,
      data := { sc.data with
        b := (forRange 0 sc.data.numSamples).foldl
          (fun b i => Function.update b i (if b i = b_toBinarizeTo then 1 else -1))
          sc.data.b },
      b_min := -1,
      b_range := 2 }

/-- An `scd` object holding the given columns and labels, before any normalisation. -/
def Scd.ofLists (columns : List (List ℚ)) (labels : List ℚ) : Scd :=
  { data := Dataset.ofLists columns labels,
    a_normalizedToMinus1_1 := 0, b_normalizedToMinus1_1 := 0, b_range := 0, b_min := 0 }

/-- The buffer left by scanning the first `n` cells of `buf` and rescaling them when the
scanned range is positive: what `a_normalize` does to one column and `b_normalize` to the
labels. -/
def normalizedBuf (toMinus1_1 n : Nat) (buf : Buf) : Buf :=
  if (scanLoop buf (forRange 0 n)).2 - (scanLoop buf (forRange 0 n)).1 > 0 then
    rescaleLoop toMinus1_1 (scanLoop buf (forRange 0 n)).1
      ((scanLoop buf (forRange 0 n)).2 - (scanLoop buf (forRange 0 n)).1) n buf
  else buf

/-- The lower end of the target interval: `-1` when `toMinus1_1 == 1`, `0` otherwise. -/
def targetLow (toMinus1_1 : Nat) : ℚ := if toMinus1_1 = 1 then -1 else 0

/-! ## States along a run of `float_linreg_SCD` -/

/-- The state of `float_linreg_SCD` at the start of epoch `e` (counted from `0`). -/
def epochStart (ds : Dataset) (minibatchSize : Nat) (stepSize : ℚ) (e : Nat) : State :=
  (scalarEpoch ds minibatchSize stepSize)^[e] State.init

/-- The state just before minibatch `m` is processed, in an epoch of `float_linreg_SCD`
started in state `st`: the first `m` iterations of the minibatch loop have run. -/
def beforeMinibatch (ds : Dataset) (minibatchSize : Nat) (stepSize : ℚ) (st : State)
    (m : Nat) : State :=
  (forRange 0 m).foldl (fun st m' => scalarStep ds stepSize (minibatchIdxs m' minibatchSize) st) st

/-- The `error` buffer right after the residual loop of minibatch `m` in epoch `e` of
`float_linreg_SCD`: the residuals with which that minibatch is processed. -/
def residualsOfMinibatch (ds : Dataset) (minibatchSize : Nat) (stepSize : ℚ) (e m : Nat) : Buf :=
  (residualPass ds (minibatchIdxs m minibatchSize)
    (beforeMinibatch ds minibatchSize stepSize (epochStart ds minibatchSize stepSize e) m)).error

/-- The `error` buffer right after the residual loop of the remainder pass in epoch `e` of
`float_linreg_SCD`. -/
def residualsOfRest (ds : Dataset) (minibatchSize : Nat) (stepSize : ℚ) (e : Nat) : Buf :=
  (residualPass ds (restIdxs ds.numSamples (rest ds.numSamples minibatchSize))
    (beforeMinibatch ds minibatchSize stepSize (epochStart ds minibatchSize stepSize e)
      (numMinibatches ds.numSamples minibatchSize))).error

/-- The prediction of the linear model with weights `w` on sample `i`:
`sum over j < numFeatures of a[j][i]*w[j]`. -/
def predict (ds : Dataset) (w : Buf) (i : Nat) : ℚ :=
  ∑ j in Finset.range ds.numFeatures, ds.a j i * w j

/-- The effect of one step over the samples `lo .. lo+n-1` that leads from `st` to `st'`:
on the range, `error` is the old `inference` minus the label and `inference` is the
prediction of the old weights; off the range both are unchanged; every weight `j` below
`numFeatures` has moved by `-stepSize` times the sum over the range of
`a[j][i]*(inference[i] - b[i])`, and the other cells of `x` are unchanged. -/
def StepEffect (ds : Dataset) (stepSize : ℚ) (lo n : Nat) (st st' : State) : Prop :=
  (∀ i, lo ≤ i → i < lo + n → st'.error i = st.inference i - ds.b i) ∧
  (∀ j, j < ds.numFeatures →
    st'.x j = st.x j
      - stepSize * ∑ i in Finset.range n, ds.a j (lo + i) * (st.inference (lo + i) - ds.b (lo + i))) ∧
  (∀ i, lo ≤ i → i < lo + n → st'.inference i = predict ds st.x i) ∧
  (∀ i, ¬ (lo ≤ i ∧ i < lo + n) → st'.error i = st.error i ∧ st'.inference i = st.inference i) ∧
  (∀ j, ds.numFeatures ≤ j → st'.x j = st.x j)

/-- The storage of `AVXmulti_float_linreg_SCD` with `W` workers at the start of epoch `e`;
`none` when an access of an earlier epoch faults. -/
def parallelEpochStart (W : Nat) (ds : Dataset) (minibatchSize : Nat) (stepSize : ℚ) :
    Nat → Option PState
  | 0 => some PState.init
  | e + 1 =>
    (parallelEpochStart W ds minibatchSize stepSize e).bind
      (parallelEpoch ds (assignCoords W ds.numFeatures) W minibatchSize stepSize)

/-- The storage of the parallel trainer at the start of the reduction phase of minibatch `m`,
in an epoch started in `ps`; `none` when an access of an earlier minibatch faults. -/
def parallelBeforeMinibatch (W : Nat) (ds : Dataset) (minibatchSize : Nat) (stepSize : ℚ)
    (ps : PState) (m : Nat) : Option PState :=
  (forRange 0 m).foldlM
    (fun ps m' => parallelStep ds (assignCoords W ds.numFeatures) W stepSize m' minibatchSize ps)
    ps

/-- The residual computed for sample `i` in epoch `e` of `float_linreg_SCD`: the value stored
in `error[i]` by the residual loop of the full minibatch `i / minibatchSize` when there is
such a minibatch, and by the residual loop of the remainder pass otherwise. -/
def residualOfSample (ds : Dataset) (minibatchSize : Nat) (stepSize : ℚ) (e i : Nat) : ℚ :=
  if i / minibatchSize < numMinibatches ds.numSamples minibatchSize then
    residualsOfMinibatch ds minibatchSize stepSize e (i / minibatchSize) i
  else residualsOfRest ds minibatchSize stepSize e i

/-- The cells touched by the 8-wide loads and stores of one run of a vectorised loop of
`AVX_float_linreg_SCD` (scd.h 391-401, 408-417): lanes `k = 0 .. 7` at the addresses
`base + i`, `i = 0, 8, …` below `minibatchSize`; an access at an address that is not a
multiple of 8 faults and touches no cell. -/
def avxTouched (base minibatchSize : Nat) : List Nat :=
  (forStride8 minibatchSize).flatMap
    (fun i => if (base + i) % 8 = 0 then (List.range 8).map (fun k => base + i + k) else [])

/-! # Theorems -/

/-! ## Loop counters -/

theorem forRange_zero (n : Nat) : forRange 0 n = List.range n := by
  simp [forRange, List.range_eq_range']

theorem u32_of_lt {n : Nat} (h : n < 4294967296) : u32 n = n := Nat.mod_eq_of_lt h

theorem u32sub_of_le {a b : Nat} (ha : a < 4294967296) (hb : b ≤ a) : u32sub a b = a - b := by
  unfold u32sub u32
  rw [Nat.mod_eq_of_lt (lt_of_le_of_lt hb ha)]
  omega

/-! ## Minibatch bookkeeping -/

theorem rest_eq_mod {numSamples : Nat} (minibatchSize : Nat) (hS : numSamples < 4294967296) :
    rest numSamples minibatchSize = numSamples % minibatchSize := by
  unfold rest numMinibatches
  rw [u32sub_of_le hS (Nat.div_mul_le_self _ _)]
  have := Nat.div_add_mod numSamples minibatchSize
  rw [Nat.mul_comm] at this
  omega

/-- **C4.** For a 32-bit `numSamples` and `minibatchSize > 0`, the product
`numMinibatches*minibatchSize` and the sum `numMinibatches*minibatchSize + rest` stay in the
32-bit range, the sum is `numSamples`, `rest` is `numSamples mod minibatchSize`, it is below
`minibatchSize`, and it is `0` when `minibatchSize` divides `numSamples`. -/
theorem minibatch_bookkeeping (numSamples minibatchSize : Nat)
    (hS : numSamples < 4294967296) (hmb : 0 < minibatchSize) :
    numMinibatches numSamples minibatchSize * minibatchSize < 4294967296 ∧
    numMinibatches numSamples minibatchSize * minibatchSize
      + rest numSamples minibatchSize = numSamples ∧
    u32 (u32 (numMinibatches numSamples minibatchSize * minibatchSize)
      + rest numSamples minibatchSize) = numSamples ∧
    rest numSamples minibatchSize = numSamples % minibatchSize ∧
    rest numSamples minibatchSize < minibatchSize ∧
    (minibatchSize ∣ numSamples → rest numSamples minibatchSize = 0) := by
  have hle : numMinibatches numSamples minibatchSize * minibatchSize ≤ numSamples :=
    Nat.div_mul_le_self _ _
  have hrest := rest_eq_mod minibatchSize hS
  have hsum : numMinibatches numSamples minibatchSize * minibatchSize
      + rest numSamples minibatchSize = numSamples := by
    rw [hrest]
    unfold numMinibatches
    have := Nat.div_add_mod numSamples minibatchSize
    rw [Nat.mul_comm] at this
    exact this
  refine ⟨lt_of_le_of_lt hle hS, hsum, ?_, hrest, ?_, ?_⟩
  · rw [u32_of_lt (lt_of_le_of_lt hle hS), hsum, u32_of_lt hS]
  · rw [hrest]
    exact Nat.mod_lt _ hmb
  · intro hdvd
    rw [hrest]
    exact Nat.mod_eq_zero_of_dvd hdvd

theorem minibatch_bookkeeping_witness :
    12 < 4294967296 ∧ 0 < 4 ∧
    numMinibatches 12 4 * 4 < 4294967296 ∧
    numMinibatches 12 4 * 4 + rest 12 4 = 12 ∧
    u32 (u32 (numMinibatches 12 4 * 4) + rest 12 4) = 12 ∧
    rest 12 4 = 12 % 4 ∧
    rest 12 4 < 4 ∧
    (4 ∣ 12 → rest 12 4 = 0) :=
  ⟨by decide, by decide, minibatch_bookkeeping 12 4 (by decide) (by decide)⟩

/-! ## Coordinate ranges of the workers -/

theorem mul_div_le_of_lt {W F n : Nat} (hn : n < W) : n * (F / W) ≤ F := by
  calc n * (F / W) ≤ W * (F / W) := Nat.mul_le_mul_right _ (le_of_lt hn)
    _ ≤ F := Nat.mul_div_le F W

theorem assignLoop_prefix (W F : Nat) (hF : F < 4294967296) (k : Nat) (hk : k ≤ W) :
    (List.range k).foldl
      (fun (p : Nat × List CoordArgs) n =>
        let numCoordsToProcess := if n = W - 1 then u32sub F p.1 else F / W
        (u32 (p.1 + numCoordsToProcess), p.2 ++ [⟨n, p.1, numCoordsToProcess⟩]))
      (0, [])
    = (if k = W ∧ 0 < W then F else k * (F / W), (List.range k).map (coordArgsOf W F)) := by
  induction k with
  | zero =>
    by_cases hW : 0 = W
    · subst hW; simp
    · have : ¬ (0 = W ∧ 0 < W) := fun h => hW h.1
      simp [this]
  | succ k ih =>
    have hkW : k < W := hk
    have hne : ¬ (k = W ∧ 0 < W) := fun h => by omega
    rw [List.range_succ, List.foldl_append, ih (le_of_lt hkW)]
    simp only [hne, if_false, List.foldl_cons, List.foldl_nil, List.map_append, List.map_cons,
      List.map_nil]
    have hle : k * (F / W) ≤ F := mul_div_le_of_lt hkW
    by_cases hlast : k = W - 1
    · have h1 : k + 1 = W ∧ 0 < W := by omega
      simp only [hlast, if_true, coordArgsOf]
      rw [← hlast, u32sub_of_le hF hle]
      have h2 : k * (F / W) + (F - k * (F / W)) = F := by omega
      rw [h2, u32_of_lt hF]
      simp [h1]
    · have h1 : ¬ (k + 1 = W ∧ 0 < W) := fun h => by omega
      have h3 : (k + 1) * (F / W) ≤ F := mul_div_le_of_lt (by omega)
      have h4 : k * (F / W) + F / W = (k + 1) * (F / W) := by ring
      simp only [hlast, if_false, coordArgsOf, h1]
      rw [h4, u32_of_lt (lt_of_le_of_lt h3 hF)]

theorem assignCoords_eq (W F : Nat) (hF : F < 4294967296) :
    assignCoords W F = (List.range W).map (coordArgsOf W F) := by
  unfold assignCoords assignLoop
  rw [forRange_zero, assignLoop_prefix W F hF W le_rfl]


theorem assignCoords_getElem? (W F : Nat) (hF : F < 4294967296) (n : Nat) :
    (assignCoords W F)[n]? = if n < W then some (coordArgsOf W F n) else none := by
  rw [assignCoords_eq W F hF]
  by_cases h : n < W
  · simp [h, List.getElem?_range]
  · simp [h]
    omega

/-- **C3.** For a 32-bit `numFeatures` and `W ≥ 1` workers, the thread-creation loop hands
worker `n` the identifier `n` and `numFeatures/W` coordinates (the last worker:
`numFeatures - startingCoord`); the ranges `[startingCoord, startingCoord + numCoordsToProcess)`
start at `0`, each begins where the previous one ends, the last ends at `numFeatures`, none
leaves `[0, numFeatures)`, every coordinate below `numFeatures` lies in one of them, and no
coordinate lies in two. -/
theorem coordinate_ranges_partition (W numFeatures : Nat) (hW : 1 ≤ W)
    (hF : numFeatures < 4294967296) :
    (assignCoords W numFeatures).length = W ∧
    (∀ (n : Nat) (r : CoordArgs), (assignCoords W numFeatures)[n]? = some r →
      r.tid = n ∧
      r.numCoordsToProcess
        = (if n = W - 1 then numFeatures - r.startingCoord else numFeatures / W) ∧
      r.startingCoord + r.numCoordsToProcess ≤ numFeatures) ∧
    (∀ r : CoordArgs, (assignCoords W numFeatures)[0]? = some r → r.startingCoord = 0) ∧
    (∀ (n : Nat) (r r' : CoordArgs), (assignCoords W numFeatures)[n]? = some r →
      (assignCoords W numFeatures)[n + 1]? = some r' →
      r'.startingCoord = r.startingCoord + r.numCoordsToProcess) ∧
    (∀ r : CoordArgs, (assignCoords W numFeatures)[W - 1]? = some r →
      r.startingCoord + r.numCoordsToProcess = numFeatures) ∧
    (∀ j, j < numFeatures → ∃ (n : Nat) (r : CoordArgs), (assignCoords W numFeatures)[n]? = some r ∧
      r.startingCoord ≤ j ∧ j < r.startingCoord + r.numCoordsToProcess) ∧
    (∀ (n n' : Nat) (r r' : CoordArgs) (j : Nat), (assignCoords W numFeatures)[n]? = some r →
      (assignCoords W numFeatures)[n']? = some r' →
      r.startingCoord ≤ j → j < r.startingCoord + r.numCoordsToProcess →
      r'.startingCoord ≤ j → j < r'.startingCoord + r'.numCoordsToProcess → n = n') := by
  have key : ∀ (n : Nat) (r : CoordArgs), (assignCoords W numFeatures)[n]? = some r →
      n < W ∧ r = coordArgsOf W numFeatures n := by
    intro n r h
    rw [assignCoords_getElem? W numFeatures hF] at h
    by_cases hn : n < W
    · simp [hn] at h
      exact ⟨hn, h.symm⟩
    · simp [hn] at h
  have hstart : ∀ n, n < W → n * (numFeatures / W) ≤ numFeatures :=
    fun n hn => mul_div_le_of_lt hn
  have hend : ∀ n, n < W → n ≠ W - 1 →
      n * (numFeatures / W) + numFeatures / W ≤ (n + 1) * (numFeatures / W) := by
    intro n _ _
    exact le_of_eq (by ring)
  refine ⟨?_, ?_, ?_, ?_, ?_, ?_, ?_⟩
  · rw [assignCoords_eq W numFeatures hF]
    simp
  · intro n r h
    obtain ⟨hn, rfl⟩ := key n r h
    refine ⟨rfl, rfl, ?_⟩
    simp only [coordArgsOf]
    by_cases hl : n = W - 1
    · simp only [hl, if_true]
      have := hstart (W - 1) (by omega)
      omega
    · simp only [hl, if_false]
      have h1 := hend n hn hl
      have h2 := hstart (n + 1) (by omega)
      omega
  · intro r h
    obtain ⟨_, rfl⟩ := key 0 r h
    simp [coordArgsOf]
  · intro n r r' h h'
    obtain ⟨_, rfl⟩ := key n r h
    obtain ⟨hn', rfl⟩ := key (n + 1) r' h'
    have hl : n ≠ W - 1 := by omega
    simp only [coordArgsOf, hl, if_false]
    ring
  · intro r h
    obtain ⟨_, rfl⟩ := key (W - 1) r h
    simp only [coordArgsOf, if_true]
    have := hstart (W - 1) (by omega)
    omega
  · intro j hj
    by_cases hq : j / (numFeatures / W) < W - 1 ∧ 0 < numFeatures / W
    · obtain ⟨hlt, hpos⟩ := hq
      refine ⟨j / (numFeatures / W), coordArgsOf W numFeatures (j / (numFeatures / W)), ?_, ?_, ?_⟩
      · rw [assignCoords_getElem? W numFeatures hF]
        simp
        omega
      · simp only [coordArgsOf]
        exact Nat.div_mul_le_self _ _
      · have hl : j / (numFeatures / W) ≠ W - 1 := by omega
        simp only [coordArgsOf, hl, if_false]
        have h5 := Nat.div_add_mod j (numFeatures / W)
        have h6 := Nat.mod_lt j hpos
        rw [Nat.mul_comm] at h5
        generalize j / (numFeatures / W) * (numFeatures / W) = p at h5 ⊢
        omega
    · refine ⟨W - 1, coordArgsOf W numFeatures (W - 1), ?_, ?_, ?_⟩
      · rw [assignCoords_getElem? W numFeatures hF]
        simp
        omega
      · simp only [coordArgsOf]
        by_cases hpos : 0 < numFeatures / W
        · have hge : W - 1 ≤ j / (numFeatures / W) := by
            by_contra hc
            exact hq ⟨Nat.lt_of_not_le hc, hpos⟩
          calc (W - 1) * (numFeatures / W) ≤ j / (numFeatures / W) * (numFeatures / W) :=
                Nat.mul_le_mul_right _ hge
            _ ≤ j := Nat.div_mul_le_self _ _
        · have : numFeatures / W = 0 := Nat.eq_zero_of_not_pos hpos
          simp [this]
      · simp only [coordArgsOf, if_true]
        have := hstart (W - 1) (by omega)
        omega
  · intro n n' r r' j h h' h1 h2 h3 h4
    obtain ⟨hn, rfl⟩ := key n r h
    obtain ⟨hn', rfl⟩ := key n' r' h'
    simp only [coordArgsOf] at h1 h2 h3 h4
    by_contra hne
    rcases Nat.lt_or_gt_of_ne hne with hlt | hlt
    · have hl : n ≠ W - 1 := by omega
      simp only [hl, if_false] at h2
      have := hend n hn hl
      have : (n + 1) * (numFeatures / W) ≤ n' * (numFeatures / W) :=
        Nat.mul_le_mul_right _ hlt
      omega
    · have hl : n' ≠ W - 1 := by omega
      simp only [hl, if_false] at h4
      have := hend n' hn' hl
      have : (n' + 1) * (numFeatures / W) ≤ n * (numFeatures / W) :=
        Nat.mul_le_mul_right _ hlt
      omega

/-- **C9.** With `1 ≤ W ≤ numFeatures`, every worker is handed at least one coordinate. -/
theorem every_worker_has_a_coordinate (W numFeatures : Nat) (hW : 1 ≤ W)
    (hWF : W ≤ numFeatures) (hF : numFeatures < 4294967296) :
    ∀ n, n < W → ∃ r : CoordArgs, (assignCoords W numFeatures)[n]? = some r ∧ r.tid = n ∧
      1 ≤ r.numCoordsToProcess := by
  intro n hn
  refine ⟨coordArgsOf W numFeatures n, ?_, rfl, ?_⟩
  · rw [assignCoords_getElem? W numFeatures hF]
    simp [hn]
  · have hq : 1 ≤ numFeatures / W := (Nat.one_le_div_iff (by omega)).2 hWF
    simp only [coordArgsOf]
    by_cases hl : n = W - 1
    · simp only [hl, if_true]
      have h1 : (W - 1) * (numFeatures / W) + numFeatures / W = W * (numFeatures / W) := by
        rw [← Nat.succ_mul]
        congr 1
        omega
      have h2 : W * (numFeatures / W) ≤ numFeatures := Nat.mul_div_le _ _
      omega
    · simp only [hl, if_false]
      exact hq

theorem coordinate_ranges_partition_witness :
    1 ≤ 3 ∧ 10 < 4294967296 ∧ (assignCoords 3 10).length = 3 :=
  ⟨by decide, by decide, (coordinate_ranges_partition 3 10 (by decide) (by decide)).1⟩

theorem every_worker_has_a_coordinate_witness :
    1 ≤ 3 ∧ 3 ≤ 10 ∧ 10 < 4294967296 ∧
    ∃ r : CoordArgs, (assignCoords 3 10)[2]? = some r ∧ r.tid = 2 ∧
      1 ≤ r.numCoordsToProcess :=
  ⟨by decide, by decide, by decide,
    every_worker_has_a_coordinate 3 10 (by decide) (by decide) (by decide) 2 (by decide)⟩

/-! ## Closed forms of the scalar loops -/

theorem residualLoop_range' (b : Buf) (lo n : Nat) (error inference : Buf) :
    residualLoop b (List.range' lo n) (error, inference)
      = (fun t => if lo ≤ t ∧ t < lo + n then inference t - b t else error t,
         fun t => if lo ≤ t ∧ t < lo + n then 0 else inference t) := by
  unfold residualLoop
  induction n with
  | zero =>
    have h0 : ∀ t, ¬ (lo ≤ t ∧ t < lo) := fun t h => by omega
    simp [h0]
  | succ n ih =>
    rw [List.range'_concat, List.foldl_append, ih]
    simp only [List.foldl_cons, List.foldl_nil, Nat.one_mul]
    refine Prod.ext ?_ ?_ <;> funext t <;> simp only [Function.update_apply]
    · by_cases h1 : t = lo + n
      · subst h1
        simp
      · have : (lo ≤ t ∧ t < lo + (n + 1)) ↔ (lo ≤ t ∧ t < lo + n) := by omega
        simp [h1, this]
    · by_cases h1 : t = lo + n
      · subst h1
        simp
      · have : (lo ≤ t ∧ t < lo + (n + 1)) ↔ (lo ≤ t ∧ t < lo + n) := by omega
        simp [h1, this]

theorem gradientLoop_range' (aj error : Buf) (xj : ℚ) (lo n : Nat) (inference : Buf) :
    gradientLoop aj error xj (List.range' lo n) inference
      = (∑ i in Finset.range n, aj (lo + i) * error (lo + i),
         fun t => if lo ≤ t ∧ t < lo + n then inference t + aj t * xj else inference t) := by
  unfold gradientLoop
  induction n with
  | zero =>
    have h0 : ∀ t, ¬ (lo ≤ t ∧ t < lo) := fun t h => by omega
    simp [h0]
  | succ n ih =>
    rw [List.range'_concat, List.foldl_append, ih]
    simp only [List.foldl_cons, List.foldl_nil, Nat.one_mul, Finset.sum_range_succ]
    refine Prod.ext rfl ?_
    funext t
    simp only [Function.update_apply]
    by_cases h1 : t = lo + n
    · subst h1
      simp
    · have : (lo ≤ t ∧ t < lo + (n + 1)) ↔ (lo ≤ t ∧ t < lo + n) := by omega
      simp [h1, this]
/-! ## Loops that can fault -/

theorem foldlM_eq_some_foldl {α γ : Type} (f : α → γ → Option α) (g : α → γ → α) (l : List γ)
    (h : ∀ a c, c ∈ l → f a c = some (g a c)) :
    ∀ a, l.foldlM f a = some (l.foldl g a) := by
  induction l with
  | nil => intro a; rfl
  | cons c l ih =>
    intro a
    rw [List.foldlM_cons, h a c (List.mem_cons_self _ _)]
    simp only [Option.bind_eq_bind, Option.some_bind, List.foldl_cons]
    exact ih (fun a c' hc' => h a c' (List.mem_cons_of_mem _ hc')) _

theorem foldlM_rel {α β γ : Type} (R : α → β → Prop) (f : α → γ → Option α) (g : β → γ → β)
    (l : List γ) (h : ∀ a b c, c ∈ l → R a b → ∃ a', f a c = some a' ∧ R a' (g b c)) :
    ∀ a b, R a b → ∃ a', l.foldlM f a = some a' ∧ R a' (l.foldl g b) := by
  induction l with
  | nil => intro a b hab; exact ⟨a, rfl, hab⟩
  | cons c l ih =>
    intro a b hab
    obtain ⟨a1, h1, hr1⟩ := h a b c (List.mem_cons_self _ _) hab
    rw [List.foldlM_cons, h1]
    simp only [Option.bind_eq_bind, Option.some_bind, List.foldl_cons]
    exact ih (fun a b c' hc' => h a b c' (List.mem_cons_of_mem _ hc')) _ _ hr1

theorem foldlM_none_cons {α γ : Type} (f : α → γ → Option α) (c : γ) (l : List γ) (a : α)
    (h : f a c = none) : (c :: l).foldlM f a = none := by
  rw [List.foldlM_cons, h]
  rfl

theorem aligned_of_mem_forStride8 {base minibatchSize i : Nat} (hal : base % 8 = 0)
    (hi : i ∈ forStride8 minibatchSize) : (base + i) % 8 = 0 := by
  unfold forStride8 at hi
  simp only [List.mem_map, List.mem_range] at hi
  obtain ⟨c, _, rfl⟩ := hi
  omega

theorem forStride8_eq_cons {minibatchSize : Nat} (hpos : 0 < minibatchSize) :
    ∃ l, forStride8 minibatchSize = 0 :: l := by
  unfold forStride8
  obtain ⟨n, hn⟩ : ∃ n, (minibatchSize + 7) / 8 = n + 1 := ⟨(minibatchSize + 7) / 8 - 1, by omega⟩
  rw [hn, List.range_succ_eq_map]
  exact ⟨_, rfl⟩

/-! ## Closed forms of the vectorised loops -/

theorem avxResidualLoop_blocks (b : Buf) (base nb : Nat) (error inference : Buf) :
    ((List.range nb).map (fun c => 8 * c)).foldl
      (fun (p : Buf × Buf) i =>
        (withLanesAt p.1 (base + i)
            (mm256_sub_ps (lanesAt p.2 (base + i)) (lanesAt b (base + i))),
          withLanesAt p.2 (base + i) mm256_setzero_ps))
      (error, inference)
      = (fun t => if base ≤ t ∧ t < base + 8 * nb then inference t - b t else error t,
         fun t => if base ≤ t ∧ t < base + 8 * nb then 0 else inference t) := by
  induction nb with
  | zero =>
    have h0 : ∀ t, ¬ (base ≤ t ∧ t < base) := fun t h => by omega
    simp [h0]
  | succ n ih =>
    rw [List.range_succ, List.map_append, List.foldl_append, ih]
    simp only [List.map_cons, List.map_nil, List.foldl_cons, List.foldl_nil]
    refine Prod.ext ?_ ?_ <;> funext t <;>
      simp only [withLanesAt, mm256_sub_ps, lanesAt, mm256_setzero_ps]
    · by_cases h1 : base + 8 * n ≤ t ∧ t < base + 8 * n + 8
      · have h2 : base ≤ t ∧ t < base + 8 * (n + 1) := by omega
        have h3 : ¬ t < base + 8 * n := by omega
        have h4 : base + 8 * n + (t - (base + 8 * n)) = t := by omega
        simp only [h1, h2, dite_true, if_true, and_self, h4, h3, and_false, if_false]
      · have : (base ≤ t ∧ t < base + 8 * (n + 1)) ↔ (base ≤ t ∧ t < base + 8 * n) := by omega
        simp only [h1, dite_false, this]
    · by_cases h1 : base + 8 * n ≤ t ∧ t < base + 8 * n + 8
      · have h2 : base ≤ t ∧ t < base + 8 * (n + 1) := by omega
        simp only [h1, h2, dite_true, if_true, and_self]
      · have : (base ≤ t ∧ t < base + 8 * (n + 1)) ↔ (base ≤ t ∧ t < base + 8 * n) := by omega
        simp only [h1, dite_false, this]

/-- At a start index that is a multiple of 8 the vectorised residual loop does not fault, and
it resets the cells of the blocks it covers. -/
theorem avxResidualLoop_eq (b : Buf) (base minibatchSize : Nat) (hal : base % 8 = 0)
    (error inference : Buf) :
    avxResidualLoop b base minibatchSize (error, inference)
      = some (fun t => if base ≤ t ∧ t < base + 8 * ((minibatchSize + 7) / 8)
            then inference t - b t else error t,
         fun t => if base ≤ t ∧ t < base + 8 * ((minibatchSize + 7) / 8)
            then 0 else inference t) := by
  unfold avxResidualLoop
  rw [foldlM_eq_some_foldl _
    (fun (p : Buf × Buf) i =>
      (withLanesAt p.1 (base + i)
          (mm256_sub_ps (lanesAt p.2 (base + i)) (lanesAt b (base + i))),
        withLanesAt p.2 (base + i) mm256_setzero_ps))]
  · unfold forStride8
    rw [avxResidualLoop_blocks]
  · intro p i hi
    have h := aligned_of_mem_forStride8 hal hi
    simp [mm256_load_ps, mm256_store_ps, h]

/-- At a start index that is not a multiple of 8 the vectorised residual loop faults at its
first load. -/
theorem avxResidualLoop_misaligned (b : Buf) (base minibatchSize : Nat)
    (hpos : 0 < minibatchSize) (hal : base % 8 ≠ 0) (bufs : Buf × Buf) :
    avxResidualLoop b base minibatchSize bufs = none := by
  obtain ⟨l, hl⟩ := forStride8_eq_cons hpos
  unfold avxResidualLoop
  rw [hl]
  apply foldlM_none_cons
  simp [mm256_load_ps, hal]

theorem sum_range_eight (f : Nat → ℚ) (n : Nat) :
    ∑ i in Finset.range (8 * (n + 1)), f i
      = ∑ i in Finset.range (8 * n), f i
        + (f (8 * n) + f (8 * n + 1) + f (8 * n + 2) + f (8 * n + 3) + f (8 * n + 4)
          + f (8 * n + 5) + f (8 * n + 6) + f (8 * n + 7)) := by
  have : 8 * (n + 1) = 8 * n + 1 + 1 + 1 + 1 + 1 + 1 + 1 + 1 := by ring
  rw [this]
  simp only [Finset.sum_range_succ]
  ring

theorem avxGradientLoop_blocks (aj error : Buf) (xj : ℚ) (base nb : Nat) (inference : Buf) :
    gradient_reduce_sum (((List.range nb).map (fun c => 8 * c)).foldl
      (fun (p : M256 × Buf) i =>
        (mm256_fmadd_ps (lanesAt aj (base + i)) (lanesAt error (base + i)) p.1,
          withLanesAt p.2 (base + i)
            (mm256_fmadd_ps (lanesAt aj (base + i)) (mm256_set1_ps xj)
              (lanesAt p.2 (base + i)))))
      (mm256_setzero_ps, inference)).1
      = ∑ i in Finset.range (8 * nb), aj (base + i) * error (base + i) ∧
    (((List.range nb).map (fun c => 8 * c)).foldl
      (fun (p : M256 × Buf) i =>
        (mm256_fmadd_ps (lanesAt aj (base + i)) (lanesAt error (base + i)) p.1,
          withLanesAt p.2 (base + i)
            (mm256_fmadd_ps (lanesAt aj (base + i)) (mm256_set1_ps xj)
              (lanesAt p.2 (base + i)))))
      (mm256_setzero_ps, inference)).2
      = fun t => if base ≤ t ∧ t < base + 8 * nb then inference t + aj t * xj
          else inference t := by
  induction nb with
  | zero =>
    have h0 : ∀ t, ¬ (base ≤ t ∧ t < base) := fun t h => by omega
    simp [h0, gradient_reduce_sum, mm256_setzero_ps]
  | succ n ih =>
    obtain ⟨ihg, ihi⟩ := ih
    rw [List.range_succ, List.map_append, List.foldl_append]
    simp only [List.map_cons, List.map_nil, List.foldl_cons, List.foldl_nil]
    constructor
    · rw [sum_range_eight (fun i => aj (base + i) * error (base + i)), ← ihg]
      simp only [gradient_reduce_sum, mm256_fmadd_ps, lanesAt]
      simp only [Fin.val_zero, Fin.val_one, Fin.val_two, Nat.add_zero, ← Nat.add_assoc]
      have e3 : ((3 : Fin 8) : Nat) = 3 := rfl
      have e4 : ((4 : Fin 8) : Nat) = 4 := rfl
      have e5 : ((5 : Fin 8) : Nat) = 5 := rfl
      have e6 : ((6 : Fin 8) : Nat) = 6 := rfl
      have e7 : ((7 : Fin 8) : Nat) = 7 := rfl
      rw [e3, e4, e5, e6, e7]
      ring
    · rw [ihi]
      funext t
      simp only [withLanesAt, mm256_fmadd_ps, lanesAt, mm256_set1_ps]
      by_cases h1 : base + 8 * n ≤ t ∧ t < base + 8 * n + 8
      · have h2 : base ≤ t ∧ t < base + 8 * (n + 1) := by omega
        have h3 : ¬ t < base + 8 * n := by omega
        have h4 : base + 8 * n + (t - (base + 8 * n)) = t := by omega
        simp only [h1, h2, dite_true, if_true, and_self, h4, h3, and_false, if_false]
        ring
      · have : (base ≤ t ∧ t < base + 8 * (n + 1)) ↔ (base ≤ t ∧ t < base + 8 * n) := by omega
        simp only [h1, dite_false, this]

/-- At a start index that is a multiple of 8 the vectorised gradient loop does not fault; the
lanes of the register it returns sum to the gradient over the blocks it covers, and it adds
`a[j][t]*x[j]` to the cells of those blocks. -/
theorem avxGradientLoop_eq (aj error : Buf) (xj : ℚ) (base minibatchSize : Nat)
    (hal : base % 8 = 0) (inference : Buf) :
    ∃ g : M256,
      avxGradientLoop aj error xj base minibatchSize inference
        = some (g, fun t => if base ≤ t ∧ t < base + 8 * ((minibatchSize + 7) / 8)
            then inference t + aj t * xj else inference t) ∧
      gradient_reduce_sum g
        = ∑ i in Finset.range (8 * ((minibatchSize + 7) / 8)),
            aj (base + i) * error (base + i) := by
  obtain ⟨hg, hi⟩ := avxGradientLoop_blocks aj error xj base ((minibatchSize + 7) / 8) inference
  refine ⟨_, ?_, hg⟩
  unfold avxGradientLoop
  dsimp only
  rw [foldlM_eq_some_foldl _
    (fun (p : M256 × Buf) i =>
      (mm256_fmadd_ps (lanesAt aj (base + i)) (lanesAt error (base + i)) p.1,
        withLanesAt p.2 (base + i)
          (mm256_fmadd_ps (lanesAt aj (base + i)) (mm256_set1_ps xj)
            (lanesAt p.2 (base + i)))))]
  · unfold forStride8
    rw [← hi]
  · intro p i hi
    have h := aligned_of_mem_forStride8 hal hi
    simp [mm256_load_ps, mm256_store_ps, h]

/-- At a start index that is not a multiple of 8 the vectorised gradient loop faults at its
first load. -/
theorem avxGradientLoop_misaligned (aj error : Buf) (xj : ℚ) (base minibatchSize : Nat)
    (hpos : 0 < minibatchSize) (hal : base % 8 ≠ 0) (inference : Buf) :
    avxGradientLoop aj error xj base minibatchSize inference = none := by
  obtain ⟨l, hl⟩ := forStride8_eq_cons hpos
  unfold avxGradientLoop
  dsimp only
  rw [hl]
  apply foldlM_none_cons
  simp [mm256_load_ps, hal]

/-! ## The vectorised trainer against the scalar trainer -/

theorem minibatchIdxs_eq (m minibatchSize : Nat) :
    minibatchIdxs m minibatchSize = List.range' (m * minibatchSize) minibatchSize := by
  unfold minibatchIdxs
  rw [forRange_zero, List.range'_eq_map_range]

theorem stride8_cover {minibatchSize : Nat} (h8 : minibatchSize % 8 = 0) :
    8 * ((minibatchSize + 7) / 8) = minibatchSize := by
  omega

theorem minibatch_start_aligned {minibatchSize : Nat} (h8 : minibatchSize % 8 = 0) (m : Nat) :
    (m * minibatchSize) % 8 = 0 := by
  rw [Nat.mul_mod, h8]
  simp

theorem coordinateStep_range' (ds : Dataset) (stepSize : ℚ) (lo n : Nat) (st : State)
    (j : Nat) :
    coordinateStep ds stepSize (List.range' lo n) st j
      = { st with
          x := Function.update st.x j
            (st.x j - stepSize * ∑ i in Finset.range n, ds.a j (lo + i) * st.error (lo + i)),
          inference := fun t =>
            if lo ≤ t ∧ t < lo + n then st.inference t + ds.a j t * st.x j
            else st.inference t } := by
  unfold coordinateStep
  rw [gradientLoop_range']

theorem avxCoordinateStep_eq (ds : Dataset) (stepSize : ℚ) (m minibatchSize : Nat)
    (h8 : minibatchSize % 8 = 0) (st : State) (j : Nat) :
    avxCoordinateStep ds stepSize m minibatchSize st j
      = some (coordinateStep ds stepSize (minibatchIdxs m minibatchSize) st j) := by
  rw [minibatchIdxs_eq, coordinateStep_range']
  unfold avxCoordinateStep
  obtain ⟨g, hr, hg⟩ := avxGradientLoop_eq (ds.a j) st.error (st.x j) (m * minibatchSize)
    minibatchSize (minibatch_start_aligned h8 m) st.inference
  rw [hr]
  simp only [Option.bind_eq_bind, Option.some_bind, Option.pure_def, hg, stride8_cover h8]

theorem avxStep_eq (ds : Dataset) (stepSize : ℚ) (m minibatchSize : Nat)
    (h8 : minibatchSize % 8 = 0) (st : State) :
    avxStep ds stepSize m minibatchSize st
      = some (scalarStep ds stepSize (minibatchIdxs m minibatchSize) st) := by
  unfold avxStep scalarStep coordinatePass residualPass
  rw [avxResidualLoop_eq _ _ _ (minibatch_start_aligned h8 m), stride8_cover h8,
    minibatchIdxs_eq, residualLoop_range']
  simp only [Option.bind_eq_bind, Option.some_bind]
  rw [← minibatchIdxs_eq]
  exact foldlM_eq_some_foldl _ _ _
    (fun a c _ => avxCoordinateStep_eq ds stepSize m minibatchSize h8 a c) _

theorem avxEpoch_eq (ds : Dataset) (minibatchSize : Nat) (h8 : minibatchSize % 8 = 0)
    (stepSize : ℚ) (st : State) :
    avxEpoch ds minibatchSize stepSize st = some (scalarEpoch ds minibatchSize stepSize st) := by
  unfold avxEpoch scalarEpoch
  rw [foldlM_eq_some_foldl _
    (fun st m => scalarStep ds stepSize (minibatchIdxs m minibatchSize) st) _
    (fun a c _ => avxStep_eq ds stepSize c minibatchSize h8 a)]
  rfl

theorem avxEpochs_eq (ds : Dataset) (numEpochs minibatchSize : Nat)
    (h8 : minibatchSize % 8 = 0) (stepSize : ℚ) (start : State × Log) :
    avxEpochs ds numEpochs minibatchSize stepSize start
      = some (scalarEpochs ds numEpochs minibatchSize stepSize start) := by
  unfold avxEpochs scalarEpochs
  refine foldlM_eq_some_foldl _ _ _ ?_ _
  intro p epoch _
  rw [avxEpoch_eq ds minibatchSize h8]
  rfl

/-- **C1.** For every dataset, history argument, number of epochs, step size and every
`minibatchSize` that is a positive multiple of 8, `AVX_float_linreg_SCD` ends exactly as
`float_linreg_SCD` does on the same inputs: it returns, with the same final weights, the same
history buffer (hence the same weight vector stored after each epoch) and the same printed
losses. -/
theorem AVX_float_linreg_SCD_eq_scalar (ds : Dataset) (x_history : Option Hist)
    (numEpochs minibatchSize : Nat) (stepSize : ℚ) (hpos : 0 < minibatchSize)
    (h8 : minibatchSize % 8 = 0) :
    AVX_float_linreg_SCD ds x_history numEpochs minibatchSize stepSize
      = float_linreg_SCD ds x_history numEpochs minibatchSize stepSize := by
  have hguard : ¬ minibatchSize % 8 = 8 := by omega
  have hne : ¬ minibatchSize = 0 := by omega
  unfold AVX_float_linreg_SCD float_linreg_SCD
  simp only [hguard, hne, if_false, avxEpochs_eq ds numEpochs minibatchSize h8]

theorem AVX_float_linreg_SCD_eq_scalar_witness :
    0 < 8 ∧ 8 % 8 = 0 ∧
    AVX_float_linreg_SCD ⟨fun j i => (j + i : ℚ), fun i => (i : ℚ), 2, 19⟩ (some fun _ => none)
        3 8 (1 / 1000)
      = float_linreg_SCD ⟨fun j i => (j + i : ℚ), fun i => (i : ℚ), 2, 19⟩ (some fun _ => none)
        3 8 (1 / 1000) :=
  ⟨by decide, by decide,
    AVX_float_linreg_SCD_eq_scalar _ _ 3 8 (1 / 1000) (by decide) (by decide)⟩

/-! ## The parallel trainer against the scalar trainer -/

theorem foldl_rel {α β γ : Type} (R : α → β → Prop) (f : α → γ → α) (g : β → γ → β)
    (l : List γ) (h : ∀ a b c, c ∈ l → R a b → R (f a c) (g b c)) :
    ∀ a b, R a b → R (l.foldl f a) (l.foldl g b) := by
  induction l with
  | nil => intro a b hab; exact hab
  | cons c l ih =>
    intro a b hab
    simp only [List.foldl_cons]
    exact ih (fun a b c' hc' => h a b c' (List.mem_cons_of_mem _ hc')) _ _
      (h a b c (List.mem_cons_self _ _) hab)

theorem reduce_inner (W t0 : Nat) (ps : PState) :
    (List.range W).foldl
      (fun (ps : PState) n =>
        { ps with
          inference_reduce := Function.update ps.inference_reduce t0
            (ps.inference_reduce t0 + ps.inference n t0),
          inference := Function.update ps.inference n
            (Function.update (ps.inference n) t0 0) })
      ps
    = { ps with
        inference_reduce := Function.update ps.inference_reduce t0
          (ps.inference_reduce t0 + ∑ n in Finset.range W, ps.inference n t0),
        inference := fun n => if n < W then Function.update (ps.inference n) t0 0
          else ps.inference n } := by
  induction W with
  | zero => simp
  | succ k ih =>
    rw [List.range_succ, List.foldl_append, ih]
    simp only [List.foldl_cons, List.foldl_nil, Function.update_same, Function.update_idem,
      lt_irrefl, if_false, Finset.sum_range_succ, add_assoc]
    congr 1
    funext n
    by_cases h : n = k
    · subst h
      simp
    · have : n < k + 1 ↔ n < k := by omega
      simp [Function.update_noteq h, this]

theorem reduceLoop_eq (W m minibatchSize : Nat) (ps : PState) :
    reduceLoop W m minibatchSize ps
      = { ps with
          inference_reduce := fun t =>
            if m * minibatchSize ≤ t ∧ t < m * minibatchSize + minibatchSize then
              ps.inference_reduce t + ∑ n in Finset.range W, ps.inference n t
            else ps.inference_reduce t,
          inference := fun n t =>
            if n < W ∧ m * minibatchSize ≤ t ∧ t < m * minibatchSize + minibatchSize then 0
            else ps.inference n t } := by
  unfold reduceLoop
  rw [forRange_zero, forRange_zero]
  generalize m * minibatchSize = base
  induction minibatchSize with
  | zero =>
    have h0 : ∀ t, ¬ (base ≤ t ∧ t < base) := fun t h => by omega
    simp [h0]
  | succ c ih =>
    rw [List.range_succ, List.foldl_append, ih]
    simp only [List.foldl_cons, List.foldl_nil]
    rw [reduce_inner]
    have hc : ¬ (base ≤ base + c ∧ base + c < base + c) := by omega
    simp only [hc, if_false, and_false]
    congr 1
    · funext n t
      by_cases hn : n < W
      · simp only [hn, if_true, true_and, Function.update_apply]
        by_cases h : t = base + c
        · subst h
          simp
        · have : (base ≤ t ∧ t < base + (c + 1)) ↔ (base ≤ t ∧ t < base + c) := by omega
          simp [h, this]
      · simp [hn]
    · funext t
      simp only [Function.update_apply]
      by_cases h : t = base + c
      · subst h
        simp
      · have : (base ≤ t ∧ t < base + (c + 1)) ↔ (base ≤ t ∧ t < base + c) := by omega
        simp [h, this]

theorem sum_update_row (W tid : Nat) (h : tid < W) (f : Nat → Buf) (g : Buf) (t : Nat) :
    ∑ n in Finset.range W, Function.update f tid g n t
      = ∑ n in Finset.range W, f n t + (g t - f tid t) := by
  have h1 : ∀ n, Function.update f tid g n t
      = f n t + (if n = tid then g t - f tid t else 0) := by
    intro n
    by_cases hn : n = tid
    · subst hn
      simp
    · simp [Function.update_noteq hn, hn]
  simp only [h1, Finset.sum_add_distrib, Finset.sum_ite_eq', Finset.mem_range, h, if_true]

theorem leaderReduce_sim (ds : Dataset) (W bound m minibatchSize : Nat)
    (h8 : minibatchSize % 8 = 0) (ps : PState) (st : State) (h : Sim W bound ps st) :
    ∃ ps', leaderReduce ds W m minibatchSize ps = some ps' ∧
      Sim W bound ps' (residualPass ds (minibatchIdxs m minibatchSize) st) := by
  obtain ⟨hx, he, hsum, hz⟩ := h
  unfold leaderReduce
  dsimp only
  rw [avxResidualLoop_eq _ _ _ (minibatch_start_aligned h8 m), stride8_cover h8]
  simp only [Option.bind_eq_bind, Option.some_bind, Option.pure_def]
  refine ⟨_, rfl, ?_⟩
  dsimp only [residualPass]
  rw [minibatchIdxs_eq, residualLoop_range', reduceLoop_eq]
  dsimp only
  refine ⟨hx, ?_, ?_, ?_⟩
  · funext t
    by_cases ht : m * minibatchSize ≤ t ∧ t < m * minibatchSize + minibatchSize
    · simp only [ht, and_self, if_true, hsum t]
    · simp only [ht, if_false, he]
  · intro t
    by_cases ht : m * minibatchSize ≤ t ∧ t < m * minibatchSize + minibatchSize
    · simp only [ht, and_self, if_true, and_true]
      rw [Finset.sum_eq_zero, add_zero]
      intro n hn
      simp [Finset.mem_range.1 hn]
    · simp only [ht, if_false, and_false, hsum t]
  · intro n t hb
    simp only
    split_ifs
    · rfl
    · exact hz n t hb

theorem workerCoordinateStep_sim (ds : Dataset) (stepSize : ℚ) (W bound m minibatchSize tid : Nat)
    (h8 : minibatchSize % 8 = 0) (htid : tid < W)
    (hb : m * minibatchSize + minibatchSize ≤ bound) (ps : PState) (st : State) (j : Nat)
    (h : Sim W bound ps st) :
    ∃ ps', workerCoordinateStep ds stepSize m minibatchSize tid ps j = some ps' ∧
      Sim W bound ps' (coordinateStep ds stepSize (minibatchIdxs m minibatchSize) st j) := by
  obtain ⟨hx, he, hsum, hz⟩ := h
  rw [minibatchIdxs_eq, coordinateStep_range']
  unfold workerCoordinateStep
  obtain ⟨g, hr, hg⟩ := avxGradientLoop_eq (ds.a j) ps.error (ps.x j) (m * minibatchSize)
    minibatchSize (minibatch_start_aligned h8 m) (ps.inference tid)
  rw [hr]
  simp only [Option.bind_eq_bind, Option.some_bind, Option.pure_def, hg, stride8_cover h8]
  refine ⟨_, rfl, ?_⟩
  refine ⟨?_, he, ?_, ?_⟩
  · simp only [hx, he]
  · intro t
    simp only
    rw [sum_update_row W tid htid]
    by_cases ht : m * minibatchSize ≤ t ∧ t < m * minibatchSize + minibatchSize
    · simp only [ht, and_self, if_true, ← hsum t, hx]
      ring
    · simp only [ht, if_false, ← hsum t]
      ring
  · intro n t hbt
    simp only [Function.update_apply]
    by_cases hn : n = tid
    · subst hn
      have ht : ¬ (m * minibatchSize ≤ t ∧ t < m * minibatchSize + minibatchSize) := by omega
      simp only [if_true, ht, if_false]
      exact hz n t hbt
    · simp only [hn, if_false]
      exact hz n t hbt

theorem workerUpdate_sim (ds : Dataset) (stepSize : ℚ) (W bound m minibatchSize : Nat)
    (h8 : minibatchSize % 8 = 0) (hb : m * minibatchSize + minibatchSize ≤ bound)
    (r : CoordArgs) (hr : r.tid < W) (ps : PState) (st : State) (h : Sim W bound ps st) :
    ∃ ps', workerUpdate ds stepSize m minibatchSize ps r = some ps' ∧
      Sim W bound ps'
        ((workerCoords r).foldl (coordinateStep ds stepSize (minibatchIdxs m minibatchSize))
          st) := by
  unfold workerUpdate workerCoords
  exact foldlM_rel (Sim W bound) _ _ _
    (fun a b c _ hab => workerCoordinateStep_sim ds stepSize W bound m minibatchSize r.tid h8 hr
      hb a b c hab) ps st h

theorem workers_sim (ds : Dataset) (stepSize : ℚ) (W bound m minibatchSize : Nat)
    (h8 : minibatchSize % 8 = 0) (hb : m * minibatchSize + minibatchSize ≤ bound)
    (args : List CoordArgs) (hargs : ∀ r ∈ args, r.tid < W) :
    ∀ (ps : PState) (st : State), Sim W bound ps st →
    ∃ ps', args.foldlM (workerUpdate ds stepSize m minibatchSize) ps = some ps' ∧
      Sim W bound ps'
        ((args.map workerCoords).flatten.foldl
          (coordinateStep ds stepSize (minibatchIdxs m minibatchSize)) st) := by
  induction args with
  | nil => intro ps st h; exact ⟨ps, rfl, h⟩
  | cons r args ih =>
    intro ps st h
    obtain ⟨ps1, h1, hs1⟩ := workerUpdate_sim ds stepSize W bound m minibatchSize h8 hb r
      (hargs r (List.mem_cons_self _ _)) ps st h
    rw [List.foldlM_cons, h1]
    simp only [Option.bind_eq_bind, Option.some_bind, List.map_cons, List.flatten_cons,
      List.foldl_append]
    exact ih (fun r' hr' => hargs r' (List.mem_cons_of_mem _ hr')) _ _ hs1

theorem range_append_forRange {a b : Nat} (h : a ≤ b) :
    List.range a ++ forRange a b = List.range b := by
  unfold forRange
  rw [List.range_eq_range', List.range_eq_range']
  have h1 := List.range'_append_1 0 a (b - a)
  rw [Nat.zero_add] at h1
  rw [h1]
  congr 1
  omega

theorem workerCoords_flatten_prefix (W F : Nat) (hF : F < 4294967296) (k : Nat) (hk : k ≤ W) :
    (((List.range k).map (coordArgsOf W F)).map workerCoords).flatten
      = List.range (if k = W ∧ 0 < W then F else k * (F / W)) := by
  induction k with
  | zero =>
    have : ¬ (0 = W ∧ 0 < W) := fun h => by omega
    simp [this]
  | succ k ih =>
    have hkW : k < W := hk
    have hne : ¬ (k = W ∧ 0 < W) := fun h => by omega
    rw [List.range_succ, List.map_append, List.map_append, List.flatten_append, ih (le_of_lt hkW)]
    simp only [hne, if_false, List.map_cons, List.map_nil, List.flatten_cons, List.flatten_nil,
      List.append_nil, workerCoords, coordArgsOf]
    have hle : k * (F / W) ≤ F := mul_div_le_of_lt hkW
    by_cases hlast : k = W - 1
    · have h1 : k + 1 = W ∧ 0 < W := by omega
      have h2 : k * (F / W) + (F - k * (F / W)) = F := by omega
      simp only [hlast, if_true]
      rw [← hlast, h2, u32_of_lt hF, range_append_forRange hle]
      simp [h1]
    · have h1 : ¬ (k + 1 = W ∧ 0 < W) := fun h => by omega
      have h3 : (k + 1) * (F / W) ≤ F := mul_div_le_of_lt (by omega)
      have h4 : k * (F / W) + F / W = (k + 1) * (F / W) := by ring
      simp only [hlast, if_false, h1]
      rw [h4, u32_of_lt (lt_of_le_of_lt h3 hF), range_append_forRange]
      exact Nat.mul_le_mul_right _ (Nat.le_succ k)

theorem workerCoords_flatten (W F : Nat) (hW : 1 ≤ W) (hF : F < 4294967296) :
    ((assignCoords W F).map workerCoords).flatten = List.range F := by
  rw [assignCoords_eq W F hF, workerCoords_flatten_prefix W F hF W le_rfl]
  have : W = W ∧ 0 < W := ⟨rfl, hW⟩
  simp [this]

theorem assignCoords_tid_lt (W F : Nat) (hF : F < 4294967296) :
    ∀ r ∈ assignCoords W F, r.tid < W := by
  intro r hr
  rw [assignCoords_eq W F hF] at hr
  simp only [List.mem_map, List.mem_range] at hr
  obtain ⟨n, hn, rfl⟩ := hr
  exact hn

theorem parallelStep_sim (ds : Dataset) (stepSize : ℚ) (W bound m minibatchSize : Nat)
    (hW : 1 ≤ W) (hF : ds.numFeatures < 4294967296)
    (h8 : minibatchSize % 8 = 0) (hb : m * minibatchSize + minibatchSize ≤ bound)
    (ps : PState) (st : State) (h : Sim W bound ps st) :
    ∃ ps', parallelStep ds (assignCoords W ds.numFeatures) W stepSize m minibatchSize ps
        = some ps' ∧
      Sim W bound ps' (scalarStep ds stepSize (minibatchIdxs m minibatchSize) st) := by
  unfold parallelStep scalarStep coordinatePass
  rw [forRange_zero, ← workerCoords_flatten W ds.numFeatures hW hF]
  obtain ⟨ps1, h1, hs1⟩ := leaderReduce_sim ds W bound m minibatchSize h8 ps st h
  rw [h1]
  simp only [Option.bind_eq_bind, Option.some_bind]
  exact workers_sim ds stepSize W bound m minibatchSize h8 hb _
    (assignCoords_tid_lt W ds.numFeatures hF) _ _ hs1

theorem leaderRestCoordinateStep_sim (ds : Dataset) (stepSize : ℚ) (W bound lo n : Nat)
    (ps : PState) (st : State) (j : Nat) (h : Sim W bound ps st) :
    Sim W bound (leaderRestCoordinateStep ds stepSize (List.range' lo n) ps j)
      (coordinateStep ds stepSize (List.range' lo n) st j) := by
  obtain ⟨hx, he, hsum, hz⟩ := h
  rw [coordinateStep_range']
  unfold leaderRestCoordinateStep
  rw [gradientLoop_range']
  refine ⟨?_, he, ?_, hz⟩
  · simp only [hx, he]
  · intro t
    simp only
    by_cases ht : lo ≤ t ∧ t < lo + n
    · simp only [ht, and_self, if_true, ← hsum t, hx]
      ring
    · simp only [ht, if_false, ← hsum t]

theorem leaderRestPass_sim (ds : Dataset) (stepSize : ℚ) (W minibatchSize : Nat)
    (hS : ds.numSamples < 4294967296)
    (ps : PState) (st : State)
    (h : Sim W (numMinibatches ds.numSamples minibatchSize * minibatchSize) ps st) :
    Sim W (numMinibatches ds.numSamples minibatchSize * minibatchSize)
      (leaderRestPass ds minibatchSize stepSize ps)
      (restPass ds minibatchSize stepSize st) := by
  unfold leaderRestPass restPass
  by_cases hr : rest ds.numSamples minibatchSize > 0
  · simp only [hr, if_true]
    unfold scalarStep coordinatePass residualPass restIdxs forRange
    have hlo : u32sub ds.numSamples (rest ds.numSamples minibatchSize)
        = numMinibatches ds.numSamples minibatchSize * minibatchSize := by
      have h1 : rest ds.numSamples minibatchSize = ds.numSamples % minibatchSize :=
        rest_eq_mod minibatchSize hS
      rw [h1, u32sub_of_le hS (Nat.mod_le _ _)]
      unfold numMinibatches
      have := Nat.div_add_mod ds.numSamples minibatchSize
      rw [Nat.mul_comm] at this
      omega
    rw [hlo]
    dsimp only
    refine foldl_rel (Sim W _) _ _ _
      (fun a b c _ hab => leaderRestCoordinateStep_sim ds stepSize W _ _ _ a b c hab) _ _ ?_
    obtain ⟨hx, he, hsum, hz⟩ := h
    rw [residualLoop_range', residualLoop_range']
    refine ⟨hx, ?_, ?_, hz⟩
    · funext t
      dsimp only
      by_cases ht : numMinibatches ds.numSamples minibatchSize * minibatchSize ≤ t ∧
          t < numMinibatches ds.numSamples minibatchSize * minibatchSize
            + (ds.numSamples - numMinibatches ds.numSamples minibatchSize * minibatchSize)
      · simp only [ht, and_self, if_true, ← hsum t]
        rw [Finset.sum_eq_zero, add_zero]
        intro n _
        exact hz n t ht.1
      · simp only [ht, if_false, he]
    · intro t
      dsimp only
      by_cases ht : numMinibatches ds.numSamples minibatchSize * minibatchSize ≤ t ∧
          t < numMinibatches ds.numSamples minibatchSize * minibatchSize
            + (ds.numSamples - numMinibatches ds.numSamples minibatchSize * minibatchSize)
      · simp only [ht, and_self, if_true]
        rw [Finset.sum_eq_zero, add_zero]
        intro n _
        exact hz n t ht.1
      · simp only [ht, if_false, hsum t]
  · simp only [hr, if_false]
    exact h

theorem parallelEpoch_sim (ds : Dataset) (stepSize : ℚ) (W minibatchSize : Nat)
    (hW : 1 ≤ W) (hS : ds.numSamples < 4294967296) (hF : ds.numFeatures < 4294967296)
    (h8 : minibatchSize % 8 = 0) (ps : PState) (st : State)
    (h : Sim W (numMinibatches ds.numSamples minibatchSize * minibatchSize) ps st) :
    ∃ ps', parallelEpoch ds (assignCoords W ds.numFeatures) W minibatchSize stepSize ps
        = some ps' ∧
      Sim W (numMinibatches ds.numSamples minibatchSize * minibatchSize) ps'
        (scalarEpoch ds minibatchSize stepSize st) := by
  unfold parallelEpoch scalarEpoch
  obtain ⟨ps1, h1, hs1⟩ := foldlM_rel
    (Sim W (numMinibatches ds.numSamples minibatchSize * minibatchSize))
    (fun ps m => parallelStep ds (assignCoords W ds.numFeatures) W stepSize m minibatchSize ps)
    (fun st m => scalarStep ds stepSize (minibatchIdxs m minibatchSize) st)
    (forRange 0 (numMinibatches ds.numSamples minibatchSize))
    (by
      intro a b m hm hab
      rw [forRange_zero, List.mem_range] at hm
      refine parallelStep_sim ds stepSize W _ m minibatchSize hW hF h8 ?_ a b hab
      calc m * minibatchSize + minibatchSize = (m + 1) * minibatchSize := by ring
        _ ≤ numMinibatches ds.numSamples minibatchSize * minibatchSize :=
          Nat.mul_le_mul_right _ hm)
    ps st h
  rw [h1]
  simp only [Option.bind_eq_bind, Option.some_bind, Option.pure_def]
  exact ⟨_, rfl, leaderRestPass_sim ds stepSize W minibatchSize hS _ _ hs1⟩

theorem Sim_init (W bound : Nat) : Sim W bound PState.init State.init := by
  refine ⟨rfl, rfl, ?_, ?_⟩
  · intro t
    simp [PState.init, State.init]
  · intro n t _
    rfl

theorem parallelEpochs_sim (ds : Dataset) (stepSize : ℚ) (W numEpochs minibatchSize : Nat)
    (hW : 1 ≤ W) (hS : ds.numSamples < 4294967296) (hF : ds.numFeatures < 4294967296)
    (h8 : minibatchSize % 8 = 0) (log : Log) :
    ∃ p, parallelEpochs ds (assignCoords W ds.numFeatures) W numEpochs minibatchSize stepSize
        (PState.init, log) = some p ∧
      p.1.x = (scalarEpochs ds numEpochs minibatchSize stepSize (State.init, log)).1.x ∧
      p.2 = (scalarEpochs ds numEpochs minibatchSize stepSize (State.init, log)).2 := by
  unfold parallelEpochs scalarEpochs
  obtain ⟨p, hp, hsim⟩ := foldlM_rel
    (fun (p : PState × Log) (q : State × Log) =>
      Sim W (numMinibatches ds.numSamples minibatchSize * minibatchSize) p.1 q.1 ∧ p.2 = q.2)
    (fun p epoch => do
      let ps ← parallelEpoch ds (assignCoords W ds.numFeatures) W minibatchSize stepSize p.1
      pure (ps, epochEnd ds epoch ps.x p.2))
    (fun p epoch =>
      (scalarEpoch ds minibatchSize stepSize p.1,
        epochEnd ds epoch (scalarEpoch ds minibatchSize stepSize p.1).x p.2))
    (forRange 0 numEpochs)
    (by
      intro a b epoch _ hab
      obtain ⟨ps1, h1, hs⟩ :=
        parallelEpoch_sim ds stepSize W minibatchSize hW hS hF h8 a.1 b.1 hab.1
      dsimp only
      rw [h1]
      simp only [Option.bind_eq_bind, Option.some_bind, Option.pure_def]
      refine ⟨_, rfl, hs, ?_⟩
      dsimp only
      rw [hs.1, hab.2])
    (PState.init, log) (State.init, log) ⟨Sim_init W _, rfl⟩
  exact ⟨p, hp, hsim.1.1, hsim.2⟩

/-- **C2.** With the workers run one after another inside each barrier-delimited phase, for
every dataset with 32-bit sizes, every worker count `W ≥ 1` (whether or not it exceeds
`numFeatures`), every number of epochs, step size and every `minibatchSize` that is a positive
multiple of 8, `AVXmulti_float_linreg_SCD` ends exactly as `float_linreg_SCD` does on the same
inputs: same final weights, same history buffer (hence the same weight vector stored after
each epoch) and same printed losses. -/
theorem AVXmulti_float_linreg_SCD_eq_scalar (W : Nat) (ds : Dataset) (x_history : Option Hist)
    (numEpochs minibatchSize : Nat) (stepSize : ℚ) (hW : 1 ≤ W)
    (hS : ds.numSamples < 4294967296) (hF : ds.numFeatures < 4294967296)
    (hpos : 0 < minibatchSize) (h8 : minibatchSize % 8 = 0) :
    AVXmulti_float_linreg_SCD W ds x_history numEpochs minibatchSize stepSize
      = float_linreg_SCD ds x_history numEpochs minibatchSize stepSize := by
  have hguard : ¬ minibatchSize % 8 = 8 := by omega
  have hne : ¬ minibatchSize = 0 := by omega
  obtain ⟨p, hp, hx, hl⟩ := parallelEpochs_sim ds stepSize W numEpochs minibatchSize hW hS hF
    h8 (initialLog ds x_history)
  unfold AVXmulti_float_linreg_SCD float_linreg_SCD
  simp only [hguard, hne, if_false, hp, hx, hl]

theorem AVXmulti_float_linreg_SCD_eq_scalar_witness :
    1 ≤ NUM_THREADS ∧ 19 < 4294967296 ∧ 2 < 4294967296 ∧ 0 < 8 ∧ 8 % 8 = 0 ∧
    AVXmulti_float_linreg_SCD NUM_THREADS ⟨fun j i => (j + i : ℚ), fun i => (i : ℚ), 2, 19⟩
        (some fun _ => none) 3 8 (1 / 1000)
      = float_linreg_SCD ⟨fun j i => (j + i : ℚ), fun i => (i : ℚ), 2, 19⟩ (some fun _ => none)
        3 8 (1 / 1000) :=
  ⟨by decide, by decide, by decide, by decide, by decide,
    AVXmulti_float_linreg_SCD_eq_scalar NUM_THREADS _ _ 3 8 (1 / 1000) (by decide) (by decide)
      (by decide) (by decide) (by decide)⟩

/-! ## The scenario of 4 samples and 2 features -/

/-- **C10.** On the dataset with columns `[1,1,1,1]`, `[1,2,3,4]` and labels `[1,2,3,4]`,
`float_linreg_SCD` with `minibatchSize = 4`, `stepSize = 1/1000`, 50 epochs and no history
buffer returns after printing 51 losses: the initial loss `calculate_loss(0) = 30/8`, then for
each epoch the loss of the weights at the end of that epoch (the weights that the same call
with a history buffer stores in the slot of the epoch), and each printed loss is strictly
below the one before it. -/
theorem scenario_losses_strictly_decrease :
    (float_linreg_SCD scenarioDataset none 50 4 (1 / 1000)).returnedLosses.length = 51 ∧
    calculate_loss scenarioDataset (fun _ => 0) = 30 / 8 ∧
    (float_linreg_SCD scenarioDataset none 50 4 (1 / 1000)).returnedLosses.getD 0 0 = 30 / 8 ∧
    (∀ e < 50,
      (float_linreg_SCD scenarioDataset none 50 4 (1 / 1000)).returnedLosses.getD (e + 1) 0
        = calculate_loss scenarioDataset (fun j =>
            ((((float_linreg_SCD scenarioDataset (some emptyHist) 50 4
              (1 / 1000)).returnedHistory).getD emptyHist) (e * 2 + j)).getD 0)) ∧
    ∀ e < 50,
      (float_linreg_SCD scenarioDataset none 50 4 (1 / 1000)).returnedLosses.getD (e + 1) 0
        < (float_linreg_SCD scenarioDataset none 50 4 (1 / 1000)).returnedLosses.getD e 0 := by
  decide!

/-! ## `calculate_loss` -/

theorem foldl_add_eq_sum (f : Nat → ℚ) (n : Nat) :
    (forRange 0 n).foldl (fun acc i => acc + f i) 0 = ∑ i in Finset.range n, f i := by
  rw [forRange_zero]
  induction n with
  | zero => simp
  | succ n ih =>
    rw [List.range_succ, List.foldl_append, ih, Finset.sum_range_succ]
    simp

theorem calculate_loss_dot_eq (ds : Dataset) (x : Buf) (i : Nat) :
    calculate_loss_dot ds x i = ∑ j in Finset.range ds.numFeatures, x j * ds.a j i :=
  foldl_add_eq_sum (fun j => x j * ds.a j i) ds.numFeatures

theorem calculate_loss_sum_eq (ds : Dataset) (x : Buf) :
    calculate_loss_sum ds x
      = ∑ i in Finset.range ds.numSamples,
          (∑ j in Finset.range ds.numFeatures, x j * ds.a j i - ds.b i) ^ 2 := by
  unfold calculate_loss_sum
  rw [foldl_add_eq_sum]
  refine Finset.sum_congr rfl (fun i _ => ?_)
  rw [calculate_loss_dot_eq]
  ring

/-- While `2*numSamples` stays in the 32-bit range, `calculate_loss` is the loss of the
specification. -/
theorem calculate_loss_eq_spec_of_lt (ds : Dataset) (x : Buf)
    (hS : 2 * ds.numSamples < 4294967296) :
    calculate_loss ds x = calculate_loss_spec ds x := by
  unfold calculate_loss calculate_loss_spec
  rw [calculate_loss_sum_eq, u32_of_lt hS]
  push_cast
  rfl

/-- **C5, failing input.** With `numSamples = 2^31 + 1` the product `2*numSamples` wraps to
`2`: on the dataset with one all-zero feature and all labels `1`, `calculate_loss` of the zero
weight vector is `(2^31 + 1)/2`, while the sum of squared residuals divided by
`2 * numSamples` is `1/2`. -/
theorem calculate_loss_divisor_wraps :
    calculate_loss (constantDataset 2147483649) (fun _ => 0) = 2147483649 / 2 ∧
    calculate_loss_spec (constantDataset 2147483649) (fun _ => 0) = 1 / 2 := by
  constructor
  · unfold calculate_loss
    rw [calculate_loss_sum_eq]
    simp [constantDataset, u32]
  · unfold calculate_loss_spec
    simp [constantDataset]
    norm_num

/-! ## Guards of the trainers -/

/-- **C6, failing input.** With 3 samples, 1 feature, 1 epoch and `minibatchSize = 4` (not a
multiple of 8) neither vectorised trainer is rejected: both return, after updating the weight
and storing it in the history buffer. -/
theorem vectorised_trainers_accept_minibatchSize_four :
    4 % 8 ≠ 0 ∧
    (AVX_float_linreg_SCD (Dataset.ofLists [[1, 1, 1]] [1, 1, 1]) (some emptyHist) 1 4
      (1 / 1000)).rejected = false ∧
    ((AVX_float_linreg_SCD (Dataset.ofLists [[1, 1, 1]] [1, 1, 1]) (some emptyHist) 1 4
      (1 / 1000)).returnedHistory.getD emptyHist) 0 = some (3 / 1000) ∧
    (AVXmulti_float_linreg_SCD NUM_THREADS (Dataset.ofLists [[1, 1, 1]] [1, 1, 1])
      (some emptyHist) 1 4 (1 / 1000)).rejected = false ∧
    ((AVXmulti_float_linreg_SCD NUM_THREADS (Dataset.ofLists [[1, 1, 1]] [1, 1, 1])
      (some emptyHist) 1 4 (1 / 1000)).returnedHistory.getD emptyHist) 0 = some (3 / 1000) := by
  decide!

/-! ## The weight history of `float_linreg_SCD` -/

theorem scalarEpochs_state (ds : Dataset) (minibatchSize : Nat) (stepSize : ℚ)
    (numEpochs : Nat) (st : State) (log : Log) :
    (scalarEpochs ds numEpochs minibatchSize stepSize (st, log)).1
      = (scalarEpoch ds minibatchSize stepSize)^[numEpochs] st := by
  unfold scalarEpochs
  rw [forRange_zero]
  induction numEpochs with
  | zero => rfl
  | succ n ih =>
    rw [List.range_succ, List.foldl_append, Function.iterate_succ_apply', ← ih]
    rfl

theorem scalarEpochs_succ (ds : Dataset) (minibatchSize : Nat) (stepSize : ℚ)
    (numEpochs : Nat) (start : State × Log) :
    scalarEpochs ds (numEpochs + 1) minibatchSize stepSize start
      = (scalarEpoch ds minibatchSize stepSize
            (scalarEpochs ds numEpochs minibatchSize stepSize start).1,
          epochEnd ds numEpochs
            (scalarEpoch ds minibatchSize stepSize
              (scalarEpochs ds numEpochs minibatchSize stepSize start).1).x
            (scalarEpochs ds numEpochs minibatchSize stepSize start).2) := by
  unfold scalarEpochs
  rw [forRange_zero, forRange_zero, List.range_succ, List.foldl_append]
  rfl

theorem recordHistory_high (numFeatures epoch : Nat) (x : Buf) (h : Hist) (k : Nat)
    (hk : 4294967296 ≤ k) : recordHistory numFeatures epoch x h k = h k := by
  unfold recordHistory
  rw [forRange_zero]
  generalize epoch * numFeatures = base
  induction numFeatures with
  | zero => rfl
  | succ n ih =>
    rw [List.range_succ, List.foldl_append]
    simp only [List.foldl_cons, List.foldl_nil]
    have hne : k ≠ u32 (base + n) := by
      have : u32 (base + n) < 4294967296 := Nat.mod_lt _ (by decide)
      omega
    rw [Function.update_noteq hne, ih]

theorem recordHistory_eq (numFeatures epoch : Nat) (x : Buf) (h : Hist)
    (hb : epoch * numFeatures + numFeatures ≤ 4294967296) :
    recordHistory numFeatures epoch x h
      = fun k => if epoch * numFeatures ≤ k ∧ k < epoch * numFeatures + numFeatures
          then some (x (k - epoch * numFeatures)) else h k := by
  unfold recordHistory
  rw [forRange_zero]
  have key : ∀ n, n ≤ numFeatures →
      (List.range n).foldl
        (fun (h : Hist) j => Function.update h (u32 (epoch * numFeatures + j)) (some (x j))) h
      = fun k => if epoch * numFeatures ≤ k ∧ k < epoch * numFeatures + n
          then some (x (k - epoch * numFeatures)) else h k := by
    intro n
    induction n with
    | zero =>
      intro _
      have h0 : ∀ k, ¬ (epoch * numFeatures ≤ k ∧ k < epoch * numFeatures) :=
        fun k hk => by omega
      simp [h0]
    | succ n ih =>
      intro hn
      rw [List.range_succ, List.foldl_append, ih (by omega)]
      simp only [List.foldl_cons, List.foldl_nil]
      rw [u32_of_lt (by omega)]
      funext k
      simp only [Function.update_apply]
      by_cases hk : k = epoch * numFeatures + n
      · subst hk
        simp
      · have : (epoch * numFeatures ≤ k ∧ k < epoch * numFeatures + (n + 1))
            ↔ (epoch * numFeatures ≤ k ∧ k < epoch * numFeatures + n) := by omega
        simp [hk, this]
  exact key numFeatures le_rfl

theorem scalarEpochs_history_high (ds : Dataset) (minibatchSize : Nat) (stepSize : ℚ)
    (numEpochs : Nat) (st : State) (h0 : Hist) (losses : List ℚ) :
    ∃ h, (scalarEpochs ds numEpochs minibatchSize stepSize
        (st, { x_history := some h0, losses := losses })).2.x_history = some h ∧
      ∀ k, 4294967296 ≤ k → h k = h0 k := by
  induction numEpochs with
  | zero => exact ⟨h0, rfl, fun _ _ => rfl⟩
  | succ n ih =>
    obtain ⟨h, hh, hframe⟩ := ih
    rw [scalarEpochs_succ]
    simp only [epochEnd, hh]
    exact ⟨_, rfl, fun k hk => by rw [recordHistory_high _ _ _ _ k hk, hframe k hk]⟩

theorem float_linreg_SCD_history_high (ds : Dataset) (h0 : Hist)
    (numEpochs minibatchSize : Nat) (stepSize : ℚ) (hmb : 0 < minibatchSize) :
    ∃ h, (float_linreg_SCD ds (some h0) numEpochs minibatchSize stepSize).returnedHistory
        = some h ∧
      ∀ k, 4294967296 ≤ k → h k = h0 k := by
  have hne : ¬ minibatchSize = 0 := by omega
  simp only [float_linreg_SCD, hne, if_false, Outcome.returnedHistory, initialLog]
  exact scalarEpochs_history_high ds minibatchSize stepSize numEpochs State.init h0 _

/-- **C8, failing input.** With `numFeatures = 65536` and `numEpochs = 65537` the history has
`65537 * 65536` slots, and slot `65536 * 65536 + 0 = 2^32` is the slot of weight `0` at the
end of epoch `65536`; the call returns without storing anything in that cell, because the
index `epoch*numFeatures + j` is reduced modulo `2^32`. -/
theorem history_index_wraps :
    65536 * 65536 + 0 = 4294967296 ∧ 4294967296 < 65537 * 65536 ∧
    ∃ h, (float_linreg_SCD (wideDataset 65536) (some emptyHist) 65537 1
        (1 / 1000)).returnedHistory = some h ∧
      h 4294967296 = none := by
  refine ⟨by decide, by decide, ?_⟩
  obtain ⟨h, hh, hframe⟩ := float_linreg_SCD_history_high (wideDataset 65536) emptyHist 65537 1
    (1 / 1000) (by decide)
  exact ⟨h, hh, by rw [hframe 4294967296 le_rfl]; rfl⟩

/-- While `numEpochs*numFeatures` stays in the 32-bit index range, `float_linreg_SCD` with
`minibatchSize > 0` and a history buffer returns with slot `e` of the buffer holding the
weights at the end of epoch `e`, for `e < numEpochs`, and every other cell as the caller
passed it. -/
theorem float_linreg_SCD_history_of_no_wrap (ds : Dataset) (h0 : Hist)
    (numEpochs minibatchSize : Nat) (stepSize : ℚ) (hmb : 0 < minibatchSize)
    (hb : numEpochs * ds.numFeatures ≤ 4294967296) :
    (float_linreg_SCD ds (some h0) numEpochs minibatchSize stepSize).returnedHistory
      = some (fun k =>
          if k < numEpochs * ds.numFeatures then
            some (weightsAfterEpoch ds minibatchSize stepSize (k / ds.numFeatures)
              (k % ds.numFeatures))
          else h0 k) := by
  have hne : ¬ minibatchSize = 0 := by omega
  simp only [float_linreg_SCD, hne, if_false, Outcome.returnedHistory, initialLog]
  generalize [calculate_loss ds State.init.x] = losses
  induction numEpochs with
  | zero =>
    simp [scalarEpochs, forRange]
  | succ n ih =>
    have hb' : n * ds.numFeatures ≤ 4294967296 := by
      have : n * ds.numFeatures ≤ (n + 1) * ds.numFeatures :=
        Nat.mul_le_mul_right _ (Nat.le_succ n)
      omega
    have hb2 : n * ds.numFeatures + ds.numFeatures ≤ 4294967296 := by
      have : (n + 1) * ds.numFeatures = n * ds.numFeatures + ds.numFeatures := by ring
      omega
    rw [scalarEpochs_succ]
    simp only [epochEnd, ih hb', scalarEpochs_state]
    rw [recordHistory_eq _ _ _ _ hb2]
    congr 1
    funext k
    have hsplit : (n + 1) * ds.numFeatures = n * ds.numFeatures + ds.numFeatures := by ring
    by_cases hk : n * ds.numFeatures ≤ k ∧ k < n * ds.numFeatures + ds.numFeatures
    · have hlt : k < (n + 1) * ds.numFeatures := by omega
      have hFpos : 0 < ds.numFeatures := by omega
      have hdiv : k / ds.numFeatures = n := by
        apply Nat.div_eq_of_lt_le
        · exact hk.1
        · exact hlt
      have hmod : k % ds.numFeatures = k - n * ds.numFeatures := by
        have := Nat.div_add_mod k ds.numFeatures
        rw [hdiv, Nat.mul_comm] at this
        omega
      simp only [hk, and_self, if_true, hlt, weightsAfterEpoch, hdiv, hmod,
        Function.iterate_succ_apply']
    · by_cases hlow : k < n * ds.numFeatures
      · have hlt : k < (n + 1) * ds.numFeatures := by omega
        simp only [hk, if_false, hlow, if_true, hlt]
      · have hlt : ¬ k < (n + 1) * ds.numFeatures := by omega
        simp only [hk, if_false, hlow, hlt]

/-! ## Evaluation checks of the embedding -/

/-- With `NUM_THREADS = 14` workers and 5 features, thirteen workers get no coordinate and the
last one gets all five. -/
theorem assignCoords_fourteen_workers_five_features :
    (assignCoords NUM_THREADS 5).map (fun r => (r.tid, r.startingCoord, r.numCoordsToProcess))
      = [(0, 0, 0), (1, 0, 0), (2, 0, 0), (3, 0, 0), (4, 0, 0), (5, 0, 0), (6, 0, 0), (7, 0, 0),
          (8, 0, 0), (9, 0, 0), (10, 0, 0), (11, 0, 0), (12, 0, 0), (13, 0, 5)] := by
  decide

/-- With 3 workers and 10 features the ranges are `[0,3)`, `[3,6)` and `[6,10)`. -/
theorem assignCoords_three_workers_ten_features :
    (assignCoords 3 10).map (fun r => (r.tid, r.startingCoord, r.numCoordsToProcess))
      = [(0, 0, 3), (1, 3, 3), (2, 6, 4)] := by
  decide

/-- The first three history slots of the scenario: the second epoch repeats the first step,
because its residuals are computed from the inference of the all-zero initial weights. -/
theorem scenario_history_prefix :
    (List.range 7).map
        (((float_linreg_SCD scenarioDataset (some emptyHist) 3 4
          (1 / 1000)).returnedHistory).getD emptyHist)
      = [some (1 / 100), some (3 / 100), some (1 / 50), some (3 / 50), some (1483 / 50000),
          some (89 / 1000), none] := by
  decide!

/-- On a dataset of 19 samples and 3 features with `minibatchSize = 8` (two full minibatches
and a remainder of 3), the three trainers store the same nine history cells. -/
theorem trainers_agree_on_sample_run :
    (List.range 10).map
        (((AVX_float_linreg_SCD
            ⟨fun j i => (((j + 1) * (i + 2) % 7 : Nat) : ℚ), fun i => ((i * i % 5 : Nat) : ℚ), 3, 19⟩
            (some emptyHist) 3 8 (1 / 1000)).returnedHistory).getD emptyHist)
      = (List.range 10).map
        (((float_linreg_SCD
            ⟨fun j i => (((j + 1) * (i + 2) % 7 : Nat) : ℚ), fun i => ((i * i % 5 : Nat) : ℚ), 3, 19⟩
            (some emptyHist) 3 8 (1 / 1000)).returnedHistory).getD emptyHist) ∧
    (List.range 10).map
        (((AVXmulti_float_linreg_SCD NUM_THREADS
            ⟨fun j i => (((j + 1) * (i + 2) % 7 : Nat) : ℚ), fun i => ((i * i % 5 : Nat) : ℚ), 3, 19⟩
            (some emptyHist) 3 8 (1 / 1000)).returnedHistory).getD emptyHist)
      = [some (13 / 100), some (3 / 25), some (117 / 1000), some (57727 / 250000),
          some (107421 / 500000), some (210473 / 1000000), some (247243211 / 1000000000),
          some (2817067 / 12500000), some (223343653 / 1000000000), none] := by
  decide!

/-! ## Normalisation -/

theorem FLT_MIN_pos : 0 < FLT_MIN := by
  unfold FLT_MIN
  norm_num

theorem FLT_MIN_le_FLT_MAX : FLT_MIN ≤ FLT_MAX := by
  unfold FLT_MIN FLT_MAX
  norm_num

theorem scanLoop_spec (read : Nat → ℚ) (n : Nat) :
    ((scanLoop read (forRange 0 n)).1 ≤ FLT_MAX ∧
      (∀ i, i < n → (scanLoop read (forRange 0 n)).1 ≤ read i) ∧
      ((scanLoop read (forRange 0 n)).1 = FLT_MAX ∨
        ∃ i, i < n ∧ (scanLoop read (forRange 0 n)).1 = read i)) ∧
    (FLT_MIN ≤ (scanLoop read (forRange 0 n)).2 ∧
      (∀ i, i < n → read i ≤ (scanLoop read (forRange 0 n)).2) ∧
      ((scanLoop read (forRange 0 n)).2 = FLT_MIN ∨
        ∃ i, i < n ∧ (scanLoop read (forRange 0 n)).2 = read i)) := by
  unfold scanLoop
  rw [forRange_zero]
  induction n with
  | zero => simp
  | succ n ih =>
    rw [List.range_succ, List.foldl_append]
    simp only [List.foldl_cons, List.foldl_nil]
    generalize (List.range n).foldl
      (fun (p : ℚ × ℚ) t =>
        (if read t < p.1 then read t else p.1, if read t > p.2 then read t else p.2))
      (FLT_MAX, FLT_MIN) = s at ih
    obtain ⟨⟨h1, h2, h3⟩, ⟨h4, h5, h6⟩⟩ := ih
    refine ⟨⟨?_, ?_, ?_⟩, ⟨?_, ?_, ?_⟩⟩
    · split_ifs with h
      · exact le_trans (le_of_lt h) h1
      · exact h1
    · intro i hi
      split_ifs with h
      · rcases Nat.lt_succ_iff_lt_or_eq.1 hi with hlt | heq
        · exact le_trans (le_of_lt h) (h2 i hlt)
        · rw [heq]
      · rcases Nat.lt_succ_iff_lt_or_eq.1 hi with hlt | heq
        · exact h2 i hlt
        · rw [heq]; exact not_lt.1 h
    · split_ifs with h
      · exact Or.inr ⟨n, Nat.lt_succ_self n, rfl⟩
      · rcases h3 with h3 | ⟨i, hi, h3⟩
        · exact Or.inl h3
        · exact Or.inr ⟨i, Nat.lt_succ_of_lt hi, h3⟩
    · split_ifs with h
      · exact le_trans h4 (le_of_lt h)
      · exact h4
    · intro i hi
      split_ifs with h
      · rcases Nat.lt_succ_iff_lt_or_eq.1 hi with hlt | heq
        · exact le_trans (h5 i hlt) (le_of_lt h)
        · rw [heq]
      · rcases Nat.lt_succ_iff_lt_or_eq.1 hi with hlt | heq
        · exact h5 i hlt
        · rw [heq]; exact not_lt.1 h
    · split_ifs with h
      · exact Or.inr ⟨n, Nat.lt_succ_self n, rfl⟩
      · rcases h6 with h6 | ⟨i, hi, h6⟩
        · exact Or.inl h6
        · exact Or.inr ⟨i, Nat.lt_succ_of_lt hi, h6⟩

theorem rescaleLoop_eq (toMinus1_1 : Nat) (amin arange : ℚ) (n : Nat) (buf : Buf) :
    rescaleLoop toMinus1_1 amin arange n buf
      = fun i => if i < n then rescale toMinus1_1 amin arange (buf i) else buf i := by
  unfold rescaleLoop
  rw [forRange_zero]
  induction n with
  | zero => simp
  | succ n ih =>
    rw [List.range_succ, List.foldl_append, ih]
    simp only [List.foldl_cons, List.foldl_nil, lt_irrefl, if_false]
    funext i
    simp only [Function.update_apply]
    by_cases h : i = n
    · subst h
      simp
    · have : i < n + 1 ↔ i < n := by omega
      simp [h, this]

theorem normalizeColumn_eq (toMinus1_1 numSamples : Nat) (a : Nat → Buf) (j : Nat) :
    normalizeColumn toMinus1_1 numSamples a j
      = Function.update a j (normalizedBuf toMinus1_1 numSamples (a j)) := by
  unfold normalizeColumn normalizedBuf
  dsimp only
  split_ifs
  · rfl
  · exact (Function.update_eq_self j a).symm

theorem normalizeColumns_upto (toMinus1_1 numSamples : Nat) (a : Nat → Buf) (k : Nat) :
    (List.range' 1 k).foldl (normalizeColumn toMinus1_1 numSamples) a
      = fun j => if 1 ≤ j ∧ j < 1 + k then normalizedBuf toMinus1_1 numSamples (a j)
          else a j := by
  induction k with
  | zero =>
    funext j
    have h0 : ¬ (1 ≤ j ∧ j < 1 + 0) := fun h => by omega
    rw [if_neg h0]
    rfl
  | succ k ih =>
    rw [List.range'_concat, List.foldl_append, ih]
    simp only [List.foldl_cons, List.foldl_nil, Nat.one_mul]
    rw [normalizeColumn_eq]
    funext j
    simp only [Function.update_apply]
    by_cases h : j = 1 + k
    · subst h
      have h1 : ¬ (1 ≤ 1 + k ∧ 1 + k < 1 + k) := by omega
      have h2 : 1 ≤ 1 + k ∧ 1 + k < 1 + (k + 1) := by omega
      rw [if_pos rfl, if_neg h1, if_pos h2]
    · have : (1 ≤ j ∧ j < 1 + (k + 1)) ↔ (1 ≤ j ∧ j < 1 + k) := by omega
      simp only [h, if_false, this]

theorem a_normalize_columnwise (toMinus1_1 : Nat) (rowOrColumnWise : Char)
    (hc : rowOrColumnWise ≠ 'r') (sc : Scd) :
    a_normalize toMinus1_1 rowOrColumnWise sc
      = { sc with
          a_normalizedToMinus1_1 := toMinus1_1,
          data := { sc.data with
            a := fun j => if 1 ≤ j ∧ j < sc.data.numFeatures then
                normalizedBuf toMinus1_1 sc.data.numSamples (sc.data.a j)
              else sc.data.a j } } := by
  unfold a_normalize forRange
  simp only [hc, if_false]
  rw [normalizeColumns_upto]
  have : ∀ j, (1 ≤ j ∧ j < 1 + (sc.data.numFeatures - 1)) ↔ (1 ≤ j ∧ j < sc.data.numFeatures) :=
    fun j => by omega
  simp only [this]

theorem b_normalize_unbinarized (toMinus1_1 : Nat) (b_toBinarizeTo : ℚ) (sc : Scd) :
    b_normalize toMinus1_1 0 b_toBinarizeTo sc
      = { sc with
          b_normalizedToMinus1_1 := toMinus1_1,
          data := { sc.data with b := normalizedBuf toMinus1_1 sc.data.numSamples sc.data.b },
          b_min := (scanLoop sc.data.b (forRange 0 sc.data.numSamples)).1,
          b_range := (scanLoop sc.data.b (forRange 0 sc.data.numSamples)).2
            - (scanLoop sc.data.b (forRange 0 sc.data.numSamples)).1 } := by
  unfold b_normalize normalizedBuf
  simp

theorem rescale_mem (toMinus1_1 : Nat) (amin amax v : ℚ) (hr : 0 < amax - amin)
    (h1 : amin ≤ v) (h2 : v ≤ amax) :
    targetLow toMinus1_1 ≤ rescale toMinus1_1 amin (amax - amin) v ∧
    rescale toMinus1_1 amin (amax - amin) v ≤ 1 := by
  have h3 : 0 ≤ (v - amin) / (amax - amin) := div_nonneg (by linarith) (le_of_lt hr)
  have h4 : (v - amin) / (amax - amin) ≤ 1 := (div_le_one hr).2 (by linarith)
  unfold rescale targetLow
  split_ifs
  · constructor <;> linarith
  · exact ⟨h3, h4⟩

theorem normalizedBuf_of_pos (toMinus1_1 n : Nat) (buf : Buf)
    (hr : 0 < (scanLoop buf (forRange 0 n)).2 - (scanLoop buf (forRange 0 n)).1) (i : Nat) :
    normalizedBuf toMinus1_1 n buf i
      = if i < n then
          rescale toMinus1_1 (scanLoop buf (forRange 0 n)).1
            ((scanLoop buf (forRange 0 n)).2 - (scanLoop buf (forRange 0 n)).1) (buf i)
        else buf i := by
  unfold normalizedBuf
  rw [if_pos hr, rescaleLoop_eq]

theorem normalizedBuf_of_not_pos (toMinus1_1 n : Nat) (buf : Buf)
    (hr : ¬ 0 < (scanLoop buf (forRange 0 n)).2 - (scanLoop buf (forRange 0 n)).1) :
    normalizedBuf toMinus1_1 n buf = buf := by
  unfold normalizedBuf
  rw [if_neg hr]

theorem scan_range_pos (n : Nat) (buf : Buf)
    (h : (∃ i, i < n ∧ buf i < FLT_MIN) ∨ (∃ i1 i2, i1 < n ∧ i2 < n ∧ buf i1 < buf i2)) :
    0 < (scanLoop buf (forRange 0 n)).2 - (scanLoop buf (forRange 0 n)).1 := by
  obtain ⟨⟨_, h2, _⟩, ⟨h4, h5, _⟩⟩ := scanLoop_spec buf n
  rcases h with ⟨i, hi, hlt⟩ | ⟨i1, i2, hi1, hi2, hlt⟩
  · have := h2 i hi
    linarith
  · have := h2 i1 hi1
    have := h5 i2 hi2
    linarith

theorem normalizedBuf_mem (toMinus1_1 n : Nat) (buf : Buf)
    (h : (∃ i, i < n ∧ buf i < FLT_MIN) ∨ (∃ i1 i2, i1 < n ∧ i2 < n ∧ buf i1 < buf i2))
    (i : Nat) (hi : i < n) :
    targetLow toMinus1_1 ≤ normalizedBuf toMinus1_1 n buf i ∧
    normalizedBuf toMinus1_1 n buf i ≤ 1 := by
  have hr := scan_range_pos n buf h
  obtain ⟨⟨_, h2, _⟩, ⟨_, h5, _⟩⟩ := scanLoop_spec buf n
  rw [normalizedBuf_of_pos toMinus1_1 n buf hr, if_pos hi]
  exact rescale_mem toMinus1_1 _ _ _ hr (h2 i hi) (h5 i hi)

theorem normalizedBuf_constant (toMinus1_1 n : Nat) (buf : Buf) (c : ℚ)
    (hc : ∀ i, i < n → buf i = c) (h1 : FLT_MIN ≤ c) (h2 : c ≤ FLT_MAX) :
    normalizedBuf toMinus1_1 n buf = buf := by
  apply normalizedBuf_of_not_pos
  obtain ⟨⟨_, _, h3⟩, ⟨_, _, h6⟩⟩ := scanLoop_spec buf n
  have hmax : (scanLoop buf (forRange 0 n)).2 ≤ c := by
    rcases h6 with h6 | ⟨i, hi, h6⟩
    · rw [h6]; exact h1
    · rw [h6, hc i hi]
  have hmin : c ≤ (scanLoop buf (forRange 0 n)).1 := by
    rcases h3 with h3 | ⟨i, hi, h3⟩
    · rw [h3]; exact h2
    · rw [h3, hc i hi]
  linarith

theorem normalizedBuf_extremes (n : Nat) (buf : Buf)
    (hmax : ∃ i, i < n ∧ FLT_MIN ≤ buf i) (hfin : ∀ i, i < n → buf i ≤ FLT_MAX)
    (hne : ∃ i1 i2, i1 < n ∧ i2 < n ∧ buf i1 < buf i2) :
    (∃ i, i < n ∧ normalizedBuf 1 n buf i = -1) ∧ (∃ i, i < n ∧ normalizedBuf 1 n buf i = 1) := by
  have hr := scan_range_pos n buf (Or.inr hne)
  obtain ⟨⟨_, h2, h3⟩, ⟨_, h5, h6⟩⟩ := scanLoop_spec buf n
  obtain ⟨i1, i2, hi1, hi2, hlt⟩ := hne
  obtain ⟨i0, hi0, h0⟩ := hmax
  have hminAt : ∃ i, i < n ∧ (scanLoop buf (forRange 0 n)).1 = buf i := by
    rcases h3 with h3 | h3
    · exact ⟨i1, hi1, le_antisymm (h2 i1 hi1) (by rw [h3]; exact hfin i1 hi1)⟩
    · exact h3
  have hmaxAt : ∃ i, i < n ∧ (scanLoop buf (forRange 0 n)).2 = buf i := by
    rcases h6 with h6 | h6
    · exact ⟨i0, hi0, le_antisymm (by rw [h6]; exact h0) (h5 i0 hi0)⟩
    · exact h6
  obtain ⟨imin, himin, hmin⟩ := hminAt
  obtain ⟨imax, himax, hmaxv⟩ := hmaxAt
  constructor
  · refine ⟨imin, himin, ?_⟩
    rw [normalizedBuf_of_pos 1 n buf hr, if_pos himin]
    unfold rescale
    rw [if_pos rfl, ← hmin]
    simp
  · refine ⟨imax, himax, ?_⟩
    rw [normalizedBuf_of_pos 1 n buf hr, if_pos himax]
    unfold rescale
    rw [if_pos rfl, ← hmaxv, div_self (ne_of_gt hr)]
    norm_num

theorem normalizedBuf_recover (toMinus1_1 n : Nat) (buf : Buf) (i : Nat)
    (hi : i < n) :
    (toMinus1_1 = 1 →
      buf i = ((normalizedBuf toMinus1_1 n buf i + 1) / 2)
          * ((scanLoop buf (forRange 0 n)).2 - (scanLoop buf (forRange 0 n)).1)
        + (scanLoop buf (forRange 0 n)).1) ∧
    (toMinus1_1 ≠ 1 →
      buf i = normalizedBuf toMinus1_1 n buf i
          * ((scanLoop buf (forRange 0 n)).2 - (scanLoop buf (forRange 0 n)).1)
        + (scanLoop buf (forRange 0 n)).1) := by
  obtain ⟨⟨_, h2, _⟩, ⟨_, h5, _⟩⟩ := scanLoop_spec buf n
  by_cases hr : 0 < (scanLoop buf (forRange 0 n)).2 - (scanLoop buf (forRange 0 n)).1
  · rw [normalizedBuf_of_pos toMinus1_1 n buf hr, if_pos hi]
    have hne : (scanLoop buf (forRange 0 n)).2 - (scanLoop buf (forRange 0 n)).1 ≠ 0 :=
      ne_of_gt hr
    unfold rescale
    constructor
    · intro ht
      rw [if_pos ht]
      field_simp
      ring
    · intro ht
      rw [if_neg ht]
      field_simp
  · rw [normalizedBuf_of_not_pos toMinus1_1 n buf hr]
    have h0 : (scanLoop buf (forRange 0 n)).2 - (scanLoop buf (forRange 0 n)).1 = 0 := by
      have := h2 i hi
      have := h5 i hi
      linarith
    have hb : buf i = (scanLoop buf (forRange 0 n)).1 := by
      have := h2 i hi
      have := h5 i hi
      linarith
    rw [h0]
    constructor <;> intro _ <;> simp [← hb]

/-- **C11, counterexample.** After `a_normalize(1, 'c')` on features `[1,1]`, `[3,3]`,
`[-2,-1]`: the constant column `1` is left at `3` (its range is not positive), so its minimum
is not `-1`; and every entry of column `2`, whose maximum `-1` lies below the initial `amax`,
ends strictly below `1`, so its maximum is not `1`. -/
theorem a_normalize_extremes_counterexample :
    1 ≤ (Scd.ofLists [[1, 1], [3, 3], [-2, -1]] [0, 0]).data.numSamples ∧
    (a_normalize 1 'c' (Scd.ofLists [[1, 1], [3, 3], [-2, -1]] [0, 0])).data.a 1 0 = 3 ∧
    (a_normalize 1 'c' (Scd.ofLists [[1, 1], [3, 3], [-2, -1]] [0, 0])).data.a 1 1 = 3 ∧
    (a_normalize 1 'c' (Scd.ofLists [[1, 1], [3, 3], [-2, -1]] [0, 0])).data.a 2 0 < 1 ∧
    (a_normalize 1 'c' (Scd.ofLists [[1, 1], [3, 3], [-2, -1]] [0, 0])).data.a 2 1 < 1 := by
  decide!

/-- **C11, amended.** Column-wise `a_normalize` with `toMinus1_1 = 1`: in every non-bias
column that is not constant, whose entries are at most `FLT_MAX` and whose maximum is at
least the initial `amax` (`FLT_MIN`), every entry ends in `[-1, 1]`, some entry is exactly `-1`
and some entry is exactly `1`; a column whose entries all equal one value between `FLT_MIN`
and `FLT_MAX` is left unchanged. -/
theorem a_normalize_extremes (sc : Scd) (rowOrColumnWise : Char) (hc : rowOrColumnWise ≠ 'r')
    (j : Nat) (hj1 : 1 ≤ j) (hj2 : j < sc.data.numFeatures) :
    ((∃ i, i < sc.data.numSamples ∧ FLT_MIN ≤ sc.data.a j i) →
      (∀ i, i < sc.data.numSamples → sc.data.a j i ≤ FLT_MAX) →
      (∃ i1 i2, i1 < sc.data.numSamples ∧ i2 < sc.data.numSamples ∧
        sc.data.a j i1 < sc.data.a j i2) →
      (∀ i, i < sc.data.numSamples →
        -1 ≤ (a_normalize 1 rowOrColumnWise sc).data.a j i ∧
        (a_normalize 1 rowOrColumnWise sc).data.a j i ≤ 1) ∧
      (∃ i, i < sc.data.numSamples ∧ (a_normalize 1 rowOrColumnWise sc).data.a j i = -1) ∧
      (∃ i, i < sc.data.numSamples ∧ (a_normalize 1 rowOrColumnWise sc).data.a j i = 1)) ∧
    (∀ c, (∀ i, i < sc.data.numSamples → sc.data.a j i = c) → FLT_MIN ≤ c → c ≤ FLT_MAX →
      (a_normalize 1 rowOrColumnWise sc).data.a j = sc.data.a j) := by
  rw [a_normalize_columnwise 1 rowOrColumnWise hc sc]
  have hj : 1 ≤ j ∧ j < sc.data.numFeatures := ⟨hj1, hj2⟩
  simp only [hj, and_self, if_true]
  constructor
  · intro hmax hfin hne
    refine ⟨?_, normalizedBuf_extremes _ _ hmax hfin hne⟩
    intro i hi
    have := normalizedBuf_mem 1 _ (sc.data.a j) (Or.inr hne) i hi
    simpa [targetLow] using this
  · intro c hconst h1 h2
    exact normalizedBuf_constant 1 _ _ c hconst h1 h2

theorem a_normalize_extremes_witness :
    (∃ i, i < 3 ∧ (a_normalize 1 'c' (Scd.ofLists [[1, 1, 1], [1, 5, 2]] [0, 0, 0])).data.a 1 i
      = -1) ∧
    (∃ i, i < 3 ∧ (a_normalize 1 'c' (Scd.ofLists [[1, 1, 1], [1, 5, 2]] [0, 0, 0])).data.a 1 i
      = 1) :=
  ((a_normalize_extremes (Scd.ofLists [[1, 1, 1], [1, 5, 2]] [0, 0, 0]) 'c' (by decide) 1
      (by decide) (by decide)).1
    ⟨0, by decide, by decide!⟩ (fun i hi => by
      have h : i = 0 ∨ i = 1 ∨ i = 2 := by
        have : i < 3 := hi
        omega
      rcases h with h | h | h <;> subst h <;> decide!)
    ⟨0, 1, by decide, by decide, by decide!⟩).2

/-- **C12.** `b_normalize` without binarisation records `b_min` and `b_range` from which
every original label is recovered: `old_b[i] = ((new_b[i] + 1)/2)*b_range + b_min` when
`toMinus1_1 == 1` and `old_b[i] = new_b[i]*b_range + b_min` otherwise (so for `toMinus1_1 = 0`),
whether the labels were rescaled or left unchanged; the flag `b_normalizedToMinus1_1` records
`toMinus1_1`. -/
theorem b_normalize_recovers_labels (sc : Scd) (toMinus1_1 : Nat) (b_toBinarizeTo : ℚ)
    (i : Nat) (hi : i < sc.data.numSamples) :
    (b_normalize toMinus1_1 0 b_toBinarizeTo sc).b_normalizedToMinus1_1 = toMinus1_1 ∧
    (toMinus1_1 = 1 →
      sc.data.b i
        = (((b_normalize toMinus1_1 0 b_toBinarizeTo sc).data.b i + 1) / 2)
            * (b_normalize toMinus1_1 0 b_toBinarizeTo sc).b_range
          + (b_normalize toMinus1_1 0 b_toBinarizeTo sc).b_min) ∧
    (toMinus1_1 ≠ 1 →
      sc.data.b i
        = (b_normalize toMinus1_1 0 b_toBinarizeTo sc).data.b i
            * (b_normalize toMinus1_1 0 b_toBinarizeTo sc).b_range
          + (b_normalize toMinus1_1 0 b_toBinarizeTo sc).b_min) := by
  rw [b_normalize_unbinarized]
  exact ⟨rfl, normalizedBuf_recover toMinus1_1 sc.data.numSamples sc.data.b i hi⟩

theorem b_normalize_recovers_labels_witness :
    1 < (Scd.ofLists [[1, 1, 1]] [1, 2, 4]).data.numSamples ∧
    (0 ≠ 1 →
      (Scd.ofLists [[1, 1, 1]] [1, 2, 4]).data.b 1
        = (b_normalize 0 0 0 (Scd.ofLists [[1, 1, 1]] [1, 2, 4])).data.b 1
            * (b_normalize 0 0 0 (Scd.ofLists [[1, 1, 1]] [1, 2, 4])).b_range
          + (b_normalize 0 0 0 (Scd.ofLists [[1, 1, 1]] [1, 2, 4])).b_min) :=
  ⟨by decide,
    (b_normalize_recovers_labels (Scd.ofLists [[1, 1, 1]] [1, 2, 4]) 0 0 1 (by decide)).2.2⟩

/-- **C13, counterexample.** With features `[1,1]`, `[5,5]` and labels `[5,5]`, both constant,
`a_normalize(0, 'c')` leaves the entry `a[1][0] = 5` and `b_normalize(0, 0, 0.0)` leaves the
label `b[0] = 5`, outside `[0, 1]`. -/
theorem normalize_interval_counterexample :
    1 ≤ (Scd.ofLists [[1, 1], [5, 5]] [5, 5]).data.numSamples ∧
    ¬ (a_normalize 0 'c' (Scd.ofLists [[1, 1], [5, 5]] [5, 5])).data.a 1 0 ≤ 1 ∧
    ¬ (b_normalize 0 0 0 (Scd.ofLists [[1, 1], [5, 5]] [5, 5])).data.b 0 ≤ 1 := by
  decide!

/-- **C13, amended.** In exact arithmetic (the rounding and the overflow of `float` are not
modelled: every subtraction and division below is the rational one), after column-wise
`a_normalize` every entry of a non-bias column that has an entry below `FLT_MIN` or two
different entries lies in `[-1, 1]` when `toMinus1_1 == 1` and in `[0, 1]` otherwise; after
`b_normalize` without binarisation the same holds of every label when the labels have an
entry below `FLT_MIN` or two different entries. A column, or a label vector, whose entries
all equal one value between `FLT_MIN` and `FLT_MAX` has a range that is not positive and is
left unchanged. -/
theorem normalize_interval (sc : Scd) (toMinus1_1 : Nat) (rowOrColumnWise : Char)
    (b_toBinarizeTo : ℚ) (hc : rowOrColumnWise ≠ 'r') :
    (∀ j i, 1 ≤ j → j < sc.data.numFeatures → i < sc.data.numSamples →
      ((∃ i', i' < sc.data.numSamples ∧ sc.data.a j i' < FLT_MIN) ∨
        (∃ i1 i2, i1 < sc.data.numSamples ∧ i2 < sc.data.numSamples ∧
          sc.data.a j i1 < sc.data.a j i2)) →
      (toMinus1_1 = 1 → -1 ≤ (a_normalize toMinus1_1 rowOrColumnWise sc).data.a j i) ∧
      (toMinus1_1 ≠ 1 → 0 ≤ (a_normalize toMinus1_1 rowOrColumnWise sc).data.a j i) ∧
      (a_normalize toMinus1_1 rowOrColumnWise sc).data.a j i ≤ 1) ∧
    (∀ i, i < sc.data.numSamples →
      ((∃ i', i' < sc.data.numSamples ∧ sc.data.b i' < FLT_MIN) ∨
        (∃ i1 i2, i1 < sc.data.numSamples ∧ i2 < sc.data.numSamples ∧
          sc.data.b i1 < sc.data.b i2)) →
      (toMinus1_1 = 1 → -1 ≤ (b_normalize toMinus1_1 0 b_toBinarizeTo sc).data.b i) ∧
      (toMinus1_1 ≠ 1 → 0 ≤ (b_normalize toMinus1_1 0 b_toBinarizeTo sc).data.b i) ∧
      (b_normalize toMinus1_1 0 b_toBinarizeTo sc).data.b i ≤ 1) ∧
    (∀ j c, 1 ≤ j → j < sc.data.numFeatures →
      (∀ i, i < sc.data.numSamples → sc.data.a j i = c) → FLT_MIN ≤ c → c ≤ FLT_MAX →
      (a_normalize toMinus1_1 rowOrColumnWise sc).data.a j = sc.data.a j) ∧
    (∀ c, (∀ i, i < sc.data.numSamples → sc.data.b i = c) → FLT_MIN ≤ c → c ≤ FLT_MAX →
      (b_normalize toMinus1_1 0 b_toBinarizeTo sc).data.b = sc.data.b) := by
  rw [a_normalize_columnwise toMinus1_1 rowOrColumnWise hc sc, b_normalize_unbinarized]
  have low1 : toMinus1_1 = 1 → targetLow toMinus1_1 = -1 := fun h => by simp [targetLow, h]
  have low0 : toMinus1_1 ≠ 1 → targetLow toMinus1_1 = 0 := fun h => by simp [targetLow, h]
  refine ⟨?_, ?_, ?_, ?_⟩
  · intro j i hj1 hj2 hi hcol
    have hj : 1 ≤ j ∧ j < sc.data.numFeatures := ⟨hj1, hj2⟩
    simp only [hj, and_self, if_true]
    obtain ⟨h1, h2⟩ := normalizedBuf_mem toMinus1_1 _ (sc.data.a j) hcol i hi
    exact ⟨fun h => by rw [← low1 h]; exact h1, fun h => by rw [← low0 h]; exact h1, h2⟩
  · intro i hi hlab
    obtain ⟨h1, h2⟩ := normalizedBuf_mem toMinus1_1 _ sc.data.b hlab i hi
    exact ⟨fun h => by rw [← low1 h]; exact h1, fun h => by rw [← low0 h]; exact h1, h2⟩
  · intro j c hj1 hj2 hconst h1 h2
    have hj : 1 ≤ j ∧ j < sc.data.numFeatures := ⟨hj1, hj2⟩
    simp only [hj, and_self, if_true]
    exact normalizedBuf_constant toMinus1_1 _ _ c hconst h1 h2
  · intro c hconst h1 h2
    exact normalizedBuf_constant toMinus1_1 _ _ c hconst h1 h2

theorem normalize_interval_witness :
    'c' ≠ 'r' ∧
    (0 ≠ 1 → 0 ≤ (a_normalize 0 'c' (Scd.ofLists [[1, 1, 1], [1, 5, 2]] [1, 2, 4])).data.a 1 2) ∧
    (a_normalize 0 'c' (Scd.ofLists [[1, 1, 1], [1, 5, 2]] [1, 2, 4])).data.a 1 2 ≤ 1 :=
  ⟨by decide,
    ((normalize_interval (Scd.ofLists [[1, 1, 1], [1, 5, 2]] [1, 2, 4]) 0 'c' 0 (by decide)).1
      1 2 (by decide) (by decide) (by decide)
      (Or.inr ⟨0, 1, by decide, by decide, by decide!⟩)).2⟩

/-- **C14.** Column-wise `a_normalize` (any `rowOrColumnWise` other than `'r'`), for every
value of `toMinus1_1`, leaves column `0` of the feature matrix, the label vector, `numSamples`
and `numFeatures` unchanged. -/
theorem a_normalize_columnwise_frame (sc : Scd) (toMinus1_1 : Nat) (rowOrColumnWise : Char)
    (hc : rowOrColumnWise ≠ 'r') :
    (a_normalize toMinus1_1 rowOrColumnWise sc).data.a 0 = sc.data.a 0 ∧
    (a_normalize toMinus1_1 rowOrColumnWise sc).data.b = sc.data.b ∧
    (a_normalize toMinus1_1 rowOrColumnWise sc).data.numSamples = sc.data.numSamples ∧
    (a_normalize toMinus1_1 rowOrColumnWise sc).data.numFeatures = sc.data.numFeatures := by
  rw [a_normalize_columnwise toMinus1_1 rowOrColumnWise hc sc]
  refine ⟨?_, rfl, rfl, rfl⟩
  have h0 : ¬ (1 ≤ 0 ∧ 0 < sc.data.numFeatures) := fun h => by omega
  simp only [h0, if_false]

theorem a_normalize_columnwise_frame_witness :
    'c' ≠ 'r' ∧
    (a_normalize 1 'c' (Scd.ofLists [[2, 7, 4], [1, 5, 2]] [1, 2, 4])).data.a 0
      = (Scd.ofLists [[2, 7, 4], [1, 5, 2]] [1, 2, 4]).data.a 0 :=
  ⟨by decide,
    (a_normalize_columnwise_frame (Scd.ofLists [[2, 7, 4], [1, 5, 2]] [1, 2, 4]) 1 'c'
      (by decide)).1⟩

/-! ## One step of `float_linreg_SCD` in closed form -/

theorem coordinatePass_upto (ds : Dataset) (stepSize : ℚ) (lo n : Nat) (st : State)
    (k : Nat) :
    (List.range k).foldl (coordinateStep ds stepSize (List.range' lo n)) st
      = { x := fun j =>
            if j < k then
              st.x j - stepSize * ∑ i in Finset.range n, ds.a j (lo + i) * st.error (lo + i)
            else st.x j,
          error := st.error,
          inference := fun t =>
            if lo ≤ t ∧ t < lo + n then
              st.inference t + ∑ j in Finset.range k, ds.a j t * st.x j
            else st.inference t } := by
  induction k with
  | zero => simp
  | succ k ih =>
    rw [List.range_succ, List.foldl_append, ih]
    simp only [List.foldl_cons, List.foldl_nil]
    rw [coordinateStep_range']
    simp only [lt_irrefl, if_false]
    congr 1
    · funext j
      simp only [Function.update_apply]
      by_cases h : j = k
      · subst h
        simp
      · have : j < k + 1 ↔ j < k := by omega
        simp only [h, if_false, this]
    · funext t
      by_cases ht : lo ≤ t ∧ t < lo + n
      · simp only [ht, and_self, if_true, Finset.sum_range_succ]
        ring
      · simp only [ht, if_false]

theorem scalarStep_range' (ds : Dataset) (stepSize : ℚ) (lo n : Nat) (st : State) :
    scalarStep ds stepSize (List.range' lo n) st
      = { x := fun j =>
            if j < ds.numFeatures then
              st.x j - stepSize
                * ∑ i in Finset.range n, ds.a j (lo + i) * (st.inference (lo + i) - ds.b (lo + i))
            else st.x j,
          error := fun t => if lo ≤ t ∧ t < lo + n then st.inference t - ds.b t else st.error t,
          inference := fun t =>
            if lo ≤ t ∧ t < lo + n then predict ds st.x t else st.inference t } := by
  unfold scalarStep coordinatePass residualPass
  rw [forRange_zero, coordinatePass_upto, residualLoop_range']
  dsimp only
  congr 1
  · funext j
    by_cases hj : j < ds.numFeatures
    · simp only [hj, if_true]
      congr 2
      refine Finset.sum_congr rfl (fun i hi => ?_)
      have : lo ≤ lo + i ∧ lo + i < lo + n := by
        have := Finset.mem_range.1 hi
        omega
      simp only [this, and_self, if_true]
    · simp only [hj, if_false]
  · funext t
    by_cases ht : lo ≤ t ∧ t < lo + n
    · simp only [ht, and_self, if_true, zero_add, predict]
    · simp only [ht, if_false]

theorem scalarStep_effect (ds : Dataset) (stepSize : ℚ) (lo n : Nat) (st : State) :
    StepEffect ds stepSize lo n st (scalarStep ds stepSize (List.range' lo n) st) := by
  rw [scalarStep_range']
  refine ⟨?_, ?_, ?_, ?_, ?_⟩
  · intro i h1 h2
    simp only [h1, h2, and_self, if_true]
  · intro j hj
    simp only [hj, if_true]
  · intro i h1 h2
    simp only [h1, h2, and_self, if_true]
  · intro i hi
    simp only [hi, if_false, and_self]
  · intro j hj
    have : ¬ j < ds.numFeatures := by omega
    simp only [this, if_false]

theorem restIdxs_eq (numSamples minibatchSize : Nat) (hS : numSamples < 4294967296) :
    restIdxs numSamples (rest numSamples minibatchSize)
      = List.range' (numSamples - rest numSamples minibatchSize)
          (rest numSamples minibatchSize) := by
  have h1 : rest numSamples minibatchSize = numSamples % minibatchSize :=
    rest_eq_mod minibatchSize hS
  have h2 : numSamples % minibatchSize ≤ numSamples := Nat.mod_le _ _
  unfold restIdxs forRange
  rw [h1, u32sub_of_le hS h2]
  congr 1
  omega

/-- **C16.** One step of `float_linreg_SCD` over a sample range, started in any state `st`,
has the effect `StepEffect`: on the range `error[i] = inference[i] - b[i]` and the new
`inference[i]` is the prediction of the weights before the step; for every coordinate `j`,
`x[j]` decreases by `stepSize` times the sum over the range of
`a[j][i]*(inference[i] - b[i])`; `error` and `inference` off the range are unchanged. This
holds for the full minibatch `m` (range `m*minibatchSize .. m*minibatchSize+minibatchSize-1`)
and, when `rest > 0`, for the remainder pass (range `numSamples-rest .. numSamples-1`). -/
theorem minibatch_step_effect (ds : Dataset) (stepSize : ℚ) (minibatchSize : Nat)
    (st : State) :
    (∀ m, StepEffect ds stepSize (m * minibatchSize) minibatchSize st
      (scalarStep ds stepSize (minibatchIdxs m minibatchSize) st)) ∧
    (ds.numSamples < 4294967296 → 0 < rest ds.numSamples minibatchSize →
      StepEffect ds stepSize (ds.numSamples - rest ds.numSamples minibatchSize)
        (rest ds.numSamples minibatchSize) st (restPass ds minibatchSize stepSize st)) := by
  constructor
  · intro m
    rw [minibatchIdxs_eq]
    exact scalarStep_effect ds stepSize _ _ st
  · intro hS hr
    unfold restPass
    rw [if_pos hr, restIdxs_eq _ _ hS]
    exact scalarStep_effect ds stepSize _ _ st

theorem minibatch_step_effect_witness :
    3 < 4294967296 ∧ 0 < rest 3 2 ∧
    StepEffect (Dataset.ofLists [[1, 1, 1]] [1, 2, 4]) (1 / 10) (3 - rest 3 2) (rest 3 2)
      State.init (restPass (Dataset.ofLists [[1, 1, 1]] [1, 2, 4]) 2 (1 / 10) State.init) :=
  ⟨by decide, by decide,
    (minibatch_step_effect (Dataset.ofLists [[1, 1, 1]] [1, 2, 4]) (1 / 10) 2 State.init).2
      (by decide) (by decide)⟩

/-! ## The residuals along a run of `float_linreg_SCD` -/

theorem beforeMinibatch_succ (ds : Dataset) (minibatchSize : Nat) (stepSize : ℚ) (st : State)
    (m : Nat) :
    beforeMinibatch ds minibatchSize stepSize st (m + 1)
      = scalarStep ds stepSize (minibatchIdxs m minibatchSize)
          (beforeMinibatch ds minibatchSize stepSize st m) := by
  unfold beforeMinibatch
  rw [forRange_zero, forRange_zero, List.range_succ, List.foldl_append]
  rfl

theorem scalarEpoch_eq (ds : Dataset) (minibatchSize : Nat) (stepSize : ℚ) (st : State) :
    scalarEpoch ds minibatchSize stepSize st
      = restPass ds minibatchSize stepSize
          (beforeMinibatch ds minibatchSize stepSize st
            (numMinibatches ds.numSamples minibatchSize)) := rfl

theorem div_eq_of_mem_minibatch {t k minibatchSize : Nat}
    (h1 : k * minibatchSize ≤ t) (h2 : t < k * minibatchSize + minibatchSize) :
    t / minibatchSize = k := by
  apply Nat.div_eq_of_lt_le h1
  have : (k + 1) * minibatchSize = k * minibatchSize + minibatchSize := by ring
  rw [this]
  exact h2

theorem beforeMinibatch_buffers (ds : Dataset) (minibatchSize : Nat) (stepSize : ℚ)
    (st : State) (k : Nat) :
    (∀ t, (beforeMinibatch ds minibatchSize stepSize st k).error t
      = if t < k * minibatchSize then st.inference t - ds.b t else st.error t) ∧
    (∀ t, (beforeMinibatch ds minibatchSize stepSize st k).inference t
      = if t < k * minibatchSize then
          predict ds (beforeMinibatch ds minibatchSize stepSize st (t / minibatchSize)).x t
        else st.inference t) := by
  induction k with
  | zero =>
    have h0 : ∀ t, ¬ t < 0 * minibatchSize := fun t h => by omega
    constructor <;> intro t <;> rw [if_neg (h0 t)] <;> rfl
  | succ k ih =>
    obtain ⟨ihe, ihi⟩ := ih
    rw [beforeMinibatch_succ, minibatchIdxs_eq, scalarStep_range']
    have hsplit : (k + 1) * minibatchSize = k * minibatchSize + minibatchSize := by ring
    constructor
    · intro t
      dsimp only
      by_cases ht : k * minibatchSize ≤ t ∧ t < k * minibatchSize + minibatchSize
      · have h1 : t < (k + 1) * minibatchSize := by omega
        have h2 : ¬ t < k * minibatchSize := by omega
        rw [if_pos ht, if_pos h1, ihi t, if_neg h2]
      · rw [if_neg ht, ihe t]
        by_cases h3 : t < k * minibatchSize
        · have h1 : t < (k + 1) * minibatchSize := by omega
          rw [if_pos h3, if_pos h1]
        · have h1 : ¬ t < (k + 1) * minibatchSize := by omega
          rw [if_neg h3, if_neg h1]
    · intro t
      dsimp only
      by_cases ht : k * minibatchSize ≤ t ∧ t < k * minibatchSize + minibatchSize
      · have h1 : t < (k + 1) * minibatchSize := by omega
        rw [if_pos ht, if_pos h1, div_eq_of_mem_minibatch ht.1 ht.2]
      · rw [if_neg ht, ihi t]
        by_cases h3 : t < k * minibatchSize
        · have h1 : t < (k + 1) * minibatchSize := by omega
          rw [if_pos h3, if_pos h1]
        · have h1 : ¬ t < (k + 1) * minibatchSize := by omega
          rw [if_neg h3, if_neg h1]

theorem numMinibatches_mul_add_rest (numSamples minibatchSize : Nat)
    (hS : numSamples < 4294967296) :
    numMinibatches numSamples minibatchSize * minibatchSize + rest numSamples minibatchSize
      = numSamples := by
  rw [rest_eq_mod minibatchSize hS]
  unfold numMinibatches
  have := Nat.div_add_mod numSamples minibatchSize
  rw [Nat.mul_comm] at this
  exact this

/-- The buffers at the end of an epoch of `float_linreg_SCD` started in `st`: on every sample
the residual is the old `inference` minus the label, and the new `inference` is the
prediction of the weights that stood when the minibatch (or remainder) of the sample began. -/
theorem scalarEpoch_buffers (ds : Dataset) (minibatchSize : Nat) (stepSize : ℚ)
    (hmb : 0 < minibatchSize) (hS : ds.numSamples < 4294967296) (st : State) (t : Nat)
    (ht : t < ds.numSamples) :
    (scalarEpoch ds minibatchSize stepSize st).error t = st.inference t - ds.b t ∧
    (scalarEpoch ds minibatchSize stepSize st).inference t
      = predict ds (beforeMinibatch ds minibatchSize stepSize st (t / minibatchSize)).x t := by
  obtain ⟨he, hi⟩ := beforeMinibatch_buffers ds minibatchSize stepSize st
    (numMinibatches ds.numSamples minibatchSize)
  have hsum := numMinibatches_mul_add_rest ds.numSamples minibatchSize hS
  have hrlt : rest ds.numSamples minibatchSize < minibatchSize := by
    rw [rest_eq_mod minibatchSize hS]
    exact Nat.mod_lt _ hmb
  rw [scalarEpoch_eq]
  unfold restPass
  by_cases hr : rest ds.numSamples minibatchSize > 0
  · rw [if_pos hr, restIdxs_eq _ _ hS, scalarStep_range']
    dsimp only
    have hlo : ds.numSamples - rest ds.numSamples minibatchSize
        = numMinibatches ds.numSamples minibatchSize * minibatchSize := by omega
    rw [hlo]
    by_cases hin : numMinibatches ds.numSamples minibatchSize * minibatchSize ≤ t
    · have hin2 : numMinibatches ds.numSamples minibatchSize * minibatchSize ≤ t ∧
          t < numMinibatches ds.numSamples minibatchSize * minibatchSize
            + rest ds.numSamples minibatchSize := by omega
      have hnot : ¬ t < numMinibatches ds.numSamples minibatchSize * minibatchSize := by omega
      have hdiv : t / minibatchSize = numMinibatches ds.numSamples minibatchSize :=
        div_eq_of_mem_minibatch hin (by omega)
      rw [if_pos hin2, if_pos hin2, hi t, if_neg hnot, hdiv]
      exact ⟨rfl, rfl⟩
    · have hin2 : ¬ (numMinibatches ds.numSamples minibatchSize * minibatchSize ≤ t ∧
          t < numMinibatches ds.numSamples minibatchSize * minibatchSize
            + rest ds.numSamples minibatchSize) := fun h => hin h.1
      have hlt : t < numMinibatches ds.numSamples minibatchSize * minibatchSize := by omega
      rw [if_neg hin2, if_neg hin2, he t, hi t, if_pos hlt, if_pos hlt]
      exact ⟨rfl, rfl⟩
  · rw [if_neg hr]
    have hlt : t < numMinibatches ds.numSamples minibatchSize * minibatchSize := by omega
    rw [he t, hi t, if_pos hlt, if_pos hlt]
    exact ⟨rfl, rfl⟩

theorem residualPass_range' (ds : Dataset) (lo n : Nat) (st : State) :
    residualPass ds (List.range' lo n) st
      = { st with
          error := fun t => if lo ≤ t ∧ t < lo + n then st.inference t - ds.b t else st.error t,
          inference := fun t => if lo ≤ t ∧ t < lo + n then 0 else st.inference t } := by
  unfold residualPass
  rw [residualLoop_range']

theorem residualsOfMinibatch_eq (ds : Dataset) (minibatchSize : Nat) (stepSize : ℚ)
    (e m i : Nat) (h1 : m * minibatchSize ≤ i) (h2 : i < m * minibatchSize + minibatchSize) :
    residualsOfMinibatch ds minibatchSize stepSize e m i
      = (epochStart ds minibatchSize stepSize e).inference i - ds.b i := by
  unfold residualsOfMinibatch
  rw [minibatchIdxs_eq, residualPass_range']
  dsimp only
  have hnot : ¬ i < m * minibatchSize := by omega
  rw [if_pos ⟨h1, h2⟩, (beforeMinibatch_buffers ds minibatchSize stepSize _ m).2 i, if_neg hnot]

theorem residualsOfRest_eq (ds : Dataset) (minibatchSize : Nat) (stepSize : ℚ)
    (hS : ds.numSamples < 4294967296) (e i : Nat)
    (h1 : ds.numSamples - rest ds.numSamples minibatchSize ≤ i) (h2 : i < ds.numSamples) :
    residualsOfRest ds minibatchSize stepSize e i
      = (epochStart ds minibatchSize stepSize e).inference i - ds.b i := by
  have hsum := numMinibatches_mul_add_rest ds.numSamples minibatchSize hS
  unfold residualsOfRest
  rw [restIdxs_eq _ _ hS, residualPass_range']
  dsimp only
  have hin : ds.numSamples - rest ds.numSamples minibatchSize ≤ i ∧
      i < ds.numSamples - rest ds.numSamples minibatchSize
        + rest ds.numSamples minibatchSize := by omega
  have hnot : ¬ i < numMinibatches ds.numSamples minibatchSize * minibatchSize := by omega
  rw [if_pos hin, (beforeMinibatch_buffers ds minibatchSize stepSize _ _).2 i, if_neg hnot]

theorem epochStart_succ (ds : Dataset) (minibatchSize : Nat) (stepSize : ℚ) (e : Nat) :
    epochStart ds minibatchSize stepSize (e + 1)
      = scalarEpoch ds minibatchSize stepSize (epochStart ds minibatchSize stepSize e) := by
  unfold epochStart
  rw [Function.iterate_succ_apply']

/-- **C17.** In the first epoch of `float_linreg_SCD`, with `minibatchSize > 0` and a 32-bit
`numSamples`, the residual computed for sample `i` is `-b[i]`: in the residual loop of every
full minibatch `m` for the samples of that minibatch, in the residual loop of the remainder
pass for the samples of the remainder, and hence in the `error` buffer at the end of the
epoch for every sample. -/
theorem first_epoch_residuals (ds : Dataset) (minibatchSize : Nat) (stepSize : ℚ)
    (hmb : 0 < minibatchSize) (hS : ds.numSamples < 4294967296) :
    (∀ m i, m < numMinibatches ds.numSamples minibatchSize →
      m * minibatchSize ≤ i → i < m * minibatchSize + minibatchSize →
      residualsOfMinibatch ds minibatchSize stepSize 0 m i = - ds.b i) ∧
    (∀ i, 0 < rest ds.numSamples minibatchSize →
      ds.numSamples - rest ds.numSamples minibatchSize ≤ i → i < ds.numSamples →
      residualsOfRest ds minibatchSize stepSize 0 i = - ds.b i) ∧
    (∀ i, i < ds.numSamples →
      (scalarEpoch ds minibatchSize stepSize State.init).error i = - ds.b i) := by
  refine ⟨?_, ?_, ?_⟩
  · intro m i _ h1 h2
    rw [residualsOfMinibatch_eq ds minibatchSize stepSize 0 m i h1 h2]
    simp [epochStart, State.init]
  · intro i _ h1 h2
    rw [residualsOfRest_eq ds minibatchSize stepSize hS 0 i h1 h2]
    simp [epochStart, State.init]
  · intro i hi
    rw [(scalarEpoch_buffers ds minibatchSize stepSize hmb hS State.init i hi).1]
    simp [State.init]

theorem first_epoch_residuals_witness :
    0 < 2 ∧ (Dataset.ofLists [[1, 1, 1, 1, 1]] [1, 2, 4, 8, 16]).numSamples < 4294967296 ∧
    residualsOfMinibatch (Dataset.ofLists [[1, 1, 1, 1, 1]] [1, 2, 4, 8, 16]) 2 (1 / 10) 0 1 3
      = - (Dataset.ofLists [[1, 1, 1, 1, 1]] [1, 2, 4, 8, 16]).b 3 :=
  ⟨by decide, by decide,
    (first_epoch_residuals (Dataset.ofLists [[1, 1, 1, 1, 1]] [1, 2, 4, 8, 16]) 2 (1 / 10)
      (by decide) (by decide)).1 1 3 (by decide) (by decide) (by decide)⟩

/-- **C18, counterexample.** Two samples, one feature `[1, 1]`, labels `[1, 2]`,
`minibatchSize = 1`, `stepSize = 1/10`. In the second epoch the residual with which
minibatch `1` is processed is `-19/10`. The minibatch processed immediately before it,
minibatch `0` of the same epoch, was entered with the weight `3/10` and left with `4/10`; the
prediction errors of those two models on the sample are `-17/10` and `-16/10`, and the
residual is neither. -/
theorem residual_is_not_of_previous_minibatch :
    residualsOfMinibatch (Dataset.ofLists [[1, 1]] [1, 2]) 1 (1 / 10) 1 1 1 = -19 / 10 ∧
    (beforeMinibatch (Dataset.ofLists [[1, 1]] [1, 2]) 1 (1 / 10)
      (epochStart (Dataset.ofLists [[1, 1]] [1, 2]) 1 (1 / 10) 1) 0).x 0 = 3 / 10 ∧
    (beforeMinibatch (Dataset.ofLists [[1, 1]] [1, 2]) 1 (1 / 10)
      (epochStart (Dataset.ofLists [[1, 1]] [1, 2]) 1 (1 / 10) 1) 1).x 0 = 4 / 10 ∧
    residualsOfMinibatch (Dataset.ofLists [[1, 1]] [1, 2]) 1 (1 / 10) 1 1 1
      ≠ predict (Dataset.ofLists [[1, 1]] [1, 2])
          (beforeMinibatch (Dataset.ofLists [[1, 1]] [1, 2]) 1 (1 / 10)
            (epochStart (Dataset.ofLists [[1, 1]] [1, 2]) 1 (1 / 10) 1) 0).x 1
        - (Dataset.ofLists [[1, 1]] [1, 2]).b 1 ∧
    residualsOfMinibatch (Dataset.ofLists [[1, 1]] [1, 2]) 1 (1 / 10) 1 1 1
      ≠ predict (Dataset.ofLists [[1, 1]] [1, 2])
          (beforeMinibatch (Dataset.ofLists [[1, 1]] [1, 2]) 1 (1 / 10)
            (epochStart (Dataset.ofLists [[1, 1]] [1, 2]) 1 (1 / 10) 1) 1).x 1
        - (Dataset.ofLists [[1, 1]] [1, 2]).b 1 := by
  decide!

theorem parallelEpochStart_sim (W : Nat) (ds : Dataset) (minibatchSize : Nat) (stepSize : ℚ)
    (hW : 1 ≤ W) (hS : ds.numSamples < 4294967296) (hF : ds.numFeatures < 4294967296)
    (h8 : minibatchSize % 8 = 0) (e : Nat) :
    ∃ ps, parallelEpochStart W ds minibatchSize stepSize e = some ps ∧
      Sim W (numMinibatches ds.numSamples minibatchSize * minibatchSize) ps
        (epochStart ds minibatchSize stepSize e) := by
  induction e with
  | zero => exact ⟨PState.init, rfl, Sim_init W _⟩
  | succ e ih =>
    obtain ⟨ps, hps, hsim⟩ := ih
    obtain ⟨ps', hps', hsim'⟩ :=
      parallelEpoch_sim ds stepSize W minibatchSize hW hS hF h8 _ _ hsim
    refine ⟨ps', ?_, ?_⟩
    · rw [parallelEpochStart, hps, Option.some_bind, hps']
    · unfold epochStart
      rw [Function.iterate_succ_apply']
      exact hsim'

theorem parallelBeforeMinibatch_sim (W : Nat) (ds : Dataset) (minibatchSize : Nat)
    (stepSize : ℚ) (hW : 1 ≤ W) (hF : ds.numFeatures < 4294967296)
    (h8 : minibatchSize % 8 = 0) (ps : PState) (st : State) (m : Nat)
    (hm : m ≤ numMinibatches ds.numSamples minibatchSize)
    (h : Sim W (numMinibatches ds.numSamples minibatchSize * minibatchSize) ps st) :
    ∃ ps', parallelBeforeMinibatch W ds minibatchSize stepSize ps m = some ps' ∧
      Sim W (numMinibatches ds.numSamples minibatchSize * minibatchSize) ps'
        (beforeMinibatch ds minibatchSize stepSize st m) := by
  unfold parallelBeforeMinibatch beforeMinibatch
  refine foldlM_rel (Sim W _) _ _ _ ?_ ps st h
  intro a b m' hm' hab
  rw [forRange_zero, List.mem_range] at hm'
  refine parallelStep_sim ds stepSize W _ m' minibatchSize hW hF h8 ?_ a b hab
  calc m' * minibatchSize + minibatchSize = (m' + 1) * minibatchSize := by ring
    _ ≤ numMinibatches ds.numSamples minibatchSize * minibatchSize :=
      Nat.mul_le_mul_right _ (by omega)

/-- **C18, amended.** In `float_linreg_SCD`, with `minibatchSize > 0` and a 32-bit
`numSamples`, the residual with which a full minibatch `m` is processed in epoch `e + 1` is,
for each sample `i` of the minibatch, `(sum over j of a[j][i]*w[j]) - b[i]` where `w` is the
weight vector with which the same minibatch `m` was entered in epoch `e`: the model behind
the residual is one epoch old, for the first minibatch of the epoch as for the others. In
the parallel trainer (`W ≥ 1` workers run phase by phase, `minibatchSize` a multiple of 8,
32-bit `numFeatures`) no 8-wide access faults on the way, and the residual that the leader's
reduction phase computes from `inference_reduce` and the workers' private buffers is the same
expression of the parallel trainer's own weights. -/
theorem residual_is_of_previous_epoch (ds : Dataset) (minibatchSize : Nat) (stepSize : ℚ)
    (hmb : 0 < minibatchSize) (hS : ds.numSamples < 4294967296)
    (e m i : Nat) (hm : m < numMinibatches ds.numSamples minibatchSize)
    (h1 : m * minibatchSize ≤ i) (h2 : i < m * minibatchSize + minibatchSize) :
    residualsOfMinibatch ds minibatchSize stepSize (e + 1) m i
      = predict ds
          (beforeMinibatch ds minibatchSize stepSize (epochStart ds minibatchSize stepSize e)
            m).x i
        - ds.b i ∧
    ∀ W, 1 ≤ W → ds.numFeatures < 4294967296 → minibatchSize % 8 = 0 →
      ∃ reduced before : PState,
        ((parallelEpochStart W ds minibatchSize stepSize (e + 1)).bind
            (fun ps => parallelBeforeMinibatch W ds minibatchSize stepSize ps m)).bind
          (leaderReduce ds W m minibatchSize) = some reduced ∧
        (parallelEpochStart W ds minibatchSize stepSize e).bind
          (fun ps => parallelBeforeMinibatch W ds minibatchSize stepSize ps m) = some before ∧
        reduced.error i = predict ds before.x i - ds.b i := by
  have hle : (m + 1) * minibatchSize ≤ numMinibatches ds.numSamples minibatchSize * minibatchSize :=
    Nat.mul_le_mul_right _ hm
  have hsplit : (m + 1) * minibatchSize = m * minibatchSize + minibatchSize := by ring
  have hsum := numMinibatches_mul_add_rest ds.numSamples minibatchSize hS
  have hi : i < ds.numSamples := by omega
  have hscalar : residualsOfMinibatch ds minibatchSize stepSize (e + 1) m i
      = predict ds
          (beforeMinibatch ds minibatchSize stepSize (epochStart ds minibatchSize stepSize e)
            m).x i
        - ds.b i := by
    rw [residualsOfMinibatch_eq ds minibatchSize stepSize (e + 1) m i h1 h2, epochStart_succ,
      (scalarEpoch_buffers ds minibatchSize stepSize hmb hS _ i hi).2,
      div_eq_of_mem_minibatch h1 h2]
  refine ⟨hscalar, ?_⟩
  intro W hW hF h8
  obtain ⟨start1, hstart1, hs1⟩ :=
    parallelEpochStart_sim W ds minibatchSize stepSize hW hS hF h8 (e + 1)
  obtain ⟨start0, hstart0, hs0⟩ :=
    parallelEpochStart_sim W ds minibatchSize stepSize hW hS hF h8 e
  obtain ⟨before1, hbefore1, hsim1⟩ := parallelBeforeMinibatch_sim W ds minibatchSize stepSize
    hW hF h8 _ _ m (le_of_lt hm) hs1
  obtain ⟨before0, hbefore0, hsim0⟩ := parallelBeforeMinibatch_sim W ds minibatchSize stepSize
    hW hF h8 _ _ m (le_of_lt hm) hs0
  obtain ⟨reduced, hreduced, hred⟩ := leaderReduce_sim ds W _ m minibatchSize h8 _ _ hsim1
  refine ⟨reduced, before0, ?_, ?_, ?_⟩
  · rw [hstart1, Option.some_bind, hbefore1, Option.some_bind, hreduced]
  · rw [hstart0, Option.some_bind, hbefore0]
  · rw [hred.2.1, hsim0.1]
    exact hscalar

theorem residual_is_of_previous_epoch_witness :
    0 < 8 ∧ (Dataset.ofLists [[1, 1, 1, 1, 1, 1, 1, 1, 1]] [1, 2, 4, 8, 16, 32, 64, 128, 256]).numSamples
      < 4294967296 ∧
    residualsOfMinibatch
        (Dataset.ofLists [[1, 1, 1, 1, 1, 1, 1, 1, 1]] [1, 2, 4, 8, 16, 32, 64, 128, 256])
        8 (1 / 1000) (1 + 1) 0 3
      = predict (Dataset.ofLists [[1, 1, 1, 1, 1, 1, 1, 1, 1]] [1, 2, 4, 8, 16, 32, 64, 128, 256])
          (beforeMinibatch
            (Dataset.ofLists [[1, 1, 1, 1, 1, 1, 1, 1, 1]] [1, 2, 4, 8, 16, 32, 64, 128, 256])
            8 (1 / 1000)
            (epochStart
              (Dataset.ofLists [[1, 1, 1, 1, 1, 1, 1, 1, 1]] [1, 2, 4, 8, 16, 32, 64, 128, 256])
              8 (1 / 1000) 1) 0).x 3
        - (Dataset.ofLists [[1, 1, 1, 1, 1, 1, 1, 1, 1]] [1, 2, 4, 8, 16, 32, 64, 128, 256]).b 3 :=
  ⟨by decide, by decide,
    (residual_is_of_previous_epoch
      (Dataset.ofLists [[1, 1, 1, 1, 1, 1, 1, 1, 1]] [1, 2, 4, 8, 16, 32, 64, 128, 256])
      8 (1 / 1000) (by decide) (by decide) 1 0 3 (by decide) (by decide) (by decide)).1⟩

/-! ## The guards of the vectorised trainers, continued -/

/-- **C19.** The guard `minibatchSize % 8 == 8` is false for every `minibatchSize`, so for
every input neither `AVX_float_linreg_SCD` nor `AVXmulti_float_linreg_SCD` ends in the
rejection branch. -/
theorem avx_guard_never_rejects (minibatchSize : Nat) :
    ¬ (minibatchSize % 8 = 8) ∧
    ∀ (W : Nat) (ds : Dataset) (x_history : Option Hist) (numEpochs : Nat) (stepSize : ℚ),
      (AVX_float_linreg_SCD ds x_history numEpochs minibatchSize stepSize).rejected = false ∧
      (AVXmulti_float_linreg_SCD W ds x_history numEpochs minibatchSize stepSize).rejected
        = false := by
  have hguard : ¬ minibatchSize % 8 = 8 := by omega
  refine ⟨hguard, ?_⟩
  intro W ds x_history numEpochs stepSize
  unfold AVX_float_linreg_SCD AVXmulti_float_linreg_SCD
  by_cases h0 : minibatchSize = 0
  · simp [h0, Outcome.rejected]
  · simp only [hguard, h0, if_false]
    constructor <;> split <;> rfl

/-- **C15, counterexample.** With `NUM_THREADS = 14` workers and the 2-feature scenario
dataset, `AVXmulti_float_linreg_SCD` (`minibatchSize = 8`, one epoch) is not rejected: it
returns with the trained weights `1/100` and `3/100` stored in the history buffer. -/
theorem AVXmulti_runs_with_more_workers_than_features :
    scenarioDataset.numFeatures < NUM_THREADS ∧
    (AVXmulti_float_linreg_SCD NUM_THREADS scenarioDataset (some emptyHist) 1 8
      (1 / 1000)).rejected = false ∧
    (List.range 2).map
        (((AVXmulti_float_linreg_SCD NUM_THREADS scenarioDataset (some emptyHist) 1 8
          (1 / 1000)).returnedHistory).getD emptyHist)
      = [some (1 / 100), some (3 / 100)] := by
  decide!

/-- **C15, amended.** `AVXmulti_float_linreg_SCD` does not compare the worker count with
`numFeatures`: a call with more workers than features is not rejected; every worker but the
last is handed an empty coordinate range and the last is handed all of `[0, numFeatures)`. -/
theorem AVXmulti_accepts_more_workers_than_features (W : Nat) (ds : Dataset)
    (hW : ds.numFeatures < W) (hF : ds.numFeatures < 4294967296)
    (x_history : Option Hist) (numEpochs minibatchSize : Nat) (stepSize : ℚ) :
    (AVXmulti_float_linreg_SCD W ds x_history numEpochs minibatchSize stepSize).rejected
      = false ∧
    (assignCoords W ds.numFeatures).length = W ∧
    ∀ (n : Nat) (r : CoordArgs), (assignCoords W ds.numFeatures)[n]? = some r →
      (n < W - 1 → r.numCoordsToProcess = 0) ∧
      (n = W - 1 → r.startingCoord = 0 ∧ r.numCoordsToProcess = ds.numFeatures) := by
  have hguard : ¬ minibatchSize % 8 = 8 := by omega
  have hq : ds.numFeatures / W = 0 := Nat.div_eq_of_lt hW
  refine ⟨?_, ?_, ?_⟩
  · unfold AVXmulti_float_linreg_SCD
    by_cases h0 : minibatchSize = 0
    · simp [h0, Outcome.rejected]
    · simp only [hguard, h0, if_false]
      split <;> rfl
  · rw [assignCoords_eq W ds.numFeatures hF]
    simp
  · intro n r h
    rw [assignCoords_getElem? W ds.numFeatures hF] at h
    by_cases hn : n < W
    · rw [if_pos hn] at h
      have hr : r = coordArgsOf W ds.numFeatures n := (Option.some.inj h).symm
      subst hr
      constructor
      · intro hlt
        have hne : n ≠ W - 1 := by omega
        simp [coordArgsOf, hne, hq]
      · intro heq
        simp [coordArgsOf, heq, hq]
    · rw [if_neg hn] at h
      exact absurd h (by simp)

theorem AVXmulti_accepts_more_workers_than_features_witness :
    scenarioDataset.numFeatures < NUM_THREADS ∧ scenarioDataset.numFeatures < 4294967296 ∧
    (AVXmulti_float_linreg_SCD NUM_THREADS scenarioDataset none 3 8 (1 / 1000)).rejected
      = false :=
  ⟨by decide, by decide,
    (AVXmulti_accepts_more_workers_than_features NUM_THREADS scenarioDataset (by decide)
      (by decide) none 3 8 (1 / 1000)).1⟩

/-! ## Indices of the 8-wide loads and stores -/

theorem mem_forStride8 (minibatchSize i : Nat) :
    i ∈ forStride8 minibatchSize ↔ i % 8 = 0 ∧ i < minibatchSize := by
  unfold forStride8
  simp only [List.mem_map, List.mem_range]
  constructor
  · rintro ⟨c, hc, rfl⟩
    omega
  · rintro ⟨h1, h2⟩
    exact ⟨i / 8, by omega, by omega⟩

/-- **C20.** When `minibatchSize` is a positive multiple of 8, the counter of the 8-strided
loops of `AVX_float_linreg_SCD` takes exactly the values `i` with `i % 8 = 0` and
`i < minibatchSize`, and for every minibatch `m < numMinibatches`, every such `i` and every
lane `k < 8` the accessed index `m*minibatchSize + i + k` is below `(m+1)*minibatchSize`,
which is at most `numSamples`, and the start index `m*minibatchSize + i` is a multiple
of 8. -/
theorem avx_accesses_stay_in_minibatch (numSamples minibatchSize : Nat)
    (hpos : 0 < minibatchSize) (h8 : minibatchSize % 8 = 0) (m : Nat)
    (hm : m < numMinibatches numSamples minibatchSize) :
    (∀ i, i ∈ forStride8 minibatchSize ↔ i % 8 = 0 ∧ i < minibatchSize) ∧
    ∀ i, i ∈ forStride8 minibatchSize → ∀ k, k < 8 →
      m * minibatchSize + i + k < (m + 1) * minibatchSize ∧
      (m + 1) * minibatchSize ≤ numSamples ∧
      (m * minibatchSize + i) % 8 = 0 := by
  refine ⟨mem_forStride8 minibatchSize, ?_⟩
  intro i hi k hk
  obtain ⟨hi8, hilt⟩ := (mem_forStride8 minibatchSize i).1 hi
  have hsplit : (m + 1) * minibatchSize = m * minibatchSize + minibatchSize := by ring
  have hle : (m + 1) * minibatchSize ≤ numSamples :=
    (Nat.le_div_iff_mul_le hpos).1 hm
  have hmul : (m * minibatchSize) % 8 = 0 := by
    rw [Nat.mul_mod, h8]
    simp
  refine ⟨?_, hle, ?_⟩
  · rw [hsplit]
    omega
  · omega

theorem avx_accesses_stay_in_minibatch_witness :
    0 < 16 ∧ 16 % 8 = 0 ∧ 2 < numMinibatches 50 16 ∧
    (2 * 16 + 8 + 7 < (2 + 1) * 16 ∧ (2 + 1) * 16 ≤ 50 ∧ (2 * 16 + 8) % 8 = 0) :=
  ⟨by decide, by decide, by decide,
    (avx_accesses_stay_in_minibatch 50 16 (by decide) (by decide) 2 (by decide)).2 8
      (by decide) 7 (by decide)⟩

/-! ## The age of the model behind a residual -/

/-- **C21.** In `float_linreg_SCD`, with `minibatchSize > 0` and a 32-bit `numSamples`, for
every epoch `e + 1` (every epoch but the first) and every sample `i`, the residual computed
for sample `i` in that epoch is `(sum over j of a[j][i]*w[j]) - b[i]`, where `w` is the weight
vector as it stood in epoch `e` when the processing of the minibatch of sample `i` (minibatch
`i / minibatchSize`, which for a sample of the remainder is the remainder pass) began; the
`error` buffer still holds that value at the end of epoch `e + 1`. -/
theorem residual_is_one_epoch_old (ds : Dataset) (minibatchSize : Nat) (stepSize : ℚ)
    (hmb : 0 < minibatchSize) (hS : ds.numSamples < 4294967296) (e i : Nat)
    (hi : i < ds.numSamples) :
    residualOfSample ds minibatchSize stepSize (e + 1) i
      = predict ds
          (beforeMinibatch ds minibatchSize stepSize (epochStart ds minibatchSize stepSize e)
            (i / minibatchSize)).x i
        - ds.b i ∧
    (epochStart ds minibatchSize stepSize (e + 1 + 1)).error i
      = predict ds
          (beforeMinibatch ds minibatchSize stepSize (epochStart ds minibatchSize stepSize e)
            (i / minibatchSize)).x i
        - ds.b i := by
  have hinf : (epochStart ds minibatchSize stepSize (e + 1)).inference i
      = predict ds
          (beforeMinibatch ds minibatchSize stepSize (epochStart ds minibatchSize stepSize e)
            (i / minibatchSize)).x i := by
    rw [epochStart_succ]
    exact (scalarEpoch_buffers ds minibatchSize stepSize hmb hS _ i hi).2
  have hsum := numMinibatches_mul_add_rest ds.numSamples minibatchSize hS
  have hdm := Nat.div_add_mod i minibatchSize
  have hmod := Nat.mod_lt i hmb
  rw [Nat.mul_comm] at hdm
  constructor
  · unfold residualOfSample
    by_cases hm : i / minibatchSize < numMinibatches ds.numSamples minibatchSize
    · rw [if_pos hm, residualsOfMinibatch_eq ds minibatchSize stepSize (e + 1)
        (i / minibatchSize) i (by omega) (by omega), hinf]
    · have hge : numMinibatches ds.numSamples minibatchSize * minibatchSize
          ≤ i / minibatchSize * minibatchSize :=
        Nat.mul_le_mul_right _ (Nat.le_of_not_lt hm)
      rw [if_neg hm, residualsOfRest_eq ds minibatchSize stepSize hS (e + 1) i (by omega) hi,
        hinf]
  · rw [epochStart_succ ds minibatchSize stepSize (e + 1),
      (scalarEpoch_buffers ds minibatchSize stepSize hmb hS _ i hi).1, hinf]

theorem residual_is_one_epoch_old_witness :
    0 < 2 ∧ (Dataset.ofLists [[1, 1, 1, 1, 1]] [1, 2, 4, 8, 16]).numSamples < 4294967296 ∧
    4 < (Dataset.ofLists [[1, 1, 1, 1, 1]] [1, 2, 4, 8, 16]).numSamples ∧
    residualOfSample (Dataset.ofLists [[1, 1, 1, 1, 1]] [1, 2, 4, 8, 16]) 2 (1 / 10) (1 + 1) 4
      = predict (Dataset.ofLists [[1, 1, 1, 1, 1]] [1, 2, 4, 8, 16])
          (beforeMinibatch (Dataset.ofLists [[1, 1, 1, 1, 1]] [1, 2, 4, 8, 16]) 2 (1 / 10)
            (epochStart (Dataset.ofLists [[1, 1, 1, 1, 1]] [1, 2, 4, 8, 16]) 2 (1 / 10) 1)
            (4 / 2)).x 4
        - (Dataset.ofLists [[1, 1, 1, 1, 1]] [1, 2, 4, 8, 16]).b 4 :=
  ⟨by decide, by decide, by decide,
    (residual_is_one_epoch_old (Dataset.ofLists [[1, 1, 1, 1, 1]] [1, 2, 4, 8, 16]) 2 (1 / 10)
      (by decide) (by decide) 1 4 (by decide)).1⟩

/-! ## The order of the coordinates within a step -/

theorem coordinateStep_comm (ds : Dataset) (stepSize : ℚ) (lo n : Nat) (st : State)
    (j j' : Nat) :
    coordinateStep ds stepSize (List.range' lo n)
        (coordinateStep ds stepSize (List.range' lo n) st j) j'
      = coordinateStep ds stepSize (List.range' lo n)
        (coordinateStep ds stepSize (List.range' lo n) st j') j := by
  by_cases h : j = j'
  · subst h
    rfl
  · have h' : j' ≠ j := fun e => h e.symm
    rw [coordinateStep_range', coordinateStep_range', coordinateStep_range',
      coordinateStep_range']
    dsimp only
    rw [Function.update_noteq h', Function.update_noteq h]
    congr 1
    · exact Function.update_comm h _ _ _
    · funext t
      by_cases ht : lo ≤ t ∧ t < lo + n
      · simp only [ht, and_self, if_true]
        ring
      · simp only [ht, if_false]

theorem coordinateSteps_perm (ds : Dataset) (stepSize : ℚ) (lo n : Nat) (st : State)
    (js js' : List Nat) (hperm : js.Perm js') :
    js.foldl (coordinateStep ds stepSize (List.range' lo n)) st
      = js'.foldl (coordinateStep ds stepSize (List.range' lo n)) st :=
  hperm.foldl_eq' (fun j _ j' _ z => coordinateStep_comm ds stepSize lo n z j j') st

/-- **C22.** Within one step of `float_linreg_SCD`, for the full minibatch `m` as for the
remainder pass, running the coordinate loop over any permutation `js` of
`0 .. numFeatures-1` after the residual loop ends in the same state as the ascending order
of the source: same weights `x`, same `inference`, same `error`. -/
theorem coordinate_order_is_irrelevant (ds : Dataset) (stepSize : ℚ) (minibatchSize : Nat)
    (st : State) (js : List Nat) (hperm : js.Perm (forRange 0 ds.numFeatures)) :
    (∀ m,
      js.foldl (coordinateStep ds stepSize (minibatchIdxs m minibatchSize))
          (residualPass ds (minibatchIdxs m minibatchSize) st)
        = scalarStep ds stepSize (minibatchIdxs m minibatchSize) st) ∧
    js.foldl
        (coordinateStep ds stepSize (restIdxs ds.numSamples (rest ds.numSamples minibatchSize)))
        (residualPass ds (restIdxs ds.numSamples (rest ds.numSamples minibatchSize)) st)
      = scalarStep ds stepSize (restIdxs ds.numSamples (rest ds.numSamples minibatchSize))
          st := by
  constructor
  · intro m
    unfold scalarStep coordinatePass
    rw [minibatchIdxs_eq]
    exact coordinateSteps_perm ds stepSize _ _ _ js _ hperm
  · unfold scalarStep coordinatePass restIdxs
    unfold forRange at hperm ⊢
    exact coordinateSteps_perm ds stepSize _ _ _ js _ hperm

theorem coordinate_order_is_irrelevant_witness :
    [2, 0, 1].Perm (forRange 0 (Dataset.ofLists [[1, 1, 1], [1, 2, 3], [4, 0, 5]] [1, 2, 4]).numFeatures) ∧
    [2, 0, 1].foldl
        (coordinateStep (Dataset.ofLists [[1, 1, 1], [1, 2, 3], [4, 0, 5]] [1, 2, 4]) (1 / 10)
          (minibatchIdxs 0 2))
        (residualPass (Dataset.ofLists [[1, 1, 1], [1, 2, 3], [4, 0, 5]] [1, 2, 4])
          (minibatchIdxs 0 2) State.init)
      = scalarStep (Dataset.ofLists [[1, 1, 1], [1, 2, 3], [4, 0, 5]] [1, 2, 4]) (1 / 10)
          (minibatchIdxs 0 2) State.init :=
  ⟨by decide,
    (coordinate_order_is_irrelevant (Dataset.ofLists [[1, 1, 1], [1, 2, 3], [4, 0, 5]] [1, 2, 4])
      (1 / 10) 2 State.init [2, 0, 1] (by decide)).1 0⟩
/-! ## A minibatch larger than the dataset -/

theorem scalarEpoch_of_large_minibatch (ds : Dataset) (minibatchSize : Nat) (stepSize : ℚ)
    (hS1 : 1 ≤ ds.numSamples) (hS : ds.numSamples < 4294967296)
    (hmb : ds.numSamples < minibatchSize) (st : State) :
    scalarEpoch ds minibatchSize stepSize st
      = scalarStep ds stepSize (List.range' 0 ds.numSamples) st := by
  have hnm : numMinibatches ds.numSamples minibatchSize = 0 := Nat.div_eq_of_lt hmb
  have hrest : rest ds.numSamples minibatchSize = ds.numSamples := by
    rw [rest_eq_mod minibatchSize hS]
    exact Nat.mod_eq_of_lt hmb
  have hidx := restIdxs_eq ds.numSamples minibatchSize hS
  rw [hrest, Nat.sub_self] at hidx
  unfold scalarEpoch restPass
  rw [hnm, hrest, if_pos (by omega), hidx]
  rfl

theorem scalarEpoch_of_whole_minibatch (ds : Dataset) (stepSize : ℚ)
    (hS1 : 1 ≤ ds.numSamples) (hS : ds.numSamples < 4294967296) (st : State) :
    scalarEpoch ds ds.numSamples stepSize st
      = scalarStep ds stepSize (List.range' 0 ds.numSamples) st := by
  have hnm : numMinibatches ds.numSamples ds.numSamples = 1 := Nat.div_self hS1
  have hrest : rest ds.numSamples ds.numSamples = 0 := by
    rw [rest_eq_mod ds.numSamples hS]
    exact Nat.mod_self _
  unfold scalarEpoch restPass
  have hone : List.range 1 = [0] := rfl
  rw [hnm, hrest, if_neg (by omega), forRange_zero, hone]
  simp only [List.foldl_cons, List.foldl_nil]
  rw [minibatchIdxs_eq, Nat.zero_mul]

/-- **C23.** For every dataset with `1 ≤ numSamples` (a 32-bit value), every history
argument, number of epochs and step size, `float_linreg_SCD` with any
`minibatchSize > numSamples` (no full minibatch, `rest = numSamples`) ends exactly as with
`minibatchSize = numSamples` (one full minibatch, `rest = 0`): same history buffer, same
final weights and printed losses. -/
theorem large_minibatch_eq_whole_minibatch (ds : Dataset) (x_history : Option Hist)
    (numEpochs minibatchSize : Nat) (stepSize : ℚ) (hS1 : 1 ≤ ds.numSamples)
    (hS : ds.numSamples < 4294967296) (hmb : ds.numSamples < minibatchSize) :
    numMinibatches ds.numSamples minibatchSize = 0 ∧
    rest ds.numSamples minibatchSize = ds.numSamples ∧
    numMinibatches ds.numSamples ds.numSamples = 1 ∧
    rest ds.numSamples ds.numSamples = 0 ∧
    float_linreg_SCD ds x_history numEpochs minibatchSize stepSize
      = float_linreg_SCD ds x_history numEpochs ds.numSamples stepSize := by
  have hne1 : ¬ minibatchSize = 0 := by omega
  have hne2 : ¬ ds.numSamples = 0 := by omega
  have hep : scalarEpoch ds minibatchSize stepSize = scalarEpoch ds ds.numSamples stepSize := by
    funext st
    rw [scalarEpoch_of_large_minibatch ds minibatchSize stepSize hS1 hS hmb,
      scalarEpoch_of_whole_minibatch ds stepSize hS1 hS]
  refine ⟨Nat.div_eq_of_lt hmb, ?_, Nat.div_self hS1, ?_, ?_⟩
  · rw [rest_eq_mod minibatchSize hS]
    exact Nat.mod_eq_of_lt hmb
  · rw [rest_eq_mod ds.numSamples hS]
    exact Nat.mod_self _
  · unfold float_linreg_SCD scalarEpochs
    simp only [hne1, hne2, if_false, hep]

theorem large_minibatch_eq_whole_minibatch_witness :
    1 ≤ scenarioDataset.numSamples ∧ scenarioDataset.numSamples < 4294967296 ∧
    scenarioDataset.numSamples < 7 ∧
    float_linreg_SCD scenarioDataset (some emptyHist) 3 7 (1 / 1000)
      = float_linreg_SCD scenarioDataset (some emptyHist) 3 scenarioDataset.numSamples
          (1 / 1000) :=
  ⟨by decide, by decide, by decide,
    (large_minibatch_eq_whole_minibatch scenarioDataset (some emptyHist) 3 7 (1 / 1000)
      (by decide) (by decide) (by decide)).2.2.2.2⟩

/-! ## Indices of the 8-wide loads and stores when `minibatchSize` is not a multiple of 8 -/

theorem mem_avxTouched (base minibatchSize t : Nat) :
    t ∈ avxTouched base minibatchSize
      ↔ base % 8 = 0 ∧ base ≤ t ∧ t < base + 8 * ((minibatchSize + 7) / 8) := by
  unfold avxTouched forStride8
  simp only [List.mem_flatMap, List.mem_map, List.mem_range]
  constructor
  · rintro ⟨i, ⟨c, hc, rfl⟩, ht⟩
    by_cases hal : (base + 8 * c) % 8 = 0
    · rw [if_pos hal] at ht
      simp only [List.mem_map, List.mem_range] at ht
      obtain ⟨k, hk, rfl⟩ := ht
      omega
    · rw [if_neg hal] at ht
      exact absurd ht (List.not_mem_nil _)
  · rintro ⟨hal, h1, h2⟩
    refine ⟨8 * ((t - base) / 8), ⟨(t - base) / 8, by omega, rfl⟩, ?_⟩
    have h3 : (base + 8 * ((t - base) / 8)) % 8 = 0 := by omega
    rw [if_pos h3]
    simp only [List.mem_map, List.mem_range]
    exact ⟨(t - base) % 8, by omega, by omega⟩

theorem foldlM_some {α γ : Type} (f : α → γ → Option α) (l : List γ)
    (h : ∀ a c, c ∈ l → ∃ a', f a c = some a') : ∀ a, ∃ a', l.foldlM f a = some a' := by
  induction l with
  | nil => intro a; exact ⟨a, rfl⟩
  | cons c l ih =>
    intro a
    obtain ⟨a1, h1⟩ := h a c (List.mem_cons_self _ _)
    rw [List.foldlM_cons, h1]
    simp only [Option.bind_eq_bind, Option.some_bind]
    exact ih (fun a c' hc' => h a c' (List.mem_cons_of_mem _ hc')) _

/-- A minibatch whose start index is a multiple of 8 is processed without a fault, whatever
`minibatchSize` is. -/
theorem avxStep_aligned (ds : Dataset) (stepSize : ℚ) (m minibatchSize : Nat)
    (hal : (m * minibatchSize) % 8 = 0) (st : State) :
    ∃ st', avxStep ds stepSize m minibatchSize st = some st' := by
  unfold avxStep
  rw [avxResidualLoop_eq _ _ _ hal]
  simp only [Option.bind_eq_bind, Option.some_bind]
  refine foldlM_some _ _ ?_ _
  intro a j _
  unfold avxCoordinateStep
  obtain ⟨g, hr, _⟩ := avxGradientLoop_eq (ds.a j) a.error (a.x j) (m * minibatchSize)
    minibatchSize hal a.inference
  rw [hr]
  exact ⟨_, rfl⟩

/-- A minibatch whose start index is not a multiple of 8 faults in its residual loop. -/
theorem avxStep_misaligned (ds : Dataset) (stepSize : ℚ) (m minibatchSize : Nat)
    (hpos : 0 < minibatchSize) (hal : (m * minibatchSize) % 8 ≠ 0) (st : State) :
    avxStep ds stepSize m minibatchSize st = none := by
  unfold avxStep
  rw [avxResidualLoop_misaligned _ _ _ hpos hal]
  rfl

/-- With a `minibatchSize` that is not a multiple of 8 and at least two full minibatches, an
epoch of `AVX_float_linreg_SCD` faults in minibatch 1. -/
theorem avxEpoch_faults (ds : Dataset) (minibatchSize : Nat) (stepSize : ℚ)
    (hpos : 0 < minibatchSize) (h8 : minibatchSize % 8 ≠ 0)
    (h2 : 2 * minibatchSize ≤ ds.numSamples) (st : State) :
    avxEpoch ds minibatchSize stepSize st = none := by
  have hnm : 2 ≤ numMinibatches ds.numSamples minibatchSize :=
    (Nat.le_div_iff_mul_le hpos).2 h2
  obtain ⟨k, hk⟩ : ∃ k, numMinibatches ds.numSamples minibatchSize - 0 = k + 2 :=
    ⟨numMinibatches ds.numSamples minibatchSize - 2, by omega⟩
  obtain ⟨st1, h1⟩ := avxStep_aligned ds stepSize 0 minibatchSize (by simp) st
  have hmis : (1 * minibatchSize) % 8 ≠ 0 := by omega
  unfold avxEpoch forRange
  rw [hk, List.range'_succ, List.range'_succ, List.foldlM_cons, h1]
  simp only [Option.bind_eq_bind, Option.some_bind]
  rw [foldlM_none_cons _ _ _ _ (avxStep_misaligned ds stepSize 1 minibatchSize hpos hmis st1)]
  rfl

/-- **C24, counterexample.** With `numSamples = 8` and `minibatchSize = 4` (not a multiple of
8, two full minibatches) the loops of minibatch `m = 1` do not touch the index `1*4 + 4 = 8`:
the start index `4` is not a multiple of 8, so the first aligned load of the residual loop
(and of the update loop) faults, no cell is touched, and the call is killed. -/
theorem avx_second_minibatch_faults :
    0 < 4 ∧ 4 % 8 ≠ 0 ∧ 4 ≤ 8 ∧ 1 < numMinibatches 8 4 ∧
    1 * 4 + 4 ∉ avxTouched (1 * 4) 4 ∧
    (avxResidualLoop (fun _ => 1) (1 * 4) 4 (fun _ => 0, fun _ => 0)).isNone = true ∧
    (avxGradientLoop (fun _ => 1) (fun _ => 0) 0 (1 * 4) 4 (fun _ => 0)).isNone = true ∧
    (AVX_float_linreg_SCD
      (Dataset.ofLists [[1, 1, 1, 1, 1, 1, 1, 1]] [1, 1, 1, 1, 1, 1, 1, 1])
      (some emptyHist) 1 4 (1 / 1000)).killedByFault = true := by
  decide!

/-- **C24, amended.** For every `minibatchSize > 0` that is not a multiple of 8 (and at most
`2^32 - 8`, so that the `uint32_t` counter of `i += 8` does not wrap) and every
`numSamples ≥ minibatchSize`, the 8-wide accesses of the vectorised loops of
`AVX_float_linreg_SCD` for the first minibatch (`m = 0`) touch the index `minibatchSize`,
which is not an index of that minibatch: neither loop faults, the residual loop overwrites
`error` and `inference` there and the update loop adds to `inference` there. When
`minibatchSize` divides `numSamples` and the first minibatch is the last, that index is
`≥ numSamples`, outside the buffers; so it is for `numSamples = 4`, `minibatchSize = 4`. The
loops of a minibatch `m` whose start index `m*minibatchSize` is not a multiple of 8 touch no
cell, because their first aligned 8-wide load faults; minibatch 1 is such a minibatch, so
every call with `numSamples ≥ 2*minibatchSize` and at least one epoch is killed by that
fault. -/
theorem avx_accesses_leave_first_minibatch (numSamples minibatchSize : Nat)
    (hpos : 0 < minibatchSize) (h8 : minibatchSize % 8 ≠ 0)
    (hwrap : minibatchSize ≤ 4294967288) (hge : minibatchSize ≤ numSamples) :
    0 < numMinibatches numSamples minibatchSize ∧
    0 * minibatchSize + minibatchSize ∈ avxTouched (0 * minibatchSize) minibatchSize ∧
    0 * minibatchSize + minibatchSize ∉ minibatchIdxs 0 minibatchSize ∧
    (∀ (b error inference : Buf), ∃ r,
      avxResidualLoop b (0 * minibatchSize) minibatchSize (error, inference) = some r ∧
      r.1 (0 * minibatchSize + minibatchSize)
        = inference (0 * minibatchSize + minibatchSize)
          - b (0 * minibatchSize + minibatchSize) ∧
      r.2 (0 * minibatchSize + minibatchSize) = 0) ∧
    (∀ (aj error : Buf) (xj : ℚ) (inference : Buf), ∃ r,
      avxGradientLoop aj error xj (0 * minibatchSize) minibatchSize inference = some r ∧
      r.2 (0 * minibatchSize + minibatchSize)
        = inference (0 * minibatchSize + minibatchSize)
          + aj (0 * minibatchSize + minibatchSize) * xj) ∧
    (minibatchSize ∣ numSamples → 0 + 1 = numMinibatches numSamples minibatchSize →
      numSamples ≤ 0 * minibatchSize + minibatchSize) ∧
    (4 ∈ avxTouched (0 * 4) 4 ∧ numMinibatches 4 4 = 1 ∧ ¬ 4 < 4) ∧
    (∀ m, (m * minibatchSize) % 8 ≠ 0 →
      avxTouched (m * minibatchSize) minibatchSize = [] ∧
      (∀ (b : Buf) (bufs : Buf × Buf),
        avxResidualLoop b (m * minibatchSize) minibatchSize bufs = none) ∧
      (∀ (aj error : Buf) (xj : ℚ) (inference : Buf),
        avxGradientLoop aj error xj (m * minibatchSize) minibatchSize inference = none)) ∧
    (1 * minibatchSize) % 8 ≠ 0 ∧
    (∀ (ds : Dataset) (x_history : Option Hist) (numEpochs : Nat) (stepSize : ℚ),
      ds.numSamples = numSamples → 2 * minibatchSize ≤ numSamples → 0 < numEpochs →
      AVX_float_linreg_SCD ds x_history numEpochs minibatchSize stepSize
        = Outcome.faulted) := by
  have hal : (0 * minibatchSize) % 8 = 0 := by simp
  have hin : 0 * minibatchSize ≤ 0 * minibatchSize + minibatchSize ∧
      0 * minibatchSize + minibatchSize
        < 0 * minibatchSize + 8 * ((minibatchSize + 7) / 8) := by
    omega
  refine ⟨?_, ?_, ?_, ?_, ?_, ?_, by decide, ?_, by omega, ?_⟩
  · exact (Nat.le_div_iff_mul_le hpos).2 (by omega)
  · exact (mem_avxTouched _ _ _).2 ⟨hal, hin⟩
  · rw [minibatchIdxs_eq]
    simp
  · intro b error inference
    refine ⟨_, avxResidualLoop_eq b _ minibatchSize hal error inference, ?_, ?_⟩
    · simp only [hin, and_self, if_true]
    · simp only [hin, and_self, if_true]
  · intro aj error xj inference
    obtain ⟨g, hr, _⟩ := avxGradientLoop_eq aj error xj (0 * minibatchSize) minibatchSize hal
      inference
    refine ⟨_, hr, ?_⟩
    simp only [hin, and_self, if_true]
  · intro hdvd hlast
    have h1 : numMinibatches numSamples minibatchSize * minibatchSize = numSamples :=
      Nat.div_mul_cancel hdvd
    rw [← hlast] at h1
    omega
  · intro m hm
    refine ⟨?_, ?_, ?_⟩
    · rw [List.eq_nil_iff_forall_not_mem]
      intro t ht
      exact hm ((mem_avxTouched _ _ _).1 ht).1
    · intro b bufs
      exact avxResidualLoop_misaligned b _ minibatchSize hpos hm bufs
    · intro aj error xj inference
      exact avxGradientLoop_misaligned aj error xj _ minibatchSize hpos hm inference
  · intro ds x_history numEpochs stepSize hds h2 hne
    have hguard : ¬ minibatchSize % 8 = 8 := by omega
    have h0 : ¬ minibatchSize = 0 := by omega
    obtain ⟨k, hk⟩ : ∃ k, numEpochs - 0 = k + 1 := ⟨numEpochs - 1, by omega⟩
    have hepochs : avxEpochs ds numEpochs minibatchSize stepSize
        (State.init, initialLog ds x_history) = none := by
      unfold avxEpochs forRange
      rw [hk, List.range'_succ]
      apply foldlM_none_cons
      dsimp only
      rw [avxEpoch_faults ds minibatchSize stepSize hpos h8 (by omega)]
      rfl
    unfold AVX_float_linreg_SCD
    simp only [hguard, h0, if_false, hepochs]

theorem avx_accesses_leave_first_minibatch_witness :
    0 < 4 ∧ 4 % 8 ≠ 0 ∧ 4 ≤ 4294967288 ∧ 4 ≤ 4 ∧
    0 * 4 + 4 ∈ avxTouched (0 * 4) 4 ∧
    (4 ∣ 4 → 0 + 1 = numMinibatches 4 4 → 4 ≤ 0 * 4 + 4) :=
  ⟨by decide, by decide, by decide, by decide,
    (avx_accesses_leave_first_minibatch 4 4 (by decide) (by decide) (by decide)
      (by decide)).2.1,
    (avx_accesses_leave_first_minibatch 4 4 (by decide) (by decide) (by decide)
      (by decide)).2.2.2.2.2.1⟩

end scd
